import Mathlib

/-!
Round-trip latency test of `bat` (`bat/latencytest.c`)

A shallow embedding of the latency state machine: the amplitude estimator
`sumaudio`, the detection engine `play_and_listen`, the calibrator
`calculate_threshold`, the initialiser `roundtrip_latency_init` and the two
entry points `handleinput` and `handleoutput`.

Modelling conventions.

* C `int` values are unbounded integers: every quantity is a sample count, a
  trial index or a small counter, and signed overflow (undefined in C) is left
  out of the model.
* C `float` values are the rationals that IEEE 754 binary32 represents: every
  float operation and every conversion to `float` computes the exact result
  and rounds it with `to_float` (round to nearest, ties to even), as a target
  that evaluates `float` expressions in single precision does.  Infinities and
  NaN are not values of the model: overflow is left out, and the one place
  where a division by zero decides control flow, the division `max / min` of
  the consistency gate, spells it out (`float_div_gt`); elsewhere a division
  by zero yields 0.  The libm functions `log10f` and `powf` are parameters of
  the model (`Env`), taken to return `float` values.
* The capture block is the list of the 16 bit samples at `buffer`; the
  playback block is the list of its bytes.  A read behind the end of the list
  yields 0; a write of a sample behind the end of the list extends the list
  (the scan loop of `play_and_listen` writes one sample past the block).  For
  the two arrays `result` and `test_db` of the context and for the playback
  block, a read outside yields 0 and a write outside is dropped.
* `exit(1)` is the result `none` of `handleinput`.
* Text written to the log and error streams is not part of the model.
* `common.h` is not among the sources: the constants `LATENCY_TEST_NUMBER`,
  `LATENCY_TEST_DB_NUMBER`, `LATENCY_TEST_MAX`, `LATENCY_TEST_TIME_LIMIT`,
  the numeric values of the state enumeration and the external tone generator
  `generate_sine_wave` are parameters (`Env`).
-/

namespace Latencytest

/-! ## Data model -/

/-- The lifecycle phases `enum latency_state` named in `latencytest.c`. -/
inductive LatencyState
  | LATENCY_STATE_MEASURE_FOR_1_SECOND_SKIP_LEAD
  | LATENCY_STATE_MEASURE_FOR_1_SECOND
  | LATENCY_STATE_PLAY_AND_LISTEN
  | LATENCY_STATE_WAITING
  | LATENCY_STATE_COMPLETE_SUCCESS
  | LATENCY_STATE_COMPLETE_FAILURE
  deriving DecidableEq, Repr

open LatencyState

/-- The fields of `bat->latency` that `latencytest.c` reads or writes. -/
structure RoundtripLatency where
  number : Int
  state : LatencyState
  latest_playback_state : LatencyState
  final_result : Int
  samples : Int
  measure_skip_samples : Int
  sum : ℚ
  threshold : Int
  measure_avgdb : ℚ
  is_capturing : Bool
  is_playing : Bool
  error : Int
  xrun_error : Bool
  wait_samples : Int
  silence_artifact : Int
  silence_artifact_def : Int
  test_db : List ℚ
  test_db_num : Int
  result : List ℚ
  deriving DecidableEq, Repr

/-- The fields of `struct bat` that `latencytest.c` reads or writes
(`capture.facc` only feeds log lines and is left out).  The period size is an
unsigned frame count (`snd_pcm_uframes_t`), the other fields are `int`. -/
structure Bat where
  rate : Int
  channels : Int
  frames : Int
  period_size : Nat
  periods_played : Int
  latency : RoundtripLatency
  deriving DecidableEq, Repr

/-- What `latencytest.c` takes from outside the file: the constants of
`common.h`, the numeric value of each state, libm, and the tone generator. -/
structure Env where
  LATENCY_TEST_NUMBER : Int
  LATENCY_TEST_DB_NUMBER : Int
  LATENCY_TEST_MAX : Int
  LATENCY_TEST_TIME_LIMIT : Int
  state_value : LatencyState → Int
  log10f : ℚ → ℚ
  powf : ℚ → ℚ → ℚ
  generate_sine_wave : Bat → Int → List Nat → Int × List Nat

/-! ## Single precision -/

/-- The nearest integer to a rational, a tie going to the even one. -/
def round_even (y : ℚ) : Int :=
  if 2 * (y - (⌊y⌋ : ℚ)) < 1 then ⌊y⌋
  else if 1 < 2 * (y - (⌊y⌋ : ℚ)) then ⌊y⌋ + 1
  else if ⌊y⌋ % 2 = 0 then ⌊y⌋ else ⌊y⌋ + 1

/-- The number of times `n` can be halved before it drops below 2, with at
most `fuel` halvings: the floor of the binary logarithm when `fuel ≥ n`. -/
def log2_fuel : Nat → Nat → Nat
  | 0, _ => 0
  | fuel + 1, n => if n < 2 then 0 else log2_fuel fuel (n / 2) + 1

/-- The binary exponent of a positive rational `x`: the `e` with
`2^e ≤ x < 2^(e+1)`. -/
def binary_exponent (x : ℚ) : Int :=
  if x < (2 : ℚ) ^ ((log2_fuel x.num.natAbs x.num.natAbs : Int) - (log2_fuel x.den x.den : Int))
  then (log2_fuel x.num.natAbs x.num.natAbs : Int) - (log2_fuel x.den x.den : Int) - 1
  else (log2_fuel x.num.natAbs x.num.natAbs : Int) - (log2_fuel x.den x.den : Int)

/-- The spacing of the `float` values around a positive rational: 24 bits of
significand, and the spacing `2^-149` of the subnormal range below `2^-126`. -/
def float_ulp (x : ℚ) : ℚ :=
  (2 : ℚ) ^ (max (binary_exponent x) (-126) - 23)

/-- The `float` nearest to a non-negative rational, ties to even. -/
def round_float (x : ℚ) : ℚ :=
  (round_even (x / float_ulp x) : ℚ) * float_ulp x

/-- The rounding of an exact value to `float` (IEEE 754 binary32, round to
nearest, ties to even) that every float operation and every conversion to
`float` ends with.  Values are finite: overflow to an infinity is left out. -/
def to_float (x : ℚ) : ℚ :=
  if x < 0 then -round_float (-x) else round_float x

/-! ## C arithmetic helpers -/

/-- The conversion `(int) x` of a float: truncation toward zero. -/
def float_to_int (x : ℚ) : Int :=
  if 0 ≤ x then ⌊x⌋ else ⌈x⌉

/-- The float comparison `a / b > c`.  A division by zero gives an infinity
with the sign of `a`, or NaN for `0 / 0`, and NaN compares false. -/
def float_div_gt (a b c : ℚ) : Bool :=
  if b = 0 then decide (0 < a) else decide (to_float (a / b) > c)

/-- Conversion of an `int` to `short int` (two's complement wrap-around). -/
def to_short (x : Int) : Int :=
  (x + 32768) % 65536 - 32768

/-- The read `a[i]` of an array of floats. -/
def float_at (a : List ℚ) (i : Int) : ℚ :=
  if 0 ≤ i then a.getD i.toNat 0 else 0

/-- The write `a[i] = v` of an array of floats. -/
def float_store (a : List ℚ) (i : Int) (v : ℚ) : List ℚ :=
  if 0 ≤ i then a.set i.toNat v else a

/-- The read `buffer[i]` of a block of samples. -/
def sample_at (buffer : List Int) (i : Nat) : Int :=
  buffer.getD i 0

/-- The write `buffer[i] = v` of a sample at or behind `buffer`. -/
def sample_store (buffer : List Int) (i : Nat) (v : Int) : List Int :=
  if i < buffer.length then buffer.set i (to_short v)
  else buffer ++ List.replicate (i - buffer.length) 0 ++ [to_short v]

/-- The call `memset(buffer, 0, bytes)` on a block of bytes. -/
def memset_zero (buffer : List Nat) (bytes : Int) : List Nat :=
  List.replicate (min bytes.toNat buffer.length) 0 ++ buffer.drop bytes.toNat

/-! ## Amplitude estimator -/

/-- The inner loop of `sumaudio`: `channels` samples from position `pos`. -/
def sumaudio_channels (buffer : List Int) : Nat → Nat → ℚ → ℚ × Nat
  | 0, pos, sum => (sum, pos)
  | n + 1, pos, sum =>
    sumaudio_channels buffer n (pos + 1)
      (to_float (sum + to_float ((|sample_at buffer pos| : Int) : ℚ)))

/-- The outer loop of `sumaudio`: one round of the inner loop per frame. -/
def sumaudio_frames (channels : Nat) (buffer : List Int) : Nat → Nat → ℚ → ℚ
  | 0, _, sum => sum
  | f + 1, pos, sum =>
    let r := sumaudio_channels buffer channels pos sum
    sumaudio_frames channels buffer f r.2 r.1

/-- The function `sumaudio`: the sum of the absolute sample values of the
block, divided by the channel count.  (For a negative frame count the C
loop does not stop; the model runs it zero times.) -/
def sumaudio (bat : Bat) (buffer : List Int) (frames : Int) : ℚ :=
  to_float (sumaudio_frames bat.channels.toNat buffer frames.toNat 0 0 /
    to_float (bat.channels : ℚ))

/-- The local `averageinput` of `play_and_listen`. -/
def averageinput (bat : Bat) (buffer : List Int) (frames : Int) : Int :=
  float_to_int (to_float (sumaudio bat buffer frames / to_float (frames : ℚ)))

/-! ## Detection engine -/

/-- The scan loop of `play_and_listen`, `while (n < frames)`, run with `k`
frames left: it stops at the first sample above the threshold and, after each
sample that is not, adds `channels` to the sample that follows.  Returns the
final `n` and the block as the loop leaves it. -/
def scan_loop (threshold channels : Int) (k : Nat) (n : Nat) (buffer : List Int) :
    Nat × List Int :=
  match k with
  | 0 => (n, buffer)
  | k + 1 =>
    if sample_at buffer n > threshold then (n, buffer)
    else
      scan_loop threshold channels k (n + 1)
        (sample_store buffer (n + 1) (sample_at buffer (n + 1) + channels))

/-- The loop `for (n = 0; n < num; n++)` of `play_and_listen` over the first
`k` results, from the running `(max, min, sum)`. -/
def result_stats (result : List ℚ) (k : Nat) : ℚ × ℚ × ℚ :=
  (List.range k).foldl
    (fun acc (n : Nat) =>
      let r := float_at result (n : Int)
      (if r > acc.1 then r else acc.1,
       if r < acc.2.1 then r else acc.2.1,
       to_float (acc.2.2 + r)))
    (0, 100000, 0)

/-- The closing statement of `play_and_listen`: `samples` is cleared when the
state is WAITING. -/
def clear_samples_if_waiting (l : RoundtripLatency) : RoundtripLatency :=
  if l.state = LATENCY_STATE_WAITING then { l with samples := 0 } else l

/-- The diagnostic record at the top of `play_and_listen`. -/
def record_test_db (env : Env) (l : RoundtripLatency) (avg : Int) : RoundtripLatency :=
  if l.test_db_num < env.LATENCY_TEST_DB_NUMBER then
    { l with
      test_db := float_store l.test_db l.test_db_num
        (to_float (20 * env.log10f (to_float (to_float (avg : ℚ) / 32767))))
      test_db_num := l.test_db_num + 1 }
  else l

/-- The function `play_and_listen`. -/
def play_and_listen (env : Env) (bat : Bat) (buffer : List Int) (frames : Int) :
    Bat × List Int :=
  let num := bat.latency.number
  let facc_sz := bat.latency.samples + frames
  let avg := averageinput bat buffer frames
  let l0 := record_test_db env bat.latency avg
  if avg > l0.threshold then
    let sc := scan_loop l0.threshold bat.channels frames.toNat 0 buffer
    let l1 := { l0 with samples := l0.samples + (sc.1 : Int) }
    if l1.samples > frames then
      let l2 := { l1 with
        result := float_store l1.result (num - 1)
          (to_float (to_float (to_float (l1.samples : ℚ) * 1000) / to_float (bat.rate : ℚ))) }
      let st := result_stats l2.result num.toNat
      if float_div_gt st.1 st.2.1 2 then
        ({ bat with latency :=
            { l2 with state := LATENCY_STATE_COMPLETE_FAILURE, is_capturing := false } },
         sc.2)
      else if num = env.LATENCY_TEST_NUMBER then
        ({ bat with latency :=
            { l2 with
              final_result :=
                float_to_int (to_float (st.2.2 / to_float (env.LATENCY_TEST_NUMBER : ℚ)))
              state := LATENCY_STATE_COMPLETE_SUCCESS
              is_capturing := false } },
         sc.2)
      else
        let l3 := { l2 with
          state := LATENCY_STATE_WAITING
          wait_samples := l2.wait_samples - (facc_sz + (bat.period_size : Int) * 10) }
        let l4 := { l3 with number := l3.number + 1 }
        ({ bat with latency := clear_samples_if_waiting l4 }, sc.2)
    else
      let l2 := { l1 with
        state := LATENCY_STATE_WAITING
        wait_samples := l1.wait_samples - (facc_sz + (bat.period_size : Int) * 10) }
      ({ bat with latency := clear_samples_if_waiting l2 }, sc.2)
  else
    let l1 := { l0 with samples := l0.samples + frames }
    if l1.samples > l1.wait_samples then
      let l2 := { l1 with error := l1.error + 1 }
      if l2.error > env.LATENCY_TEST_NUMBER then
        ({ bat with latency :=
            { l2 with state := LATENCY_STATE_COMPLETE_FAILURE, is_capturing := false } },
         buffer)
      else
        let l3 := { l2 with
          state := LATENCY_STATE_WAITING
          wait_samples := (bat.period_size : Int) * 10 }
        ({ bat with latency := clear_samples_if_waiting l3 }, buffer)
    else
      ({ bat with latency := clear_samples_if_waiting l1 }, buffer)

/-! ## Calibrator and initialiser -/

/-- The function `calculate_threshold`. -/
def calculate_threshold (env : Env) (bat : Bat) : Bat :=
  let average := to_float (to_float (bat.latency.sum / to_float (bat.latency.samples : ℚ)) / 32767)
  let avgdb := to_float (20 * env.log10f average)
  let reference := to_float (avgdb + 16)
  { bat with latency :=
      { bat.latency with
        measure_avgdb := avgdb
        threshold :=
          float_to_int (to_float (env.powf 10 (to_float (reference / 20)) * 32767)) } }

/-- The helper `roundup(_v, _d)` defined inside `roundtrip_latency_init`,
with the truncating division of C. -/
def roundup (v d : Int) : Int :=
  Int.tdiv (v + d - 1) d * d

/-- The function `roundtrip_latency_init`. -/
def roundtrip_latency_init (env : Env) (bat : Bat) : Bat :=
  { bat with
    latency :=
      { bat.latency with
        number := 1
        state := LATENCY_STATE_MEASURE_FOR_1_SECOND_SKIP_LEAD
        latest_playback_state := LATENCY_STATE_MEASURE_FOR_1_SECOND_SKIP_LEAD
        final_result := 0
        samples := 0
        measure_skip_samples := roundup (Int.tdiv (bat.rate * 2) 10) (bat.period_size : Int)
        sum := 0
        threshold := 0
        is_capturing := false
        is_playing := false
        error := 0
        xrun_error := false }
    frames := env.LATENCY_TEST_TIME_LIMIT * bat.rate
    periods_played := 0 }

/-! ## Entry points -/

/-- The body of `case LATENCY_STATE_MEASURE_FOR_1_SECOND` of `handleinput`. -/
def measure_for_1_second (env : Env) (bat : Bat) (buffer : List Int) (frames : Int) : Bat :=
  let b1 := { bat with latency :=
    { bat.latency with
      sum := to_float (bat.latency.sum + sumaudio bat buffer frames)
      samples := bat.latency.samples + frames } }
  if b1.latency.samples ≥ b1.rate - b1.latency.measure_skip_samples then
    let b2 := calculate_threshold env b1
    { b2 with latency :=
      { b2.latency with
        state := LATENCY_STATE_PLAY_AND_LISTEN
        samples := 0
        sum := 0
        wait_samples := b2.rate * env.LATENCY_TEST_MAX
        silence_artifact := b2.latency.silence_artifact_def
        test_db_num := 0 } }
  else b1

/-- The function `handleinput`: `none` is `exit(1)`, otherwise the context
and the block as the call leaves them, and the value returned. -/
def handleinput (env : Env) (bat : Bat) (buffer : List Int) (frames : Int) :
    Option (Bat × List Int × Int) :=
  if frames ≠ (bat.period_size : Int) then none
  else if bat.channels ≠ 1 then none
  else
    match bat.latency.state with
    | LATENCY_STATE_MEASURE_FOR_1_SECOND_SKIP_LEAD =>
      if bat.latency.measure_skip_samples > 0 then
        let l1 := { bat.latency with samples := bat.latency.samples + frames }
        if l1.samples ≥ l1.measure_skip_samples then
          some ({ bat with latency :=
                  { l1 with samples := 0, state := LATENCY_STATE_MEASURE_FOR_1_SECOND } },
                buffer, 0)
        else some ({ bat with latency := l1 }, buffer, 0)
      else
        let b1 := { bat with latency :=
          { bat.latency with samples := 0, state := LATENCY_STATE_MEASURE_FOR_1_SECOND } }
        some (measure_for_1_second env b1 buffer frames, buffer, 0)
    | LATENCY_STATE_MEASURE_FOR_1_SECOND =>
      some (measure_for_1_second env bat buffer frames, buffer, 0)
    | LATENCY_STATE_PLAY_AND_LISTEN =>
      let r := play_and_listen env bat buffer frames
      some (r.1, r.2, 0)
    | LATENCY_STATE_WAITING =>
      let l1 := { bat.latency with samples := bat.latency.samples + frames }
      if l1.samples > bat.rate * 3 then
        some ({ bat with latency :=
                { l1 with
                  samples := 0
                  sum := 0
                  state := LATENCY_STATE_MEASURE_FOR_1_SECOND_SKIP_LEAD } },
              buffer, 0)
      else some ({ bat with latency := l1 }, buffer, 0)
    | LATENCY_STATE_COMPLETE_SUCCESS => some (bat, buffer, 0)
    | LATENCY_STATE_COMPLETE_FAILURE => some (bat, buffer, 0)

/-- The function `handleoutput`: the context and the playback block as the
call leaves them, and the value returned. -/
def handleoutput (env : Env) (bat : Bat) (buffer : List Nat) (bytes frames : Int) :
    Bat × List Nat × Int :=
  if bat.periods_played * frames > 2 * bat.rate ∧ bat.latency.is_capturing = false then
    (bat, buffer, env.state_value bat.latency.state)
  else if bat.latency.state = LATENCY_STATE_PLAY_AND_LISTEN then
    if bat.latency.silence_artifact > 0 then
      ({ bat with latency :=
          { bat.latency with
            silence_artifact := bat.latency.silence_artifact - 1
            latest_playback_state := bat.latency.state } },
       memset_zero buffer bytes, 0)
    else
      let g := env.generate_sine_wave bat frames buffer
      ({ bat with latency :=
          { bat.latency with latest_playback_state := bat.latency.state } },
       g.2, g.1)
  else
    ({ bat with latency :=
        { bat.latency with latest_playback_state := bat.latency.state } },
     memset_zero buffer bytes, 0)

/-! ## Runs of the engine -/

/-- One call of the surrounding audio loop into the engine. -/
inductive Call
  | input (buffer : List Int) (frames : Int)
  | output (buffer : List Nat) (bytes frames : Int)

/-- The context after one call, `none` when the call ends the process. -/
def step (env : Env) (bat : Bat) : Call → Option Bat
  | Call.input buffer frames => (handleinput env bat buffer frames).map (fun r => r.1)
  | Call.output buffer bytes frames => some (handleoutput env bat buffer bytes frames).1

/-- The context after a sequence of calls, `none` when one of them ends the
process. -/
def run (env : Env) (bat : Bat) : List Call → Option Bat
  | [] => some bat
  | c :: cs => (step env bat c).bind (fun b => run env b cs)

/-- The calls of a run, each paired with the context it was made in. -/
def trace (env : Env) (bat : Bat) : List Call → List (Bat × Call)
  | [] => []
  | c :: cs =>
    match step env bat c with
    | none => [(bat, c)]
    | some b => (bat, c) :: trace env b cs

/-- The context after a sequence of `handleinput` calls, one per block. -/
def handleinput_seq (env : Env) (bat : Bat) : List (List Int × Int) → Option Bat
  | [] => some bat
  | blk :: rest =>
    (handleinput env bat blk.1 blk.2).bind (fun r => handleinput_seq env r.1 rest)

/-! ## Vocabulary of the statements -/

/-- The first `k` entries of the result array, as the statistics loop reads
them. -/
def recorded_results (result : List ℚ) (k : Nat) : List ℚ :=
  (List.range k).map (fun (n : Nat) => float_at result (n : Int))

/-- The offset `n` at which the scan loop of `play_and_listen` stops. -/
def detect_offset (bat : Bat) (buffer : List Int) (frames : Int) : Nat :=
  (scan_loop bat.latency.threshold bat.channels frames.toNat 0 buffer).1

/-- The condition under which `play_and_listen` records a result: the block
average is above the threshold and the accumulated samples exceed one block. -/
def records_result (bat : Bat) (buffer : List Int) (frames : Int) : Prop :=
  averageinput bat buffer frames > bat.latency.threshold ∧
    bat.latency.samples + (detect_offset bat buffer frames : Int) > frames

instance (bat : Bat) (buffer : List Int) (frames : Int) :
    Decidable (records_result bat buffer frames) := by
  unfold records_result; infer_instance

/-- The latency in milliseconds of a sample count at a sample rate, as
`play_and_listen` computes it: `(float) samples * 1000 / rate`. -/
def latency_ms (samples rate : Int) : ℚ :=
  to_float (to_float (to_float (samples : ℚ) * 1000) / to_float (rate : ℚ))

/-- The latency in milliseconds that `play_and_listen` writes for the block. -/
def new_result (bat : Bat) (buffer : List Int) (frames : Int) : ℚ :=
  latency_ms (bat.latency.samples + (detect_offset bat buffer frames : Int)) bat.rate

/-- The result array once `play_and_listen` has written the new latency into
`result[num - 1]`. -/
def results_after (bat : Bat) (buffer : List Int) (frames : Int) : List ℚ :=
  float_store bat.latency.result (bat.latency.number - 1) (new_result bat buffer frames)

/-- The outcome of the test `max / min > 2.0f` of `play_and_listen` once the
new latency is written. -/
def gate_fires (bat : Bat) (buffer : List Int) (frames : Int) : Bool :=
  float_div_gt (result_stats (results_after bat buffer frames) bat.latency.number.toNat).1
    (result_stats (results_after bat buffer frames) bat.latency.number.toNat).2.1 2

/-- The single precision running sum of the absolute values of a list of
samples, taken in order from `sum`, as the loop of `sumaudio` accumulates it
for a single channel. -/
def float_abs_sum (sum : ℚ) (l : List Int) : ℚ :=
  l.foldl (fun s x => to_float (s + to_float ((|x| : Int) : ℚ))) sum

/-- The running single precision sum of a list of floats, taken in index
order from 0, as the statistics loop of `play_and_listen` accumulates it. -/
def float_sum (l : List ℚ) : ℚ :=
  l.foldl (fun s x => to_float (s + x)) 0

/-- The largest element of a list of latencies (0 for the empty list). -/
def list_max (l : List ℚ) : ℚ :=
  l.foldl max (l.headD 0)

/-- The smallest element of a list of latencies (0 for the empty list). -/
def list_min (l : List ℚ) : ℚ :=
  l.foldl min (l.headD 0)

/-- The `num` results recorded so far, the one just written included, as
`play_and_listen` leaves them. -/
def results_so_far (env : Env) (bat : Bat) (buffer : List Int) (frames : Int) : List ℚ :=
  recorded_results (play_and_listen env bat buffer frames).1.latency.result
    bat.latency.number.toNat

/-- The call passes the entry check of `handleinput` and finds the engine in
PLAY_AND_LISTEN. -/
def listens (bat : Bat) (frames : Int) : Prop :=
  frames = (bat.period_size : Int) ∧ bat.channels = 1 ∧
    bat.latency.state = LATENCY_STATE_PLAY_AND_LISTEN

instance (bat : Bat) (frames : Int) : Decidable (listens bat frames) := by
  unfold listens; infer_instance

/-- A miss: the block average is not above the threshold and the samples
listened, this block included, exceed the wait ceiling. -/
def is_miss (bat : Bat) (buffer : List Int) (frames : Int) : Prop :=
  averageinput bat buffer frames ≤ bat.latency.threshold ∧
    bat.latency.samples + frames > bat.latency.wait_samples

instance (bat : Bat) (buffer : List Int) (frames : Int) :
    Decidable (is_miss bat buffer frames) := by
  unfold is_miss; infer_instance

/-- The call is a `handleinput` call that ends a listening phase by a miss. -/
def call_misses (bat : Bat) : Call → Bool
  | Call.input buffer frames => decide (listens bat frames ∧ is_miss bat buffer frames)
  | Call.output _ _ _ => false

/-- The call is a `handleinput` call that records a result. -/
def call_records (bat : Bat) : Call → Bool
  | Call.input buffer frames => decide (listens bat frames ∧ records_result bat buffer frames)
  | Call.output _ _ _ => false

/-- The number of calls of a run that satisfy `cnt` in the context they are
made in. -/
def count_calls (env : Env) (cnt : Bat → Call → Bool) (bat : Bat) (calls : List Call) : Nat :=
  (trace env bat calls).countP (fun p => cnt p.1 p.2)

/-- The number of misses of a run. -/
def misses (env : Env) (bat : Bat) (calls : List Call) : Nat :=
  count_calls env call_misses bat calls

/-- The number of results recorded in a run. -/
def recordings (env : Env) (bat : Bat) (calls : List Call) : Nat :=
  count_calls env call_records bat calls

/-- The state is one of the two terminal states. -/
def is_terminal (s : LatencyState) : Prop :=
  s = LATENCY_STATE_COMPLETE_SUCCESS ∨ s = LATENCY_STATE_COMPLETE_FAILURE

instance (s : LatencyState) : Decidable (is_terminal s) := by
  unfold is_terminal; infer_instance

/-- The relation between a context and the number `k` of results recorded so
far that every run from `roundtrip_latency_init` maintains. -/
def number_invariant (env : Env) (b : Bat) (k : Nat) : Prop :=
  1 ≤ b.latency.number ∧ b.latency.number ≤ env.LATENCY_TEST_NUMBER ∧
    (b.latency.result.length : Int) = env.LATENCY_TEST_NUMBER ∧
    (¬ is_terminal b.latency.state → b.latency.number = (k : Int) + 1) ∧
    (is_terminal b.latency.state → (k : Int) ≤ b.latency.number)

/-- The relation between a context and the number `k` of misses so far that
every run from `roundtrip_latency_init` maintains. -/
def error_invariant (env : Env) (b : Bat) (k : Nat) : Prop :=
  b.latency.error = (k : Int) ∧
    (¬ is_terminal b.latency.state → b.latency.error ≤ env.LATENCY_TEST_NUMBER)

/-- The earlier results of the context, `result[0 .. number - 2]`, are
positive latencies. -/
def earlier_results_positive (b : Bat) : Prop :=
  ∀ x ∈ recorded_results b.latency.result (b.latency.number - 1).toNat, 0 < x

/-- The earlier results of the context, `result[0 .. number - 2]`, are values
that single precision keeps, as every value of a `float` variable is, and at
most `bound`. -/
def earlier_results_bounded (b : Bat) (bound : ℚ) : Prop :=
  ∀ x ∈ recorded_results b.latency.result (b.latency.number - 1).toNat,
    to_float x = x ∧ x ≤ bound

/-- The ghost value of a run: `upd` is applied at every call, to the context
the call is made in. -/
def fold_calls {G : Type} (env : Env) (upd : G → Bat → Call → G) (g : G) (bat : Bat) :
    List Call → G
  | [] => g
  | c :: cs =>
    match step env bat c with
    | none => upd g bat c
    | some b => fold_calls env upd (upd g bat c) b cs

/-- The call passes the entry check of `handleinput` and completes the
measurement window: it is the call in which `calculate_threshold` runs. -/
def calibrates (bat : Bat) (frames : Int) : Prop :=
  frames = (bat.period_size : Int) ∧ bat.channels = 1 ∧
    ((bat.latency.state = LATENCY_STATE_MEASURE_FOR_1_SECOND ∧
        bat.latency.samples + frames ≥ bat.rate - bat.latency.measure_skip_samples) ∨
      (bat.latency.state = LATENCY_STATE_MEASURE_FOR_1_SECOND_SKIP_LEAD ∧
        ¬ bat.latency.measure_skip_samples > 0 ∧
        0 + frames ≥ bat.rate - bat.latency.measure_skip_samples))

instance (bat : Bat) (frames : Int) : Decidable (calibrates bat frames) := by
  unfold calibrates; infer_instance

/-- The call is a `handleinput` call in which `calculate_threshold` runs. -/
def call_calibrates (bat : Bat) : Call → Bool
  | Call.input _ frames => decide (calibrates bat frames)
  | Call.output _ _ _ => false

/-- The number of calls of a run in which `calculate_threshold` runs. -/
def calibrations (env : Env) (bat : Bat) (calls : List Call) : Nat :=
  count_calls env call_calibrates bat calls

/-- The amplitude sum and the sample count that `calculate_threshold` reads in
a calibrating call: those of the context with the block of the call added. -/
def calibration_input (bat : Bat) (buffer : List Int) (frames : Int) : ℚ × Int :=
  if bat.latency.state = LATENCY_STATE_MEASURE_FOR_1_SECOND then
    (to_float (bat.latency.sum + sumaudio bat buffer frames), bat.latency.samples + frames)
  else (to_float (bat.latency.sum + sumaudio bat buffer frames), 0 + frames)

/-- The local `average` of `calculate_threshold`: the mean amplitude as a
fraction of full scale, `sum / samples / 32767.0f`. -/
def calibration_average (sum : ℚ) (samples : Int) : ℚ :=
  to_float (to_float (sum / to_float (samples : ℚ)) / 32767)

/-- The decibel value `20.0f * log10f(average)` that `calculate_threshold`
stores in `measure_avgdb`. -/
def average_db (env : Env) (average : ℚ) : ℚ :=
  to_float (20 * env.log10f average)

/-- The threshold that `calculate_threshold` derives from the local `average`:
`(int) (powf(10.0f, (measure_avgdb + 16.0f) / 20.0f) * 32767.0f)`. -/
def threshold_of_average (env : Env) (average : ℚ) : Int :=
  float_to_int (to_float (env.powf 10
    (to_float (to_float (average_db env average + 16) / 20)) * 32767))

/-- The product `powf(10.0f, (measure_avgdb + 16.0f) / 20.0f) * 32767.0f` of
`calculate_threshold` before it is rounded to single precision. -/
def libm_amplitude (env : Env) (average : ℚ) : ℚ :=
  env.powf 10 (to_float (to_float (average_db env average + 16) / 20)) * 32767

/-- The amplitude that `calculate_threshold` truncates to the threshold:
`powf(10.0f, (measure_avgdb + 16.0f) / 20.0f) * 32767.0f`. -/
def threshold_amplitude (env : Env) (average : ℚ) : ℚ :=
  to_float (libm_amplitude env average)

/-- The closed form of the specification for the threshold at an ambient mean
amplitude: `t` is the integer truncation of `10^(16/20) * mean`, that is
`t <= 10^(4/5) * mean < t + 1`, stated by fifth powers. -/
def spec_threshold (mean : ℚ) (t : Int) : Prop :=
  0 ≤ t ∧ (t : ℚ) ^ 5 ≤ 10 ^ 4 * mean ^ 5 ∧ 10 ^ 4 * mean ^ 5 < ((t : ℚ) + 1) ^ 5

instance (mean : ℚ) (t : Int) : Decidable (spec_threshold mean t) := by
  unfold spec_threshold; infer_instance

/-- The threshold that `calculate_threshold` derives from an amplitude sum and
a sample count. -/
def threshold_of (env : Env) (sum : ℚ) (samples : Int) : Int :=
  threshold_of_average env (calibration_average sum samples)

/-- The context as a calibration leaves it, for the amplitude sum and the
sample count that `calculate_threshold` reads: the statements of
`calculate_threshold` and of the branch of `handleinput` that calls it. -/
def calibrated (env : Env) (bat : Bat) (sum : ℚ) (samples : Int) : Bat :=
  { bat with latency :=
    { bat.latency with
      measure_avgdb := average_db env (calibration_average sum samples)
      threshold := threshold_of env sum samples
      state := LATENCY_STATE_PLAY_AND_LISTEN
      samples := 0
      sum := 0
      wait_samples := bat.rate * env.LATENCY_TEST_MAX
      silence_artifact := bat.latency.silence_artifact_def
      test_db_num := 0 } }

/-- The single precision running sum of the block sums of a list of blocks,
from `sum`, as the MEASURE case of `handleinput` accumulates it. -/
def float_window_sum (bat : Bat) (sum : ℚ) (w : List (List Int × Int)) : ℚ :=
  w.foldl (fun s blk => to_float (s + sumaudio bat blk.1 blk.2)) sum

/-- The early-termination test of `handleoutput`: enough periods played and
capturing has stopped. -/
def early_exit (bat : Bat) (frames : Int) : Prop :=
  bat.periods_played * frames > 2 * bat.rate ∧ bat.latency.is_capturing = false

instance (bat : Bat) (frames : Int) : Decidable (early_exit bat frames) := by
  unfold early_exit; infer_instance

/-- The call of `handleoutput` reaches `generate_sine_wave`. -/
def emits_tone (bat : Bat) (frames : Int) : Prop :=
  ¬ early_exit bat frames ∧ bat.latency.state = LATENCY_STATE_PLAY_AND_LISTEN ∧
    ¬ bat.latency.silence_artifact > 0

instance (bat : Bat) (frames : Int) : Decidable (emits_tone bat frames) := by
  unfold emits_tone; infer_instance

/-- The call is a `handleoutput` call made in PLAY_AND_LISTEN that does not
take the early-termination path: an output period of the listening phase. -/
def call_listening_output (bat : Bat) : Call → Bool
  | Call.input _ _ => false
  | Call.output _ _ frames =>
    decide (¬ early_exit bat frames ∧ bat.latency.state = LATENCY_STATE_PLAY_AND_LISTEN)

/-- The number of output periods of the listening phase in a run. -/
def listening_outputs (env : Env) (bat : Bat) (calls : List Call) : Nat :=
  count_calls env call_listening_output bat calls

/-- Follows the wording of the specification, for comparison with
`detect_offset`: the index of the first sample of the block whose value
exceeds the threshold, `frames` if no sample does. -/
def spec_detection_offset (threshold : Int) (buffer : List Int) (frames : Nat) : Nat :=
  ((List.range frames).find? (fun i => decide (sample_at buffer i > threshold))).getD frames

/-- The update of the count of misses in a row: a recorded result clears it, a
miss adds one. -/
def consecutive_update (k : Nat) (bat : Bat) (c : Call) : Nat :=
  if call_records bat c then 0 else if call_misses bat c then k + 1 else k

/-- The number of misses in a row since the most recent recorded result of a
run (since the start of the run if there is none). -/
def consecutive_misses (env : Env) (bat : Bat) (calls : List Call) : Nat :=
  fold_calls env consecutive_update 0 bat calls

/-- The sum of the absolute values of the `frames` samples of a block. -/
def block_abs_sum (buffer : List Int) (frames : Int) : Int :=
  ((List.range frames.toNat).map (fun (i : Nat) => |sample_at buffer i|)).sum

/-- The exact sum of the absolute sample values of a list of blocks, for
comparison with the running sum `float_window_sum` of the code. -/
def window_sum (w : List (List Int × Int)) : ℚ :=
  (w.map (fun p => ((block_abs_sum p.1 p.2 : Int) : ℚ))).sum

/-- The frame count of a list of blocks. -/
def window_frames (w : List (List Int × Int)) : Int :=
  (w.map (fun p => p.2)).sum

/-- The update of the measurement window, the blocks received since MEASURE
was entered: a block received in MEASURE is added, a block that enters MEASURE
by the fall-through of SKIP_LEAD opens the window, every other accepted block
finds it empty. -/
def window_update (w : List (List Int × Int)) (bat : Bat) : Call → List (List Int × Int)
  | Call.output _ _ _ => w
  | Call.input buffer frames =>
    if frames = (bat.period_size : Int) ∧ bat.channels = 1 then
      if bat.latency.state = LATENCY_STATE_MEASURE_FOR_1_SECOND then w ++ [(buffer, frames)]
      else if bat.latency.state = LATENCY_STATE_MEASURE_FOR_1_SECOND_SKIP_LEAD ∧
          ¬ bat.latency.measure_skip_samples > 0 then [(buffer, frames)]
      else []
    else w

/-- The blocks received since MEASURE was entered, at the end of a run. -/
def measure_window (env : Env) (bat : Bat) (calls : List Call) : List (List Int × Int) :=
  fold_calls env window_update [] bat calls

/-- The relation between a context and the measurement window that every run
from `roundtrip_latency_init` maintains. -/
def sum_invariant (b : Bat) (w : List (List Int × Int)) : Prop :=
  (b.latency.state ≠ LATENCY_STATE_MEASURE_FOR_1_SECOND → b.latency.sum = 0) ∧
    (b.latency.state = LATENCY_STATE_MEASURE_FOR_1_SECOND →
      b.latency.sum = float_window_sum b 0 w ∧ b.latency.samples = window_frames w)

/-! ## Sample configuration -/

/-- A sample environment: five trials, a listening window of two seconds, and
stand-ins for libm and the tone generator. -/
def env0 : Env where
  LATENCY_TEST_NUMBER := 5
  LATENCY_TEST_DB_NUMBER := 1000
  LATENCY_TEST_MAX := 2
  LATENCY_TEST_TIME_LIMIT := 25
  state_value := fun _ => 0
  log10f := fun _ => 0
  powf := fun _ _ => 0
  generate_sine_wave := fun _ _ buffer => (0, buffer)

/-- A sample latency record with the given state, trial index, sample count,
threshold, miss count, wait ceiling and results. -/
def sample_latency (state : LatencyState) (number samples threshold error wait_samples : Int)
    (result : List ℚ) : RoundtripLatency where
  number := number
  state := state
  latest_playback_state := state
  final_result := 0
  samples := samples
  measure_skip_samples := 200
  sum := 0
  threshold := threshold
  measure_avgdb := 0
  is_capturing := true
  is_playing := true
  error := error
  xrun_error := false
  wait_samples := wait_samples
  silence_artifact := 0
  silence_artifact_def := 0
  test_db := []
  test_db_num := 0
  result := result

/-- A sample context: 1000 Hz, single channel, periods of two frames. -/
def sample_bat (l : RoundtripLatency) : Bat where
  rate := 1000
  channels := 1
  frames := 25000
  period_size := 2
  periods_played := 0
  latency := l

/-- A sample context in the terminal state COMPLETE_SUCCESS. -/
def bat_done : Bat :=
  sample_bat (sample_latency LATENCY_STATE_COMPLETE_SUCCESS 5 0 100 0 2000 [20, 25, 30, 24, 26])

/-- A sample context in PLAY_AND_LISTEN, first trial, that has not yet
listened to a block, under a threshold of 100. -/
def bat_first_block : Bat :=
  sample_bat (sample_latency LATENCY_STATE_PLAY_AND_LISTEN 1 0 100 0 2000 [0, 0, 0, 0, 0])

/-- A sample context in PLAY_AND_LISTEN, first trial, one sample short of the
wait ceiling of 2000 samples, under a threshold of 100. -/
def bat_timeout : Bat :=
  sample_bat (sample_latency LATENCY_STATE_PLAY_AND_LISTEN 1 1999 100 0 2000 [0, 0, 0, 0, 0])

/-- A sample context in PLAY_AND_LISTEN, second trial, with a first result of
20 ms and 28 samples listened so far under a threshold of 100. -/
def bat_consistent_trial : Bat :=
  sample_bat (sample_latency LATENCY_STATE_PLAY_AND_LISTEN 2 28 100 0 2000 [20, 0, 0, 0, 0])

/-- A sample context in PLAY_AND_LISTEN, first trial, that has listened to
exactly one block of two frames, under a threshold of 100. -/
def bat_one_block : Bat :=
  sample_bat (sample_latency LATENCY_STATE_PLAY_AND_LISTEN 1 2 100 0 2000 [0, 0, 0, 0, 0])

/-- A sample context at 2 Hz, single channel, periods of two frames, so that a
second is one block; not yet initialised. -/
def bat_slow : Bat where
  rate := 2
  channels := 1
  frames := 0
  period_size := 2
  periods_played := 0
  latency := sample_latency LATENCY_STATE_COMPLETE_SUCCESS 0 0 0 0 0 [0, 0, 0, 0, 0]

/-- A sample environment like `env0` whose stand-ins for libm return the
correctly rounded single precision values of `log10(x)` and `10^y` (the values
of glibc) at the arguments that occur when the ambient mean is 7, 100, 1431 or
2862.  In between the stand-ins are constant, so that they are monotone like
the functions they stand for.  Below the first of these arguments `log10f` is
the finite stand-in `-2^100` for the minus infinity that C returns at 0, and
`powf` is 0, as the power of ten of C is there in single precision. -/
def env_libm : Env where
  LATENCY_TEST_NUMBER := 5
  LATENCY_TEST_DB_NUMBER := 1000
  LATENCY_TEST_MAX := 2
  LATENCY_TEST_TIME_LIMIT := 25
  state_value := fun _ => 0
  log10f := fun x =>
    if x < 229383 / 1073741824 then -1267650600228229401496703205376
    else if x < 819225 / 268435456 then -3848629 / 1048576
    else if x < 5861555 / 134217728 then -5275253 / 2097152
    else if x < 5861555 / 67108864 then -2851701 / 2097152
    else -4440791 / 4194304
  powf := fun _ y =>
    if y < -376221 / 131072 then 0
    else if y < -14390125 / 8388608 then 2894619 / 2147483648
    else if y < -9391835 / 16777216 then 10337923 / 536870912
    else if y < -271337 / 1048576 then 9245979 / 33554432
    else 1155747 / 2097152
  generate_sine_wave := fun _ _ buffer => (0, buffer)

/-- A sample context in PLAY_AND_LISTEN with two periods of the silence guard
left. -/
def bat_guard : Bat :=
  { bat_first_block with latency :=
      { bat_first_block.latency with silence_artifact := 2, silence_artifact_def := 2 } }

/-- A sample context in COMPLETE_SUCCESS after 5000 periods, capturing
stopped. -/
def bat_finished : Bat :=
  { bat_done with
    periods_played := 5000
    latency := { bat_done.latency with is_capturing := false } }

/-- A sample context in PLAY_AND_LISTEN, first trial, periods of three frames,
six samples listened so far under a threshold of 100. -/
def bat_three_frames : Bat :=
  { sample_bat (sample_latency LATENCY_STATE_PLAY_AND_LISTEN 1 6 100 0 2000 [0, 0, 0, 0, 0]) with
    period_size := 3 }

/-- A sample context at 48 kHz, single channel, periods of 1024 frames, in
PLAY_AND_LISTEN right after a calibration over silence. -/
def bat_48k : Bat where
  rate := 48000
  channels := 1
  frames := 1200000
  period_size := 1024
  periods_played := 0
  latency := sample_latency LATENCY_STATE_PLAY_AND_LISTEN 1 0 0 0 96000 [0, 0, 0, 0, 0]

/-- A sample context at 10 Hz, single channel, periods of two frames; not yet
initialised. -/
def bat_ten : Bat where
  rate := 10
  channels := 1
  frames := 0
  period_size := 2
  periods_played := 0
  latency := sample_latency LATENCY_STATE_COMPLETE_SUCCESS 0 0 0 0 0 [0, 0, 0, 0, 0]

/-- A sample context at 8000 Hz, single channel, periods of 1024 frames; not
yet initialised. -/
def bat_8k : Bat where
  rate := 8000
  channels := 1
  frames := 0
  period_size := 1024
  periods_played := 0
  latency := sample_latency LATENCY_STATE_COMPLETE_SUCCESS 0 0 0 0 0 [0, 0, 0, 0, 0]

/-- A sample run at 10 Hz with periods of two frames: silence through the skip
window, the measurement window and one listening block, a block that is
detected at its second sample, then silence through the wait, the second
measurement and three listening blocks. -/
def calls_two_trials : List Call :=
  List.replicate 6 (Call.input [0, 0] 2) ++ [Call.input [0, 5] 2] ++
    List.replicate 24 (Call.input [0, 0] 2)

/-- A sample context at 7 Hz, single channel, periods of seven frames, so that
a block is a second; not yet initialised. -/
def bat_seven : Bat where
  rate := 7
  channels := 1
  frames := 0
  period_size := 7
  periods_played := 0
  latency := sample_latency LATENCY_STATE_COMPLETE_SUCCESS 0 0 0 0 0 [0, 0, 0, 0, 0]

/-- A block of seven frames of silence. -/
def silent_block : List Int := [0, 0, 0, 0, 0, 0, 0]

/-- A block of seven frames of the ambient amplitude 7. -/
def ambient_block : List Int := [7, 7, 7, 7, 7, 7, 7]

/-- A block of seven frames in which a signal of amplitude 400 arrives at
index `n`. -/
def late_block (n : Nat) : List Int :=
  List.replicate n 0 ++ List.replicate (7 - n) 400

/-- The calls of one trial at 7 Hz up to the first listening block: a block
for the skip window, an ambient block for the measurement window, a silent
listening block. -/
def listen_calls : List Call :=
  [Call.input silent_block 7, Call.input ambient_block 7, Call.input silent_block 7]

/-- The four blocks of the wait between two trials at 7 Hz. -/
def wait_calls : List Call :=
  List.replicate 4 (Call.input silent_block 7)

/-- A sample run at 7 Hz: four trials in which the signal arrives at index 1,
2, 3 and 3 of the second listening block, and the fifth trial up to its first
listening block. -/
def calls_five_trials : List Call :=
  listen_calls ++ [Call.input (late_block 1) 7] ++ wait_calls ++
  listen_calls ++ [Call.input (late_block 2) 7] ++ wait_calls ++
  listen_calls ++ [Call.input (late_block 3) 7] ++ wait_calls ++
  listen_calls ++ [Call.input (late_block 3) 7] ++ wait_calls ++
  listen_calls

/-- A sample context in MEASURE at 48 kHz with periods of 1024 frames at the
end of a measurement window of 37 blocks of the ambient amplitude 100. -/
def bat_ambient : Bat :=
  { bat_48k with latency :=
    { bat_48k.latency with
      state := LATENCY_STATE_MEASURE_FOR_1_SECOND
      sum := 3788800
      samples := 37888
      measure_skip_samples := 10240 } }


/-! ## Rounding to single precision -/

theorem log2_fuel_spec : ∀ (fuel n : Nat), n ≤ fuel → n ≠ 0 →
    2 ^ log2_fuel fuel n ≤ n ∧ n < 2 ^ (log2_fuel fuel n + 1) := by
  intro fuel
  induction fuel with
  | zero => intro n h hn; omega
  | succ k ih =>
    intro n h hn
    unfold log2_fuel
    by_cases h2 : n < 2
    · rw [if_pos h2]
      have : n = 1 := by omega
      subst this
      simp
    · rw [if_neg h2]
      have hk : n / 2 ≤ k := by omega
      have hne : n / 2 ≠ 0 := by omega
      obtain ⟨h1, h3⟩ := ih (n / 2) hk hne
      constructor
      · calc 2 ^ (log2_fuel k (n / 2) + 1) = 2 ^ log2_fuel k (n / 2) * 2 := by ring
          _ ≤ (n / 2) * 2 := by omega
          _ ≤ n := Nat.div_mul_le_self n 2
      · calc n < (n / 2 + 1) * 2 := by omega
          _ ≤ 2 ^ (log2_fuel k (n / 2) + 1) * 2 := by omega
          _ = 2 ^ (log2_fuel k (n / 2) + 1 + 1) := by ring

theorem binary_exponent_spec (x : ℚ) (hx : 0 < x) :
    (2 : ℚ) ^ binary_exponent x ≤ x ∧ x < (2 : ℚ) ^ (binary_exponent x + 1) := by
  have hnum : 0 < x.num := Rat.num_pos.mpr hx
  have hn0 : x.num.natAbs ≠ 0 := by omega
  have hd0 : x.den ≠ 0 := x.den_nz
  obtain ⟨ha1, ha2⟩ := log2_fuel_spec x.num.natAbs x.num.natAbs le_rfl hn0
  obtain ⟨hb1, hb2⟩ := log2_fuel_spec x.den x.den le_rfl hd0
  have hxe : x = (x.num.natAbs : ℚ) / (x.den : ℚ) := by
    have h1 : ((x.num.natAbs : Int) : ℚ) = (x.num : ℚ) := by
      rw [Int.natAbs_of_nonneg hnum.le]
    have h2 : ((x.num.natAbs : Int) : ℚ) = ((x.num.natAbs : Nat) : ℚ) :=
      Int.cast_natCast _
    rw [← h2, h1]
    exact (Rat.num_div_den x).symm
  have hdpos : (0 : ℚ) < (x.den : ℚ) := by exact_mod_cast Nat.pos_of_ne_zero hd0
  set a := log2_fuel x.num.natAbs x.num.natAbs with ha
  set b := log2_fuel x.den x.den with hb
  have ha1q : (2 : ℚ) ^ a ≤ (x.num.natAbs : ℚ) := by exact_mod_cast ha1
  have ha2q : (x.num.natAbs : ℚ) < (2 : ℚ) ^ (a + 1) := by exact_mod_cast ha2
  have hb1q : (2 : ℚ) ^ b ≤ (x.den : ℚ) := by exact_mod_cast hb1
  have hb2q : (x.den : ℚ) < (2 : ℚ) ^ (b + 1) := by exact_mod_cast hb2
  have hpa : (0 : ℚ) < (2 : ℚ) ^ a := by positivity
  have hpb : (0 : ℚ) < (2 : ℚ) ^ b := by positivity
  have hz : (2 : ℚ) ^ ((a : Int) - (b : Int)) = (2 : ℚ) ^ a / (2 : ℚ) ^ b := by
    rw [zpow_sub₀ (by norm_num : (2 : ℚ) ≠ 0), zpow_natCast, zpow_natCast]
  have hz1 : (2 : ℚ) ^ ((a : Int) - (b : Int) + 1) = (2 : ℚ) ^ a / (2 : ℚ) ^ b * 2 := by
    rw [zpow_add₀ (by norm_num : (2 : ℚ) ≠ 0), hz, zpow_one]
  have hzm : (2 : ℚ) ^ ((a : Int) - (b : Int) - 1) = (2 : ℚ) ^ a / (2 : ℚ) ^ b / 2 := by
    rw [zpow_sub₀ (by norm_num : (2 : ℚ) ≠ 0), hz, zpow_one]
  -- bounds on x
  have hlow : (2 : ℚ) ^ a / (2 : ℚ) ^ b / 2 ≤ x := by
    rw [hxe, div_div, div_le_div_iff (by positivity) hdpos]
    have : (x.den : ℚ) ≤ (2 : ℚ) ^ b * 2 := by
      have := hb2q.le
      rw [pow_succ] at this
      exact this
    nlinarith
  have hhigh : x < (2 : ℚ) ^ a / (2 : ℚ) ^ b * 2 := by
    rw [hxe, div_mul_eq_mul_div, div_lt_div_iff hdpos hpb]
    have : (x.num.natAbs : ℚ) < (2 : ℚ) ^ a * 2 := by
      have := ha2q
      rw [pow_succ] at this
      exact this
    nlinarith
  unfold binary_exponent
  rw [← ha, ← hb]
  split_ifs with hlt
  · refine ⟨by rw [hzm]; exact hlow, ?_⟩
    have : (a : Int) - (b : Int) - 1 + 1 = (a : Int) - (b : Int) := by ring
    rw [this]
    exact hlt
  · refine ⟨not_lt.mp hlt, ?_⟩
    rw [hz1]
    exact hhigh

/-! ### Rounding to the nearest integer -/

theorem round_even_cases (y : ℚ) : round_even y = ⌊y⌋ ∨ round_even y = ⌊y⌋ + 1 := by
  unfold round_even
  split_ifs <;> simp

theorem round_even_intCast (n : Int) : round_even (n : ℚ) = n := by
  unfold round_even
  simp

theorem floor_le_round_even (y : ℚ) : ⌊y⌋ ≤ round_even y := by
  rcases round_even_cases y with h | h <;> omega

theorem round_even_le_floor_add_one (y : ℚ) : round_even y ≤ ⌊y⌋ + 1 := by
  rcases round_even_cases y with h | h <;> omega

theorem round_even_mono {x y : ℚ} (h : x ≤ y) : round_even x ≤ round_even y := by
  have hf : ⌊x⌋ ≤ ⌊y⌋ := Int.floor_mono h
  rcases lt_or_eq_of_le hf with hlt | heq
  · have h1 := round_even_le_floor_add_one x
    have h2 := floor_le_round_even y
    omega
  · unfold round_even
    rw [heq]
    have hxy : 2 * (x - (⌊y⌋ : ℚ)) ≤ 2 * (y - (⌊y⌋ : ℚ)) := by linarith
    split_ifs <;> first | omega | linarith

theorem round_even_error (y : ℚ) : |((round_even y : Int) : ℚ) - y| ≤ 1 / 2 := by
  have h1 : (⌊y⌋ : ℚ) ≤ y := Int.floor_le y
  have h2 : y < (⌊y⌋ : ℚ) + 1 := Int.lt_floor_add_one y
  unfold round_even
  rw [abs_le]
  split_ifs with ha hb hc
  · constructor <;> linarith
  · push_cast; constructor <;> linarith
  · constructor <;> linarith
  · push_cast; constructor <;> linarith

theorem round_even_nonneg {y : ℚ} (h : 0 ≤ y) : 0 ≤ round_even y := by
  have h1 : (0 : Int) ≤ ⌊y⌋ := Int.floor_nonneg.mpr h
  have h2 := floor_le_round_even y
  omega

/-! ### Rounding to single precision -/

theorem float_ulp_pos (x : ℚ) : 0 < float_ulp x := by
  unfold float_ulp
  positivity

theorem float_ulp_mul (x : ℚ) :
    float_ulp x * 16777216 = (2 : ℚ) ^ (max (binary_exponent x) (-126) + 1) ∧
    float_ulp x * 8388608 = (2 : ℚ) ^ (max (binary_exponent x) (-126)) := by
  unfold float_ulp
  have h24 : (16777216 : ℚ) = (2 : ℚ) ^ (24 : Int) := by norm_num
  have h23 : (8388608 : ℚ) = (2 : ℚ) ^ (23 : Int) := by norm_num
  constructor
  · rw [h24, ← zpow_add₀ (by norm_num : (2 : ℚ) ≠ 0)]
    congr 1
    ring
  · rw [h23, ← zpow_add₀ (by norm_num : (2 : ℚ) ≠ 0)]
    congr 1
    ring

theorem round_float_nonneg {x : ℚ} (h : 0 ≤ x) : 0 ≤ round_float x := by
  unfold round_float
  have hu := float_ulp_pos x
  have : 0 ≤ round_even (x / float_ulp x) := round_even_nonneg (div_nonneg h hu.le)
  have h2 : (0 : ℚ) ≤ (round_even (x / float_ulp x) : ℚ) := by exact_mod_cast this
  positivity

theorem round_float_zero : round_float 0 = 0 := by
  unfold round_float
  simp [round_even]

theorem round_float_error (x : ℚ) : |round_float x - x| ≤ float_ulp x / 2 := by
  unfold round_float
  have hu := float_ulp_pos x
  have h := round_even_error (x / float_ulp x)
  have e : (round_even (x / float_ulp x) : ℚ) * float_ulp x - x =
      ((round_even (x / float_ulp x) : ℚ) - x / float_ulp x) * float_ulp x := by
    field_simp
  rw [e, abs_mul, abs_of_pos hu]
  calc |(round_even (x / float_ulp x) : ℚ) - x / float_ulp x| * float_ulp x
      ≤ 1 / 2 * float_ulp x := by
        apply mul_le_mul_of_nonneg_right h hu.le
    _ = float_ulp x / 2 := by ring

theorem round_float_exact (x : ℚ) (m : Int) (h : x = (m : ℚ) * float_ulp x) :
    round_float x = x := by
  unfold round_float
  have hu := float_ulp_pos x
  have : x / float_ulp x = (m : ℚ) := by
    rw [div_eq_iff hu.ne']
    exact h
  rw [this, round_even_intCast]
  exact h.symm

theorem binary_exponent_mono {x y : ℚ} (hx : 0 < x) (h : x ≤ y) :
    binary_exponent x ≤ binary_exponent y := by
  have hy : 0 < y := lt_of_lt_of_le hx h
  obtain ⟨h1, _⟩ := binary_exponent_spec x hx
  obtain ⟨_, h4⟩ := binary_exponent_spec y hy
  have hlt : (2 : ℚ) ^ binary_exponent x < (2 : ℚ) ^ (binary_exponent y + 1) :=
    lt_of_le_of_lt (le_trans h1 h) h4
  have := (zpow_lt_zpow_iff_right₀ (by norm_num : (1 : ℚ) < 2)).mp hlt
  omega

theorem round_float_le_pow {x : ℚ} (hx : 0 < x) :
    round_float x ≤ (2 : ℚ) ^ (max (binary_exponent x) (-126) + 1) := by
  obtain ⟨_, h2⟩ := binary_exponent_spec x hx
  have hu := float_ulp_pos x
  obtain ⟨hm, _⟩ := float_ulp_mul x
  have hle : x ≤ (2 : ℚ) ^ (max (binary_exponent x) (-126) + 1) := by
    refine le_trans h2.le ?_
    apply zpow_le_zpow_right₀ (by norm_num : (1 : ℚ) ≤ 2)
    have := le_max_left (binary_exponent x) (-126)
    omega
  have hdiv : x / float_ulp x ≤ ((16777216 : Int) : ℚ) := by
    rw [div_le_iff₀ hu]
    push_cast
    rw [mul_comm, hm]
    exact hle
  have hr := round_even_mono hdiv
  rw [round_even_intCast] at hr
  have hrq : (round_even (x / float_ulp x) : ℚ) ≤ 16777216 := by exact_mod_cast hr
  unfold round_float
  rw [← hm]
  calc (round_even (x / float_ulp x) : ℚ) * float_ulp x ≤ 16777216 * float_ulp x :=
        mul_le_mul_of_nonneg_right hrq hu.le
    _ = float_ulp x * 16777216 := by ring

theorem pow_le_round_float {x : ℚ} (hx : 0 < x) (hn : -126 ≤ binary_exponent x) :
    (2 : ℚ) ^ (binary_exponent x) ≤ round_float x := by
  obtain ⟨h1, _⟩ := binary_exponent_spec x hx
  have hu := float_ulp_pos x
  obtain ⟨_, hm⟩ := float_ulp_mul x
  rw [max_eq_left hn] at hm
  have hdiv : ((8388608 : Int) : ℚ) ≤ x / float_ulp x := by
    rw [le_div_iff₀ hu]
    push_cast
    rw [mul_comm, hm]
    exact h1
  have hr := round_even_mono hdiv
  rw [round_even_intCast] at hr
  have hrq : (8388608 : ℚ) ≤ (round_even (x / float_ulp x) : ℚ) := by exact_mod_cast hr
  unfold round_float
  rw [← hm]
  calc float_ulp x * 8388608 = 8388608 * float_ulp x := by ring
    _ ≤ (round_even (x / float_ulp x) : ℚ) * float_ulp x :=
        mul_le_mul_of_nonneg_right hrq hu.le

theorem round_float_mono {x y : ℚ} (hx : 0 ≤ x) (h : x ≤ y) :
    round_float x ≤ round_float y := by
  rcases eq_or_lt_of_le hx with h0 | hpos
  · rw [← h0, round_float_zero]
    exact round_float_nonneg (le_trans hx h)
  · have hy : 0 < y := lt_of_lt_of_le hpos h
    have he := binary_exponent_mono hpos h
    have hE : max (binary_exponent x) (-126) ≤ max (binary_exponent y) (-126) :=
      max_le_max he le_rfl
    rcases eq_or_lt_of_le hE with heq | hlt
    · have hu : float_ulp x = float_ulp y := by
        unfold float_ulp
        rw [heq]
      unfold round_float
      rw [hu]
      have hup := float_ulp_pos y
      have hd : x / float_ulp y ≤ y / float_ulp y := div_le_div_of_nonneg_right h hup.le
      have hr := round_even_mono hd
      have hrq : (round_even (x / float_ulp y) : ℚ) ≤ (round_even (y / float_ulp y) : ℚ) := by
        exact_mod_cast hr
      exact mul_le_mul_of_nonneg_right hrq hup.le
    · have hny : -126 ≤ binary_exponent y := by
        by_contra hc
        have h1 : max (binary_exponent y) (-126) = -126 := max_eq_right (by omega)
        have h2 : -126 ≤ max (binary_exponent x) (-126) := le_max_right _ _
        omega
      have hEy : max (binary_exponent y) (-126) = binary_exponent y := max_eq_left hny
      have h1 := round_float_le_pow hpos
      have h2 := pow_le_round_float hy hny
      have h3 : (2 : ℚ) ^ (max (binary_exponent x) (-126) + 1) ≤ (2 : ℚ) ^ binary_exponent y := by
        apply zpow_le_zpow_right₀ (by norm_num : (1 : ℚ) ≤ 2)
        omega
      exact le_trans h1 (le_trans h3 h2)

/-! ### The conversion to `float` -/

theorem to_float_of_nonneg {x : ℚ} (h : 0 ≤ x) : to_float x = round_float x := by
  unfold to_float
  rw [if_neg (not_lt.mpr h)]

theorem to_float_neg (x : ℚ) : to_float (-x) = -to_float x := by
  unfold to_float
  rcases lt_trichotomy x 0 with h | h | h
  · rw [if_neg (by linarith), if_pos h, neg_neg]
  · subst h
    simp [round_float_zero]
  · rw [if_pos (by linarith), if_neg (by linarith), neg_neg]

theorem to_float_zero : to_float 0 = 0 := by
  rw [to_float_of_nonneg le_rfl, round_float_zero]

theorem to_float_nonneg {x : ℚ} (h : 0 ≤ x) : 0 ≤ to_float x := by
  rw [to_float_of_nonneg h]
  exact round_float_nonneg h

theorem to_float_mono {x y : ℚ} (h : x ≤ y) : to_float x ≤ to_float y := by
  rcases le_or_lt 0 x with hx | hx
  · rw [to_float_of_nonneg hx, to_float_of_nonneg (le_trans hx h)]
    exact round_float_mono hx h
  · rcases le_or_lt 0 y with hy | hy
    · have h1 : to_float x ≤ 0 := by
        have := to_float_nonneg (show (0 : ℚ) ≤ -x by linarith)
        rw [to_float_neg] at this
        linarith
      exact le_trans h1 (to_float_nonneg hy)
    · have h1 := round_float_mono (show (0 : ℚ) ≤ -y by linarith) (show -y ≤ -x by linarith)
      unfold to_float
      rw [if_pos hx, if_pos hy]
      linarith

theorem binary_exponent_unique {x : ℚ} (k : Int) (h1 : (2 : ℚ) ^ k ≤ x)
    (h2 : x < (2 : ℚ) ^ (k + 1)) : binary_exponent x = k := by
  have hx : 0 < x := lt_of_lt_of_le (by positivity) h1
  obtain ⟨h3, h4⟩ := binary_exponent_spec x hx
  have ha : (2 : ℚ) ^ k < (2 : ℚ) ^ (binary_exponent x + 1) := lt_of_le_of_lt h1 h4
  have hb : (2 : ℚ) ^ binary_exponent x < (2 : ℚ) ^ (k + 1) := lt_of_le_of_lt h3 h2
  have ha1 := (zpow_lt_zpow_iff_right₀ (by norm_num : (1 : ℚ) < 2)).mp ha
  have hb1 := (zpow_lt_zpow_iff_right₀ (by norm_num : (1 : ℚ) < 2)).mp hb
  omega

theorem binary_exponent_normal {x : ℚ} (h : (2 : ℚ) ^ (-126 : Int) ≤ x) :
    -126 ≤ binary_exponent x := by
  have hx : 0 < x := lt_of_lt_of_le (by positivity) h
  obtain ⟨_, h4⟩ := binary_exponent_spec x hx
  have ha : (2 : ℚ) ^ (-126 : Int) < (2 : ℚ) ^ (binary_exponent x + 1) := lt_of_le_of_lt h h4
  have ha1 := (zpow_lt_zpow_iff_right₀ (by norm_num : (1 : ℚ) < 2)).mp ha
  omega

theorem float_ulp_le {x : ℚ} (h : (2 : ℚ) ^ (-126 : Int) ≤ x) :
    float_ulp x ≤ x / 8388608 := by
  have hx : 0 < x := lt_of_lt_of_le (by positivity) h
  have hn := binary_exponent_normal h
  obtain ⟨h1, _⟩ := binary_exponent_spec x hx
  obtain ⟨_, hm⟩ := float_ulp_mul x
  rw [max_eq_left hn] at hm
  rw [le_div_iff₀ (by norm_num : (0 : ℚ) < 8388608), hm]
  exact h1

/-- The relative error of a rounding in the normal range is at most `2^-24`. -/
theorem round_float_rel_error {x : ℚ} (h : (2 : ℚ) ^ (-126 : Int) ≤ x) :
    |round_float x - x| ≤ x / 16777216 := by
  have h1 := round_float_error x
  have h2 := float_ulp_le h
  calc |round_float x - x| ≤ float_ulp x / 2 := h1
    _ ≤ x / 8388608 / 2 := by linarith
    _ = x / 16777216 := by ring

theorem round_float_natCast (n : Nat) (h : n ≤ 16777216) : round_float (n : ℚ) = (n : ℚ) := by
  rcases Nat.eq_zero_or_pos n with h0 | hpos
  · subst h0
    simp [round_float_zero]
  · have hx : (0 : ℚ) < (n : ℚ) := by exact_mod_cast hpos
    obtain ⟨h1, h2⟩ := binary_exponent_spec (n : ℚ) hx
    have hle : (n : ℚ) ≤ (2 : ℚ) ^ (24 : Int) := by
      have h24 : (2 : ℚ) ^ (24 : Int) = 16777216 := by norm_num
      rw [h24]
      exact_mod_cast h
    have hge : (2 : ℚ) ^ (0 : Int) ≤ (n : ℚ) := by
      have : (1 : ℚ) ≤ (n : ℚ) := by exact_mod_cast hpos
      simpa using this
    have he24 : binary_exponent (n : ℚ) ≤ 24 := by
      have := (zpow_le_zpow_iff_right₀ (by norm_num : (1 : ℚ) < 2)).mp (le_trans h1 hle)
      exact this
    have he0 : 0 ≤ binary_exponent (n : ℚ) := by
      have hlt : (2 : ℚ) ^ (0 : Int) < (2 : ℚ) ^ (binary_exponent (n : ℚ) + 1) :=
        lt_of_le_of_lt hge h2
      have := (zpow_lt_zpow_iff_right₀ (by norm_num : (1 : ℚ) < 2)).mp hlt
      omega
    have hE : max (binary_exponent (n : ℚ)) (-126) = binary_exponent (n : ℚ) :=
      max_eq_left (by omega)
    have hulp : float_ulp (n : ℚ) = (2 : ℚ) ^ (binary_exponent (n : ℚ) - 23) := by
      unfold float_ulp
      rw [hE]
    rcases lt_or_eq_of_le he24 with hlt | heq
    · -- the spacing is at most 1
      obtain ⟨k, hk⟩ : ∃ k : Nat, (k : Int) = 23 - binary_exponent (n : ℚ) :=
        ⟨(23 - binary_exponent (n : ℚ)).toNat, by omega⟩
      apply round_float_exact (n : ℚ) ((n * 2 ^ k : Nat) : Int)
      rw [hulp]
      have e1 : binary_exponent (n : ℚ) - 23 = -(k : Int) := by omega
      rw [e1, zpow_neg, zpow_natCast]
      push_cast
      field_simp
    · -- n = 2^24
      have hn : (n : ℚ) = 16777216 := by
        apply le_antisymm
        · exact_mod_cast h
        · rw [heq] at h1
          have h24 : (2 : ℚ) ^ (24 : Int) = 16777216 := by norm_num
          rw [h24] at h1
          exact h1
      apply round_float_exact (n : ℚ) (8388608 : Int)
      rw [hulp, heq, hn]
      norm_num

theorem to_float_natCast (n : Nat) (h : n ≤ 16777216) : to_float (n : ℚ) = (n : ℚ) := by
  rw [to_float_of_nonneg (by positivity)]
  exact round_float_natCast n h

theorem to_float_intCast (n : Int) (h : |n| ≤ 16777216) : to_float (n : ℚ) = (n : ℚ) := by
  rcases le_or_lt 0 n with hn | hn
  · obtain ⟨k, rfl⟩ := Int.eq_ofNat_of_zero_le hn
    have hk : k ≤ 16777216 := by
      rw [abs_of_nonneg hn] at h
      exact_mod_cast h
    simpa using to_float_natCast k hk
  · obtain ⟨k, hk⟩ := Int.eq_ofNat_of_zero_le (show 0 ≤ -n by omega)
    have hk2 : k ≤ 16777216 := by
      rw [abs_of_neg hn] at h
      omega
    have e : (n : ℚ) = -((k : Nat) : ℚ) := by
      have : n = -(k : Int) := by omega
      rw [this]
      push_cast
      rfl
    rw [e, to_float_neg, to_float_natCast k hk2]

theorem to_float_rel_error {x : ℚ} (h : (2 : ℚ) ^ (-126 : Int) ≤ x) :
    |to_float x - x| ≤ x / 16777216 := by
  have hx : 0 < x := lt_of_lt_of_le (by positivity) h
  rw [to_float_of_nonneg hx.le]
  exact round_float_rel_error h

/-- Doubling is exact in the normal range. -/
theorem to_float_two_mul {x : ℚ} (h : (2 : ℚ) ^ (-126 : Int) ≤ x) :
    to_float (2 * x) = 2 * to_float x := by
  have hx : 0 < x := lt_of_lt_of_le (by positivity) h
  rw [to_float_of_nonneg hx.le, to_float_of_nonneg (by linarith)]
  have hn := binary_exponent_normal h
  obtain ⟨h1, h2⟩ := binary_exponent_spec x hx
  have he : binary_exponent (2 * x) = binary_exponent x + 1 := by
    apply binary_exponent_unique
    · rw [zpow_add₀ (by norm_num : (2 : ℚ) ≠ 0), zpow_one]
      linarith
    · rw [zpow_add₀ (by norm_num : (2 : ℚ) ≠ 0) (binary_exponent x + 1), zpow_one]
      linarith
  have hu : float_ulp (2 * x) = 2 * float_ulp x := by
    unfold float_ulp
    rw [he, max_eq_left hn, max_eq_left (by omega)]
    have : binary_exponent x + 1 - 23 = (binary_exponent x - 23) + 1 := by ring
    rw [this, zpow_add₀ (by norm_num : (2 : ℚ) ≠ 0), zpow_one]
    ring
  unfold round_float
  rw [hu]
  have hup := float_ulp_pos x
  have : 2 * x / (2 * float_ulp x) = x / float_ulp x := by
    field_simp
    ring
  rw [this]
  ring

/-! ## Entry precondition and terminal states -/

/-- C1: `handleinput` ends the process exactly when the frame count differs
from the period size or the stream is not single-channel, and it returns 0
exactly when both hold, whatever the state and the block. -/
theorem handleinput_exit_iff (env : Env) (bat : Bat) (buffer : List Int) (frames : Int) :
    (handleinput env bat buffer frames = none ↔
      (frames ≠ (bat.period_size : Int) ∨ bat.channels ≠ 1)) ∧
    ((∃ bat1 buffer1, handleinput env bat buffer frames = some (bat1, buffer1, 0)) ↔
      (frames = (bat.period_size : Int) ∧ bat.channels = 1)) := by
  by_cases hf : frames = (bat.period_size : Int)
  · by_cases hc : bat.channels = 1
    · have hsome : ∃ bat1 buffer1,
          handleinput env bat buffer frames = some (bat1, buffer1, 0) := by
        unfold handleinput
        rw [if_neg (not_not.mpr hf), if_neg (not_not.mpr hc)]
        cases bat.latency.state <;> simp only [] <;>
          first
            | exact ⟨_, _, rfl⟩
            | (split_ifs <;> exact ⟨_, _, rfl⟩)
      obtain ⟨b1, buf1, h1⟩ := hsome
      constructor
      · rw [h1]
        refine ⟨fun h => ?_, fun h => ?_⟩
        · cases h
        · rcases h with h | h <;> contradiction
      · exact ⟨fun _ => ⟨hf, hc⟩, fun _ => ⟨b1, buf1, h1⟩⟩
    · have hnone : handleinput env bat buffer frames = none := by
        unfold handleinput
        rw [if_neg (not_not.mpr hf), if_pos hc]
      simp [hnone, hc]
  · have hnone : handleinput env bat buffer frames = none := by
      unfold handleinput
      rw [if_pos hf]
    simp [hnone, hf]

/-- C2: in a terminal state a call that meets the entry precondition returns
0 and leaves the whole context and the block as they were; hence no sequence
of such calls leaves the terminal state (nor changes the context). -/
theorem handleinput_terminal_noop (env : Env) (bat : Bat)
    (hterm : bat.latency.state = LATENCY_STATE_COMPLETE_SUCCESS ∨
      bat.latency.state = LATENCY_STATE_COMPLETE_FAILURE)
    (hch : bat.channels = 1) :
    (∀ (buffer : List Int) (frames : Int), frames = (bat.period_size : Int) →
      handleinput env bat buffer frames = some (bat, buffer, 0)) ∧
    (∀ blocks : List (List Int × Int),
      (∀ blk ∈ blocks, blk.2 = (bat.period_size : Int)) →
      handleinput_seq env bat blocks = some bat) := by
  have h1 : ∀ (buffer : List Int) (frames : Int), frames = (bat.period_size : Int) →
      handleinput env bat buffer frames = some (bat, buffer, 0) := by
    intro buffer frames hf
    unfold handleinput
    rw [if_neg (not_not.mpr hf), if_neg (not_not.mpr hch)]
    rcases hterm with h | h <;> rw [h]
  refine ⟨h1, ?_⟩
  intro blocks
  induction blocks with
  | nil => intro _; rfl
  | cons blk rest ih =>
    intro hall
    have hb := h1 blk.1 blk.2 (hall blk (List.mem_cons_self _ _))
    simp only [handleinput_seq, hb, Option.some_bind]
    exact ih (fun b hbm => hall b (List.mem_cons_of_mem _ hbm))

theorem handleinput_terminal_noop_witness :
    (bat_done.latency.state = LATENCY_STATE_COMPLETE_SUCCESS ∨
      bat_done.latency.state = LATENCY_STATE_COMPLETE_FAILURE) ∧
    bat_done.channels = 1 ∧
    handleinput env0 bat_done [7, -7] 2 = some (bat_done, [7, -7], 0) ∧
    handleinput_seq env0 bat_done [([7, -7], 2), ([900, 900], 2)] = some bat_done :=
  ⟨Or.inl rfl, rfl,
    (handleinput_terminal_noop env0 bat_done (Or.inl rfl) rfl).1 [7, -7] 2 rfl,
    (handleinput_terminal_noop env0 bat_done (Or.inl rfl) rfl).2
      [([7, -7], 2), ([900, 900], 2)] (by
        intro blk hblk
        simp only [List.mem_cons, List.mem_singleton, List.mem_nil_iff, or_false] at hblk
        rcases hblk with h | h <;> rw [h] <;> rfl)⟩

/-! ## Facts about the loops of the detection engine -/

theorem scan_loop_le (threshold channels : Int) (k n : Nat) (buffer : List Int) :
    (scan_loop threshold channels k n buffer).1 ≤ n + k := by
  induction k generalizing n buffer with
  | zero => simp [scan_loop]
  | succ k ih =>
    unfold scan_loop
    split_ifs
    · simp
    · have := ih (n + 1)
        (sample_store buffer (n + 1) (sample_at buffer (n + 1) + channels))
      omega

theorem result_stats_succ (result : List ℚ) (k : Nat) :
    result_stats result (k + 1) =
      (if float_at result k > (result_stats result k).1 then float_at result k
        else (result_stats result k).1,
       if float_at result k < (result_stats result k).2.1 then float_at result k
        else (result_stats result k).2.1,
       to_float ((result_stats result k).2.2 + float_at result k)) := by
  simp [result_stats, List.range_succ, List.foldl_append]

theorem recorded_results_succ (result : List ℚ) (k : Nat) :
    recorded_results result (k + 1) = recorded_results result k ++ [float_at result k] := by
  simp [recorded_results, List.range_succ]

theorem result_stats_max_ge (result : List ℚ) (k : Nat) :
    0 ≤ (result_stats result k).1 ∧
    ∀ x ∈ recorded_results result k, x ≤ (result_stats result k).1 := by
  induction k with
  | zero => simp [result_stats, recorded_results]
  | succ k ih =>
    rw [result_stats_succ, recorded_results_succ]
    obtain ⟨h0, hall⟩ := ih
    dsimp only
    split_ifs with h
    · refine ⟨le_trans h0 (le_of_lt h), ?_⟩
      intro x hx
      rcases List.mem_append.mp hx with hx | hx
      · exact le_trans (hall x hx) (le_of_lt h)
      · simp at hx; rw [hx]
    · refine ⟨h0, ?_⟩
      intro x hx
      rcases List.mem_append.mp hx with hx | hx
      · exact hall x hx
      · simp at hx; rw [hx]; exact not_lt.mp h

theorem result_stats_max_mem (result : List ℚ) (k : Nat) :
    (result_stats result k).1 = 0 ∨ (result_stats result k).1 ∈ recorded_results result k := by
  induction k with
  | zero => simp [result_stats]
  | succ k ih =>
    rw [result_stats_succ, recorded_results_succ]
    dsimp only
    split_ifs with h
    · right; simp
    · rcases ih with h0 | hm
      · left; exact h0
      · right; exact List.mem_append.mpr (Or.inl hm)

theorem result_stats_min_le (result : List ℚ) (k : Nat) :
    (result_stats result k).2.1 ≤ 100000 ∧
    ∀ x ∈ recorded_results result k, (result_stats result k).2.1 ≤ x := by
  induction k with
  | zero => simp [result_stats, recorded_results]
  | succ k ih =>
    rw [result_stats_succ, recorded_results_succ]
    obtain ⟨h0, hall⟩ := ih
    dsimp only
    split_ifs with h
    · refine ⟨le_trans (le_of_lt h) h0, ?_⟩
      intro x hx
      rcases List.mem_append.mp hx with hx | hx
      · exact le_trans (le_of_lt h) (hall x hx)
      · simp at hx; rw [hx]
    · refine ⟨h0, ?_⟩
      intro x hx
      rcases List.mem_append.mp hx with hx | hx
      · exact hall x hx
      · simp at hx; rw [hx]; exact not_lt.mp h

theorem result_stats_min_mem (result : List ℚ) (k : Nat) :
    (result_stats result k).2.1 = 100000 ∨
      (result_stats result k).2.1 ∈ recorded_results result k := by
  induction k with
  | zero => simp [result_stats]
  | succ k ih =>
    rw [result_stats_succ, recorded_results_succ]
    dsimp only
    split_ifs with h
    · right; simp
    · rcases ih with h0 | hm
      · left; exact h0
      · right; exact List.mem_append.mpr (Or.inl hm)

theorem result_stats_sum (result : List ℚ) (k : Nat) :
    (result_stats result k).2.2 = float_sum (recorded_results result k) := by
  induction k with
  | zero => simp [result_stats, recorded_results, float_sum]
  | succ k ih =>
    rw [result_stats_succ, recorded_results_succ]
    simp only [float_sum, List.foldl_append, List.foldl_cons, List.foldl_nil]
    rw [ih, float_sum]

/-! ## Facts about the helpers of `play_and_listen` -/

@[simp] theorem record_test_db_threshold (env : Env) (l : RoundtripLatency) (avg : Int) :
    (record_test_db env l avg).threshold = l.threshold := by
  unfold record_test_db; split_ifs <;> rfl

@[simp] theorem record_test_db_samples (env : Env) (l : RoundtripLatency) (avg : Int) :
    (record_test_db env l avg).samples = l.samples := by
  unfold record_test_db; split_ifs <;> rfl

@[simp] theorem record_test_db_result (env : Env) (l : RoundtripLatency) (avg : Int) :
    (record_test_db env l avg).result = l.result := by
  unfold record_test_db; split_ifs <;> rfl

@[simp] theorem record_test_db_number (env : Env) (l : RoundtripLatency) (avg : Int) :
    (record_test_db env l avg).number = l.number := by
  unfold record_test_db; split_ifs <;> rfl

@[simp] theorem record_test_db_error (env : Env) (l : RoundtripLatency) (avg : Int) :
    (record_test_db env l avg).error = l.error := by
  unfold record_test_db; split_ifs <;> rfl

@[simp] theorem record_test_db_wait_samples (env : Env) (l : RoundtripLatency) (avg : Int) :
    (record_test_db env l avg).wait_samples = l.wait_samples := by
  unfold record_test_db; split_ifs <;> rfl

@[simp] theorem record_test_db_state (env : Env) (l : RoundtripLatency) (avg : Int) :
    (record_test_db env l avg).state = l.state := by
  unfold record_test_db; split_ifs <;> rfl

@[simp] theorem record_test_db_is_capturing (env : Env) (l : RoundtripLatency) (avg : Int) :
    (record_test_db env l avg).is_capturing = l.is_capturing := by
  unfold record_test_db; split_ifs <;> rfl

@[simp] theorem record_test_db_final_result (env : Env) (l : RoundtripLatency) (avg : Int) :
    (record_test_db env l avg).final_result = l.final_result := by
  unfold record_test_db; split_ifs <;> rfl

@[simp] theorem record_test_db_sum (env : Env) (l : RoundtripLatency) (avg : Int) :
    (record_test_db env l avg).sum = l.sum := by
  unfold record_test_db; split_ifs <;> rfl

@[simp] theorem clear_samples_if_waiting_threshold (l : RoundtripLatency) :
    (clear_samples_if_waiting l).threshold = l.threshold := by
  unfold clear_samples_if_waiting; split_ifs <;> rfl

@[simp] theorem clear_samples_if_waiting_result (l : RoundtripLatency) :
    (clear_samples_if_waiting l).result = l.result := by
  unfold clear_samples_if_waiting; split_ifs <;> rfl

@[simp] theorem clear_samples_if_waiting_number (l : RoundtripLatency) :
    (clear_samples_if_waiting l).number = l.number := by
  unfold clear_samples_if_waiting; split_ifs <;> rfl

@[simp] theorem clear_samples_if_waiting_error (l : RoundtripLatency) :
    (clear_samples_if_waiting l).error = l.error := by
  unfold clear_samples_if_waiting; split_ifs <;> rfl

@[simp] theorem clear_samples_if_waiting_wait_samples (l : RoundtripLatency) :
    (clear_samples_if_waiting l).wait_samples = l.wait_samples := by
  unfold clear_samples_if_waiting; split_ifs <;> rfl

@[simp] theorem clear_samples_if_waiting_state (l : RoundtripLatency) :
    (clear_samples_if_waiting l).state = l.state := by
  unfold clear_samples_if_waiting; split_ifs <;> rfl

@[simp] theorem clear_samples_if_waiting_is_capturing (l : RoundtripLatency) :
    (clear_samples_if_waiting l).is_capturing = l.is_capturing := by
  unfold clear_samples_if_waiting; split_ifs <;> rfl

@[simp] theorem clear_samples_if_waiting_final_result (l : RoundtripLatency) :
    (clear_samples_if_waiting l).final_result = l.final_result := by
  unfold clear_samples_if_waiting; split_ifs <;> rfl

@[simp] theorem clear_samples_if_waiting_sum (l : RoundtripLatency) :
    (clear_samples_if_waiting l).sum = l.sum := by
  unfold clear_samples_if_waiting; split_ifs <;> rfl

@[simp] theorem clear_samples_if_waiting_test_db (l : RoundtripLatency) :
    (clear_samples_if_waiting l).test_db = l.test_db := by
  unfold clear_samples_if_waiting; split_ifs <;> rfl

@[simp] theorem clear_samples_if_waiting_test_db_num (l : RoundtripLatency) :
    (clear_samples_if_waiting l).test_db_num = l.test_db_num := by
  unfold clear_samples_if_waiting; split_ifs <;> rfl

@[simp] theorem clear_samples_if_waiting_silence_artifact (l : RoundtripLatency) :
    (clear_samples_if_waiting l).silence_artifact = l.silence_artifact := by
  unfold clear_samples_if_waiting; split_ifs <;> rfl

@[simp] theorem clear_samples_if_waiting_latest_playback_state (l : RoundtripLatency) :
    (clear_samples_if_waiting l).latest_playback_state = l.latest_playback_state := by
  unfold clear_samples_if_waiting; split_ifs <;> rfl

@[simp] theorem clear_samples_if_waiting_measure_skip_samples (l : RoundtripLatency) :
    (clear_samples_if_waiting l).measure_skip_samples = l.measure_skip_samples := by
  unfold clear_samples_if_waiting; split_ifs <;> rfl

theorem clear_samples_if_waiting_samples (l : RoundtripLatency) :
    (clear_samples_if_waiting l).samples =
      if l.state = LATENCY_STATE_WAITING then 0 else l.samples := by
  unfold clear_samples_if_waiting; split_ifs <;> rfl

/-! ## Detection inside the first listened block -/

/-- C6: in PLAY_AND_LISTEN with `samples == 0`, a block whose average
amplitude is above the threshold records nothing: `result[]`, `number` and
`error` keep their values, the state becomes WAITING and `samples` is 0,
wherever in the block the threshold is first exceeded. -/
theorem handleinput_first_block_detection (env : Env) (bat : Bat) (buffer : List Int)
    (frames : Int)
    (hstate : bat.latency.state = LATENCY_STATE_PLAY_AND_LISTEN)
    (hsamples : bat.latency.samples = 0)
    (havg : averageinput bat buffer frames > bat.latency.threshold)
    (hframes : frames = (bat.period_size : Int))
    (hch : bat.channels = 1) :
    ∃ bat1 buffer1, handleinput env bat buffer frames = some (bat1, buffer1, 0) ∧
      bat1.latency.result = bat.latency.result ∧
      bat1.latency.number = bat.latency.number ∧
      bat1.latency.error = bat.latency.error ∧
      bat1.latency.state = LATENCY_STATE_WAITING ∧
      bat1.latency.samples = 0 := by
  have hscan := scan_loop_le bat.latency.threshold bat.channels frames.toNat 0 buffer
  have hnot : ¬ (bat.latency.samples +
      ((scan_loop bat.latency.threshold bat.channels frames.toNat 0 buffer).1 : Int)
        > frames) := by
    have htn : ((frames.toNat : Nat) : Int) = frames := by
      rw [hframes]; simp
    rw [hsamples]
    omega
  unfold handleinput
  rw [if_neg (not_not.mpr hframes), if_neg (not_not.mpr hch), hstate]
  refine ⟨_, _, rfl, ?_⟩
  unfold play_and_listen
  simp only [record_test_db_threshold, record_test_db_samples, if_pos havg, if_neg hnot]
  simp [clear_samples_if_waiting]

theorem handleinput_first_block_detection_witness :
    bat_first_block.latency.state = LATENCY_STATE_PLAY_AND_LISTEN ∧
    bat_first_block.latency.samples = 0 ∧
    averageinput bat_first_block [0, 900] 2 > bat_first_block.latency.threshold ∧
    ∃ bat1 buffer1, handleinput env0 bat_first_block [0, 900] 2 = some (bat1, buffer1, 0) ∧
      bat1.latency.result = bat_first_block.latency.result ∧
      bat1.latency.number = bat_first_block.latency.number ∧
      bat1.latency.error = bat_first_block.latency.error ∧
      bat1.latency.state = LATENCY_STATE_WAITING ∧
      bat1.latency.samples = 0 := by
  have havg : averageinput bat_first_block [0, 900] 2 > bat_first_block.latency.threshold := by
    decide!
  exact ⟨rfl, rfl, havg,
    handleinput_first_block_detection env0 bat_first_block [0, 900] 2 rfl rfl havg rfl rfl⟩

/-! ## The recording branch of `play_and_listen` -/

theorem play_and_listen_result_of_records (env : Env) (bat : Bat) (buffer : List Int)
    (frames : Int) (h : records_result bat buffer frames) :
    (play_and_listen env bat buffer frames).1.latency.result =
      results_after bat buffer frames := by
  obtain ⟨h1, h2⟩ := h
  unfold detect_offset at h2
  unfold play_and_listen
  simp only [record_test_db_threshold, record_test_db_samples, record_test_db_result,
    if_pos h1, if_pos h2]
  split_ifs <;>
    simp [clear_samples_if_waiting, results_after, new_result, latency_ms, detect_offset]

theorem play_and_listen_failure_iff_of_records (env : Env) (bat : Bat) (buffer : List Int)
    (frames : Int) (h : records_result bat buffer frames) :
    (play_and_listen env bat buffer frames).1.latency.state = LATENCY_STATE_COMPLETE_FAILURE ↔
      gate_fires bat buffer frames = true := by
  obtain ⟨h1, h2⟩ := h
  unfold detect_offset at h2
  unfold play_and_listen
  simp only [record_test_db_threshold, record_test_db_samples, record_test_db_result,
    if_pos h1, if_pos h2]
  by_cases hg : gate_fires bat buffer frames = true
  · have hg2 := hg
    simp only [gate_fires, results_after, new_result, latency_ms, detect_offset] at hg2
    simp only [hg, iff_true]
    rw [if_pos hg2]
  · have hg2 := hg
    simp only [gate_fires, results_after, new_result, latency_ms, detect_offset] at hg2
    simp only [hg, iff_false]
    rw [if_neg hg2]
    split_ifs <;> simp [clear_samples_if_waiting]

/-! ## Facts about arrays, maxima and minima -/

theorem float_at_store_ne (r : List ℚ) (i j : Int) (v : ℚ) (h : j ≠ i) :
    float_at (float_store r i v) j = float_at r j := by
  unfold float_at float_store
  by_cases hj : 0 ≤ j
  · by_cases hi : 0 ≤ i
    · have hne : i.toNat ≠ j.toNat := by omega
      simp [hj, hi, List.getD_eq_getElem?_getD, List.getElem?_set_ne hne]
    · simp [hj, hi]
  · simp [hj]

theorem float_at_store_eq (r : List ℚ) (i : Int) (v : ℚ) (h0 : 0 ≤ i)
    (h1 : i.toNat < r.length) :
    float_at (float_store r i v) i = v := by
  unfold float_at float_store
  simp [h0, List.getD_eq_getElem?_getD, h1]

theorem recorded_results_store_above (r : List ℚ) (i : Int) (v : ℚ) (k : Nat)
    (h : (k : Int) ≤ i) :
    recorded_results (float_store r i v) k = recorded_results r k := by
  induction k with
  | zero => simp [recorded_results]
  | succ k ih =>
    rw [recorded_results_succ, recorded_results_succ, ih (by omega),
      float_at_store_ne r i k v (by omega)]

theorem recorded_results_store (r : List ℚ) (num : Int) (v : ℚ) (h1 : 1 ≤ num)
    (h2 : num ≤ (r.length : Int)) :
    recorded_results (float_store r (num - 1) v) num.toNat =
      recorded_results r (num - 1).toNat ++ [v] := by
  have hk : num.toNat = (num - 1).toNat + 1 := by omega
  have hcast : (((num - 1).toNat : Nat) : Int) = num - 1 := by omega
  rw [hk, recorded_results_succ,
    recorded_results_store_above r (num - 1) v (num - 1).toNat (by omega), hcast,
    float_at_store_eq r (num - 1) v (by omega) (by omega)]

theorem foldl_max_ge (l : List ℚ) (a : ℚ) :
    a ≤ l.foldl max a ∧ ∀ x ∈ l, x ≤ l.foldl max a := by
  induction l generalizing a with
  | nil => simp
  | cons y ys ih =>
    obtain ⟨h1, h2⟩ := ih (max a y)
    simp only [List.foldl_cons, List.mem_cons]
    refine ⟨le_trans (le_max_left a y) h1, ?_⟩
    intro x hx
    rcases hx with hx | hx
    · rw [hx]; exact le_trans (le_max_right a y) h1
    · exact h2 x hx

theorem foldl_max_mem (l : List ℚ) (a : ℚ) :
    l.foldl max a = a ∨ l.foldl max a ∈ l := by
  induction l generalizing a with
  | nil => simp
  | cons y ys ih =>
    simp only [List.foldl_cons, List.mem_cons]
    rcases ih (max a y) with h | h
    · rcases max_choice a y with hm | hm
      · left; rw [h, hm]
      · right; left; rw [h, hm]
    · right; right; exact h

theorem foldl_min_le (l : List ℚ) (a : ℚ) :
    l.foldl min a ≤ a ∧ ∀ x ∈ l, l.foldl min a ≤ x := by
  induction l generalizing a with
  | nil => simp
  | cons y ys ih =>
    obtain ⟨h1, h2⟩ := ih (min a y)
    simp only [List.foldl_cons, List.mem_cons]
    refine ⟨le_trans h1 (min_le_left a y), ?_⟩
    intro x hx
    rcases hx with hx | hx
    · rw [hx]; exact le_trans h1 (min_le_right a y)
    · exact h2 x hx

theorem foldl_min_mem (l : List ℚ) (a : ℚ) :
    l.foldl min a = a ∨ l.foldl min a ∈ l := by
  induction l generalizing a with
  | nil => simp
  | cons y ys ih =>
    simp only [List.foldl_cons, List.mem_cons]
    rcases ih (min a y) with h | h
    · rcases min_choice a y with hm | hm
      · left; rw [h, hm]
      · right; left; rw [h, hm]
    · right; right; exact h

theorem list_max_ge (l : List ℚ) (x : ℚ) (hx : x ∈ l) : x ≤ list_max l :=
  (foldl_max_ge l (l.headD 0)).2 x hx

theorem list_max_mem (l : List ℚ) (hl : l ≠ []) : list_max l ∈ l := by
  cases l with
  | nil => exact absurd rfl hl
  | cons y ys =>
    rcases foldl_max_mem (y :: ys) y with h | h
    · unfold list_max; simp only [List.headD_cons]; rw [h]; simp
    · exact h

theorem list_min_le (l : List ℚ) (x : ℚ) (hx : x ∈ l) : list_min l ≤ x :=
  (foldl_min_le l (l.headD 0)).2 x hx

theorem list_min_mem (l : List ℚ) (hl : l ≠ []) : list_min l ∈ l := by
  cases l with
  | nil => exact absurd rfl hl
  | cons y ys =>
    rcases foldl_min_mem (y :: ys) y with h | h
    · unfold list_min; simp only [List.headD_cons]; rw [h]; simp
    · exact h

/-- The running maximum of the statistics loop is the true maximum as soon as
one of the results is positive. -/
theorem result_stats_max_eq (result : List ℚ) (k : Nat)
    (hpos : ∃ x ∈ recorded_results result k, 0 < x) :
    (result_stats result k).1 = list_max (recorded_results result k) := by
  obtain ⟨x, hx, hx0⟩ := hpos
  have hne : recorded_results result k ≠ [] := List.ne_nil_of_mem hx
  obtain ⟨_, hall⟩ := result_stats_max_ge result k
  have hmem : (result_stats result k).1 ∈ recorded_results result k := by
    rcases result_stats_max_mem result k with h | h
    · have := hall x hx
      rw [h] at this
      exact absurd hx0 (not_lt.mpr this)
    · exact h
  exact le_antisymm (list_max_ge _ _ hmem) (hall _ (list_max_mem _ hne))

/-- The running minimum of the statistics loop is the smaller of 100000 and
the true minimum. -/
theorem result_stats_min_eq (result : List ℚ) (k : Nat)
    (hne : recorded_results result k ≠ []) :
    (result_stats result k).2.1 = min (list_min (recorded_results result k)) 100000 := by
  obtain ⟨h0, hall⟩ := result_stats_min_le result k
  apply le_antisymm
  · exact le_min (hall _ (list_min_mem _ hne)) h0
  · rcases result_stats_min_mem result k with h | h
    · rw [h]; exact min_le_right _ _
    · exact le_trans (min_le_left _ _) (list_min_le _ _ h)

/-! ## Latencies in milliseconds -/

theorem to_float_one : to_float 1 = 1 := by
  simpa using to_float_natCast 1 (by norm_num)

theorem one_le_to_float {x : ℚ} (h : 1 ≤ x) : 1 ≤ to_float x := by
  have := to_float_mono h
  rwa [to_float_one] at this

theorem to_float_pos_of_one_le {x : ℚ} (h : 1 ≤ x) : 0 < to_float x :=
  lt_of_lt_of_le one_pos (one_le_to_float h)

theorem to_float_rate_pos (rate : Int) (h : 0 < rate) : 0 < to_float (rate : ℚ) :=
  to_float_pos_of_one_le (by exact_mod_cast h)

theorem latency_ms_mono (s1 s2 rate : Int) (h : s1 ≤ s2) (hr : 0 < rate) :
    latency_ms s1 rate ≤ latency_ms s2 rate := by
  unfold latency_ms
  have hq : (s1 : ℚ) ≤ (s2 : ℚ) := by exact_mod_cast h
  have h1 := to_float_mono hq
  have h2 : to_float (to_float (s1 : ℚ) * 1000) ≤ to_float (to_float (s2 : ℚ) * 1000) :=
    to_float_mono (by linarith)
  have hp := to_float_rate_pos rate hr
  exact to_float_mono (div_le_div_of_nonneg_right h2 hp.le)

theorem latency_ms_pos (s rate : Int) (hs : 1 ≤ s) (hr : 0 < rate) (hr2 : rate ≤ 2147483647) :
    0 < latency_ms s rate := by
  unfold latency_ms
  have h1 : (1 : ℚ) ≤ to_float (s : ℚ) := one_le_to_float (by exact_mod_cast hs)
  have h2 : (1 : ℚ) ≤ to_float (to_float (s : ℚ) * 1000) := one_le_to_float (by linarith)
  have hp := to_float_rate_pos rate hr
  have h3 : to_float (rate : ℚ) ≤ 2147483648 := by
    have hq : (rate : ℚ) ≤ 2147483648 := by
      have : rate ≤ 2147483648 := by omega
      exact_mod_cast this
    have := to_float_mono hq
    have e : to_float 2147483648 = 2147483648 := by decide!
    rwa [e] at this
  have h4 : (1 : ℚ) / 2147483648 ≤
      to_float (to_float (s : ℚ) * 1000) / to_float (rate : ℚ) := by
    rw [div_le_div_iff (by norm_num) hp]
    linarith
  have h5 := to_float_mono h4
  have e : to_float (1 / 2147483648) = 1 / 2147483648 := by decide!
  rw [e] at h5
  exact lt_of_lt_of_le (by norm_num) h5

/-! ## Values that single precision keeps -/

theorem round_float_idem {x : ℚ} (hx : 0 ≤ x) : round_float (round_float x) = round_float x := by
  rcases eq_or_lt_of_le hx with h0 | hpos
  · rw [← h0, round_float_zero, round_float_zero]
  have hr0 : 0 ≤ round_float x := round_float_nonneg hx
  rcases eq_or_lt_of_le hr0 with hz | hrpos
  · rw [← hz, round_float_zero]
  have hu := float_ulp_pos x
  obtain ⟨hm24, hm23⟩ := float_ulp_mul x
  have hle := round_float_le_pow hpos
  rcases eq_or_lt_of_le hle with heq | hlt
  · -- rounded up to the next power of two
    have hbe : binary_exponent (round_float x) = max (binary_exponent x) (-126) + 1 := by
      apply binary_exponent_unique
      · rw [heq]
      · rw [heq]
        apply zpow_lt_zpow_right₀ (by norm_num : (1 : ℚ) < 2)
        omega
    have hulp : float_ulp (round_float x) = 2 * float_ulp x := by
      have h126 : -126 ≤ max (binary_exponent x) (-126) := le_max_right _ _
      unfold float_ulp
      rw [hbe, max_eq_left (by omega)]
      have : max (binary_exponent x) (-126) + 1 - 23 =
          (max (binary_exponent x) (-126) - 23) + 1 := by ring
      rw [this, zpow_add₀ (by norm_num : (2 : ℚ) ≠ 0), zpow_one]
      ring
    apply round_float_exact (round_float x) (8388608 : Int)
    rw [hulp, heq, ← hm24]
    push_cast
    ring
  · -- the spacing at the rounded value is the spacing at x
    have hulp : float_ulp (round_float x) = float_ulp x := by
      unfold float_ulp
      congr 2
      have hb1 : binary_exponent (round_float x) ≤ max (binary_exponent x) (-126) := by
        obtain ⟨h1, _⟩ := binary_exponent_spec _ hrpos
        have := (zpow_lt_zpow_iff_right₀ (by norm_num : (1 : ℚ) < 2)).mp
          (lt_of_le_of_lt h1 hlt)
        omega
      rcases le_or_lt (-126) (binary_exponent x) with hn | hn
      · have h2 := pow_le_round_float hpos hn
        obtain ⟨_, h4⟩ := binary_exponent_spec _ hrpos
        have := (zpow_lt_zpow_iff_right₀ (by norm_num : (1 : ℚ) < 2)).mp
          (lt_of_le_of_lt h2 h4)
        have e1 : max (binary_exponent x) (-126) = binary_exponent x := max_eq_left hn
        rw [e1] at hb1 ⊢
        rw [max_eq_left (by omega)]
        omega
      · have e1 : max (binary_exponent x) (-126) = -126 := max_eq_right (by omega)
        rw [e1] at hb1 ⊢
        exact max_eq_right hb1
    apply round_float_exact (round_float x) (round_even (x / float_ulp x))
    rw [hulp]
    rfl

theorem to_float_idem (x : ℚ) : to_float (to_float x) = to_float x := by
  rcases le_or_lt 0 x with hx | hx
  · rw [to_float_of_nonneg hx, to_float_of_nonneg (round_float_nonneg hx)]
    exact round_float_idem hx
  · have h : to_float x = -round_float (-x) := by
      unfold to_float
      rw [if_pos hx]
    rw [h, to_float_neg, to_float_of_nonneg (round_float_nonneg (by linarith)),
      round_float_idem (by linarith)]

theorem to_float_div_one (x : ℚ) : to_float (to_float x / to_float 1) = to_float x := by
  rw [to_float_one, div_one, to_float_idem]

/-! ## The quotient test of the consistency gate -/

/-- A positive value that single precision keeps is a multiple of every power
of two up to its unit in the last place. -/
theorem float_multiple {x : ℚ} (hx : 0 < x) (hf : to_float x = x) (K : Int)
    (hK : K ≤ max (binary_exponent x) (-126) - 23) :
    ∃ m : Int, x = (m : ℚ) * (2 : ℚ) ^ K := by
  rw [to_float_of_nonneg hx.le] at hf
  unfold round_float float_ulp at hf
  obtain ⟨j, hj⟩ : ∃ j : Nat, max (binary_exponent x) (-126) - 23 = K + (j : Int) :=
    ⟨(max (binary_exponent x) (-126) - 23 - K).toNat, by omega⟩
  rw [hj, zpow_add₀ (by norm_num : (2 : ℚ) ≠ 0), zpow_natCast] at hf
  refine ⟨round_even (x / ((2 : ℚ) ^ K * (2 : ℚ) ^ j)) * 2 ^ j, ?_⟩
  calc x = (round_even (x / ((2 : ℚ) ^ K * (2 : ℚ) ^ j)) : ℚ) * ((2 : ℚ) ^ K * (2 : ℚ) ^ j) :=
        hf.symm
    _ = _ := by push_cast; ring

/-- Two values that single precision keeps, one more than twice the other, are
further apart than the rounding of their quotient can hide. -/
theorem float_gt_two_mul {a b : ℚ} (hb : 0 < b) (hfa : to_float a = a) (hfb : to_float b = b)
    (h : 2 * b < a) : b * (2 + 1 / 8388608) < a := by
  have ha : 0 < a := by linarith
  obtain ⟨eb1, eb2⟩ := binary_exponent_spec b hb
  obtain ⟨ea1, ea2⟩ := binary_exponent_spec a ha
  have h2 : (2 : ℚ) ≠ 0 := by norm_num
  by_cases hn : -126 ≤ binary_exponent b
  · have hea : binary_exponent b + 1 ≤ binary_exponent a := by
      have hlt : (2 : ℚ) ^ (binary_exponent b + 1) < (2 : ℚ) ^ (binary_exponent a + 1) := by
        rw [zpow_add₀ h2 (binary_exponent b), zpow_one]
        linarith
      have := (zpow_lt_zpow_iff_right₀ (by norm_num : (1 : ℚ) < 2)).mp hlt
      omega
    obtain ⟨m, hm⟩ := float_multiple ha hfa (binary_exponent b - 22)
      (by have := le_max_left (binary_exponent a) (-126); omega)
    obtain ⟨n, hn1⟩ := float_multiple hb hfb (binary_exponent b - 23)
      (by have := le_max_left (binary_exponent b) (-126); omega)
    have hU : (0 : ℚ) < (2 : ℚ) ^ (binary_exponent b - 22) := by positivity
    have e1 : (2 : ℚ) ^ (binary_exponent b - 23) = (2 : ℚ) ^ (binary_exponent b - 22) / 2 := by
      have : binary_exponent b - 22 = (binary_exponent b - 23) + 1 := by ring
      rw [this, zpow_add₀ h2, zpow_one]
      field_simp
    have e2 : (2 : ℚ) ^ (binary_exponent b + 1) =
        (2 : ℚ) ^ (binary_exponent b - 22) * 8388608 := by
      have : binary_exponent b + 1 = (binary_exponent b - 22) + 23 := by ring
      rw [this, zpow_add₀ h2]
      norm_num
    rw [e1] at hn1
    rw [e2] at eb2
    generalize (2 : ℚ) ^ (binary_exponent b - 22) = U at hm hn1 hU eb2
    have h2b : 2 * b = (n : ℚ) * U := by
      have : (n : ℚ) * (U / 2) = (n : ℚ) * U / 2 := by ring
      linarith
    have hmn : n < m := by
      have : (n : ℚ) * U < (m : ℚ) * U := by
        rw [← hm, ← h2b]
        exact h
      have := lt_of_mul_lt_mul_right this hU.le
      exact_mod_cast this
    have hmn1 : (n : ℚ) + 1 ≤ (m : ℚ) := by exact_mod_cast hmn
    have hge : 2 * b + U ≤ a := by
      rw [hm, h2b]
      nlinarith
    linarith
  · have hlt : binary_exponent b + 1 ≤ -126 := by omega
    obtain ⟨m, hm⟩ := float_multiple ha hfa (-149)
      (by have := le_max_right (binary_exponent a) (-126); omega)
    obtain ⟨n, hn1⟩ := float_multiple hb hfb (-149)
      (by have := le_max_right (binary_exponent b) (-126); omega)
    have hU : (0 : ℚ) < (2 : ℚ) ^ (-149 : Int) := by positivity
    have e2 : (2 : ℚ) ^ (-126 : Int) = (2 : ℚ) ^ (-149 : Int) * 8388608 := by
      have : (-126 : Int) = (-149) + 23 := by norm_num
      rw [this, zpow_add₀ h2]
      norm_num
    have hb2 : b < (2 : ℚ) ^ (-149 : Int) * 8388608 := by
      rw [← e2]
      exact lt_of_lt_of_le eb2 (zpow_le_zpow_right₀ (by norm_num : (1 : ℚ) ≤ 2) hlt)
    generalize (2 : ℚ) ^ (-149 : Int) = U at hm hn1 hU hb2
    have h2b : 2 * b = ((2 * n : Int) : ℚ) * U := by
      push_cast
      linarith
    have hmn : 2 * n < m := by
      have : ((2 * n : Int) : ℚ) * U < (m : ℚ) * U := by
        rw [← hm, ← h2b]
        exact h
      have := lt_of_mul_lt_mul_right this hU.le
      exact_mod_cast this
    have hmn1 : ((2 * n : Int) : ℚ) + 1 ≤ (m : ℚ) := by exact_mod_cast hmn
    have hge : 2 * b + U ≤ a := by
      rw [hm, h2b]
      nlinarith
    linarith

theorem to_float_gt_two {q : ℚ} (h : 2 + 1 / 8388608 < q) : 2 < to_float q := by
  by_cases h4 : 4 ≤ q
  · have h1 := to_float_mono h4
    have h2 : to_float (4 : ℚ) = 4 := by
      have := to_float_natCast 4 (by norm_num)
      simpa using this
    rw [h2] at h1
    linarith
  · push_neg at h4
    have hq : 0 < q := by linarith
    have he : binary_exponent q = 1 := by
      apply binary_exponent_unique
      · norm_num; linarith
      · norm_num; linarith
    rw [to_float_of_nonneg hq.le]
    unfold round_float float_ulp
    rw [he]
    have hu : (2 : ℚ) ^ (max (1 : Int) (-126) - 23) = 1 / 4194304 := by
      have : max (1 : Int) (-126) - 23 = -22 := by decide
      rw [this, zpow_neg]
      norm_num
    rw [hu]
    have herr := round_even_error (q / (1 / 4194304))
    have hy : q / (1 / 4194304) = q * 4194304 := by field_simp
    rw [hy] at herr ⊢
    have hlow := (abs_le.mp herr).1
    have hgt : (8388608 : ℚ) < ((round_even (q * 4194304) : Int) : ℚ) := by linarith
    have hgt1 : (8388608 : Int) < round_even (q * 4194304) := by exact_mod_cast hgt
    have hge : ((8388608 + 1 : Int) : ℚ) ≤ ((round_even (q * 4194304) : Int) : ℚ) := by
      exact_mod_cast hgt1
    push_cast at hge
    linarith

/-- For two values that single precision keeps the test `a / b > 2.0f` of the
code decides whether the exact quotient exceeds 2. -/
theorem to_float_div_gt_two_iff {a b : ℚ} (hb : 0 < b) (hfa : to_float a = a)
    (hfb : to_float b = b) : to_float (a / b) > 2 ↔ a / b > 2 := by
  constructor
  · intro h
    by_contra hle
    push_neg at hle
    have h1 := to_float_mono hle
    have h2 : to_float (2 : ℚ) = 2 := by
      have := to_float_natCast 2 (by norm_num)
      simpa using this
    rw [h2] at h1
    linarith
  · intro h
    have h1 : 2 * b < a := by
      have := (lt_div_iff₀ hb).mp h
      linarith
    have h2 := float_gt_two_mul hb hfa hfb h1
    apply to_float_gt_two
    rw [lt_div_iff₀ hb]
    linarith

/-! ## The consistency gate -/

theorem new_result_pos (bat : Bat) (buffer : List Int) (frames : Int)
    (hrec : records_result bat buffer frames) (hrate : 0 < bat.rate)
    (hrate2 : bat.rate ≤ 2147483647) (hframes : 0 ≤ frames) :
    0 < new_result bat buffer frames := by
  obtain ⟨_, h2⟩ := hrec
  unfold new_result
  exact latency_ms_pos _ _ (by omega) hrate hrate2

theorem results_so_far_eq (env : Env) (bat : Bat) (buffer : List Int) (frames : Int)
    (hrec : records_result bat buffer frames)
    (hnum : 1 ≤ bat.latency.number)
    (hlen : bat.latency.number ≤ (bat.latency.result.length : Int)) :
    results_so_far env bat buffer frames =
      recorded_results bat.latency.result (bat.latency.number - 1).toNat ++
        [new_result bat buffer frames] := by
  rw [results_so_far, play_and_listen_result_of_records env bat buffer frames hrec,
    results_after, recorded_results_store _ _ _ hnum hlen]

/-- With positive results the gate of `play_and_listen` compares the true
maximum with the smaller of 100000 and the true minimum. -/
theorem gate_fires_iff (env : Env) (bat : Bat) (buffer : List Int) (frames : Int)
    (hrec : records_result bat buffer frames)
    (hne : results_so_far env bat buffer frames ≠ [])
    (hpos : ∀ x ∈ results_so_far env bat buffer frames, 0 < x) :
    gate_fires bat buffer frames = true ↔
      to_float (list_max (results_so_far env bat buffer frames) /
        min (list_min (results_so_far env bat buffer frames)) 100000) > 2 := by
  have hres := play_and_listen_result_of_records env bat buffer frames hrec
  unfold results_so_far at hne hpos ⊢
  rw [hres] at hne hpos ⊢
  obtain ⟨x, hx⟩ := List.exists_mem_of_ne_nil _ hne
  have hmax := result_stats_max_eq (results_after bat buffer frames)
    bat.latency.number.toNat ⟨x, hx, hpos x hx⟩
  have hmin := result_stats_min_eq (results_after bat buffer frames)
    bat.latency.number.toNat hne
  have hminpos : 0 < min (list_min (recorded_results (results_after bat buffer frames)
      bat.latency.number.toNat)) 100000 :=
    lt_min (hpos _ (list_min_mem _ hne)) (by norm_num)
  unfold gate_fires float_div_gt
  rw [hmax, hmin, if_neg (ne_of_gt hminpos)]
  simp

theorem results_so_far_pos (env : Env) (bat : Bat) (buffer : List Int) (frames : Int)
    (hrec : records_result bat buffer frames)
    (hrate : 0 < bat.rate) (hrate2 : bat.rate ≤ 2147483647) (hframes : 0 ≤ frames)
    (hnum : 1 ≤ bat.latency.number)
    (hlen : bat.latency.number ≤ (bat.latency.result.length : Int))
    (hpos : earlier_results_positive bat) :
    results_so_far env bat buffer frames ≠ [] ∧
      ∀ x ∈ results_so_far env bat buffer frames, 0 < x := by
  rw [results_so_far_eq env bat buffer frames hrec hnum hlen]
  refine ⟨by simp, ?_⟩
  intro x hx
  rcases List.mem_append.mp hx with h | h
  · exact hpos x h
  · simp at h
    rw [h]
    exact new_result_pos bat buffer frames hrec hrate hrate2 hframes

/-! ## The final trial -/

theorem play_and_listen_success_of_records (env : Env) (bat : Bat) (buffer : List Int)
    (frames : Int) (h : records_result bat buffer frames)
    (hg : gate_fires bat buffer frames = false)
    (hfinal : bat.latency.number = env.LATENCY_TEST_NUMBER) :
    (play_and_listen env bat buffer frames).1.latency.state =
        LATENCY_STATE_COMPLETE_SUCCESS ∧
      (play_and_listen env bat buffer frames).1.latency.is_capturing = false ∧
      (play_and_listen env bat buffer frames).1.latency.number = bat.latency.number ∧
      (play_and_listen env bat buffer frames).1.latency.final_result =
        float_to_int (to_float ((result_stats (results_after bat buffer frames)
          bat.latency.number.toNat).2.2 / to_float (env.LATENCY_TEST_NUMBER : ℚ))) := by
  obtain ⟨h1, h2⟩ := h
  unfold detect_offset at h2
  have hg2 := hg
  simp only [gate_fires, results_after, new_result, latency_ms, detect_offset] at hg2
  unfold play_and_listen
  simp only [record_test_db_threshold, record_test_db_samples, record_test_db_result,
    if_pos h1, if_pos h2, hg2, Bool.false_eq_true, if_false, if_pos hfinal]
  simp [results_after, new_result, latency_ms, detect_offset]

theorem float_to_int_of_nonneg (x : ℚ) (hx : 0 ≤ x) :
    ((float_to_int x : Int) : ℚ) ≤ x ∧ x < ((float_to_int x : Int) : ℚ) + 1 := by
  unfold float_to_int
  rw [if_pos hx]
  exact ⟨Int.floor_le x, Int.lt_floor_add_one x⟩

theorem float_to_int_mono {x y : ℚ} (h : x ≤ y) : float_to_int x ≤ float_to_int y := by
  unfold float_to_int
  split_ifs with hx hy hy
  · exact Int.floor_mono h
  · exact absurd (le_trans hx h) hy
  · have h1 : ⌈x⌉ ≤ 0 := Int.ceil_le.mpr (by push_cast; linarith)
    have h2 : 0 ≤ ⌊y⌋ := Int.floor_nonneg.mpr hy
    omega
  · exact Int.ceil_mono h

theorem foldl_float_sum_mono (l : List ℚ) (m : ℚ) (hm : ∀ x ∈ l, m ≤ x) :
    ∀ a b : ℚ, a ≤ b →
      (List.replicate l.length m).foldl (fun s x => to_float (s + x)) a ≤
        l.foldl (fun s x => to_float (s + x)) b := by
  induction l with
  | nil => intro a b h; simpa using h
  | cons x xs ih =>
    intro a b h
    simp only [List.length_cons, List.replicate_succ, List.foldl_cons]
    apply ih (fun y hy => hm y (List.mem_cons_of_mem _ hy))
    apply to_float_mono
    have := hm x (List.mem_cons_self _ _)
    linarith

theorem foldl_float_sum_mono_max (l : List ℚ) (m : ℚ) (hm : ∀ x ∈ l, x ≤ m) :
    ∀ a b : ℚ, a ≤ b →
      l.foldl (fun s x => to_float (s + x)) a ≤
        (List.replicate l.length m).foldl (fun s x => to_float (s + x)) b := by
  induction l with
  | nil => intro a b h; simpa using h
  | cons x xs ih =>
    intro a b h
    simp only [List.length_cons, List.replicate_succ, List.foldl_cons]
    apply ih (fun y hy => hm y (List.mem_cons_of_mem _ hy))
    apply to_float_mono
    have := hm x (List.mem_cons_self _ _)
    linarith

/-- The running sum of a list lies between the running sums of as many copies
of a lower and of an upper bound of its elements. -/
theorem float_sum_bounds (l : List ℚ) (lo hi : ℚ) (hlo : ∀ x ∈ l, lo ≤ x)
    (hhi : ∀ x ∈ l, x ≤ hi) :
    float_sum (List.replicate l.length lo) ≤ float_sum l ∧
      float_sum l ≤ float_sum (List.replicate l.length hi) :=
  ⟨foldl_float_sum_mono l lo hlo 0 0 le_rfl, foldl_float_sum_mono_max l hi hhi 0 0 le_rfl⟩

/-- C4 (as the code has it): when `play_and_listen` records the result of the
final trial (`number == LATENCY_TEST_NUMBER`) and the gate does not fire, the
state becomes COMPLETE_SUCCESS, `is_capturing` false, `number` keeps its value
and `final_result` is `(int) (sum / LATENCY_TEST_NUMBER)` for the single
precision running sum of the `LATENCY_TEST_NUMBER` results in index order; it
lies between the values that this computation gives for as many copies of the
smallest and of the largest result, the single precision quotient of any two
results is at most 2, and any two results that are values of type `float` are
within a factor 2 of each other. -/
theorem play_and_listen_final_trial (env : Env) (bat : Bat) (buffer : List Int)
    (frames : Int)
    (hrec : records_result bat buffer frames)
    (hfinal : bat.latency.number = env.LATENCY_TEST_NUMBER)
    (hgate : gate_fires bat buffer frames = false)
    (hrate : 0 < bat.rate) (hrate2 : bat.rate ≤ 2147483647) (hframes : 0 ≤ frames)
    (hnum : 1 ≤ bat.latency.number)
    (hlen : bat.latency.number ≤ (bat.latency.result.length : Int))
    (hpos : earlier_results_positive bat) :
    (play_and_listen env bat buffer frames).1.latency.state =
      LATENCY_STATE_COMPLETE_SUCCESS ∧
    (play_and_listen env bat buffer frames).1.latency.is_capturing = false ∧
    (play_and_listen env bat buffer frames).1.latency.number = bat.latency.number ∧
    ((results_so_far env bat buffer frames).length : Int) = env.LATENCY_TEST_NUMBER ∧
    (play_and_listen env bat buffer frames).1.latency.final_result =
      float_to_int (to_float (float_sum (results_so_far env bat buffer frames) /
        to_float (env.LATENCY_TEST_NUMBER : ℚ))) ∧
    float_to_int (to_float (float_sum (List.replicate
        (results_so_far env bat buffer frames).length
        (list_min (results_so_far env bat buffer frames))) /
          to_float (env.LATENCY_TEST_NUMBER : ℚ))) ≤
      (play_and_listen env bat buffer frames).1.latency.final_result ∧
    (play_and_listen env bat buffer frames).1.latency.final_result ≤
      float_to_int (to_float (float_sum (List.replicate
        (results_so_far env bat buffer frames).length
        (list_max (results_so_far env bat buffer frames))) /
          to_float (env.LATENCY_TEST_NUMBER : ℚ))) ∧
    (∀ x ∈ results_so_far env bat buffer frames,
      ∀ y ∈ results_so_far env bat buffer frames, to_float (x / y) ≤ 2) ∧
    (∀ x ∈ results_so_far env bat buffer frames,
      ∀ y ∈ results_so_far env bat buffer frames,
        to_float x = x → to_float y = y → x ≤ 2 * y) := by
  obtain ⟨hs, hc, hn, hf⟩ :=
    play_and_listen_success_of_records env bat buffer frames hrec hgate hfinal
  obtain ⟨hne, hall⟩ :=
    results_so_far_pos env bat buffer frames hrec hrate hrate2 hframes hnum hlen hpos
  have hres := play_and_listen_result_of_records env bat buffer frames hrec
  have hlenL : ((results_so_far env bat buffer frames).length : Int) =
      env.LATENCY_TEST_NUMBER := by
    simp only [results_so_far, recorded_results, List.length_map, List.length_range]
    omega
  have hfin : (play_and_listen env bat buffer frames).1.latency.final_result =
      float_to_int (to_float (float_sum (results_so_far env bat buffer frames) /
        to_float (env.LATENCY_TEST_NUMBER : ℚ))) := by
    rw [hf, result_stats_sum, results_so_far, hres]
  have hNpos : 0 < to_float (env.LATENCY_TEST_NUMBER : ℚ) :=
    to_float_rate_pos _ (by omega)
  obtain ⟨hb1, hb2⟩ := float_sum_bounds (results_so_far env bat buffer frames)
    (list_min (results_so_far env bat buffer frames))
    (list_max (results_so_far env bat buffer frames))
    (fun x hx => list_min_le _ _ hx) (fun x hx => list_max_ge _ _ hx)
  have hminpos := hall _ (list_min_mem _ hne)
  have hnot := (gate_fires_iff env bat buffer frames hrec hne hall).not.mp
    (by rw [hgate]; simp)
  have hmp : 0 < min (list_min (results_so_far env bat buffer frames)) 100000 :=
    lt_min hminpos (by norm_num)
  have hpair : ∀ x ∈ results_so_far env bat buffer frames,
      ∀ y ∈ results_so_far env bat buffer frames, to_float (x / y) ≤ 2 := ?_
  refine ⟨hs, hc, hn, hlenL, hfin, ?_, ?_, hpair, ?_⟩
  · rw [hfin]
    exact float_to_int_mono (to_float_mono (div_le_div_of_nonneg_right hb1 hNpos.le))
  · rw [hfin]
    exact float_to_int_mono (to_float_mono (div_le_div_of_nonneg_right hb2 hNpos.le))
  · intro x hx y hy hfx hfy
    have hy0 := hall y hy
    have h1 : ¬ x / y > 2 := fun h =>
      absurd ((to_float_div_gt_two_iff hy0 hfx hfy).mpr h) (not_lt.mpr (hpair x hx y hy))
    have h2 := (div_le_iff₀ hy0).mp (not_lt.mp h1)
    linarith
  · intro x hx y hy
    have h1 := list_max_ge _ _ hx
    have h2 := list_min_le _ _ hy
    have h3 := min_le_left (list_min (results_so_far env bat buffer frames)) 100000
    have hy0 := hall y hy
    have hx0 := hall x hx
    have hq : x / y ≤ list_max (results_so_far env bat buffer frames) /
        min (list_min (results_so_far env bat buffer frames)) 100000 := by
      rw [div_le_div_iff hy0 hmp]
      have hmax0 : 0 ≤ list_max (results_so_far env bat buffer frames) := le_trans hx0.le h1
      have hmy : min (list_min (results_so_far env bat buffer frames)) 100000 ≤ y := by
        linarith
      calc x * min (list_min (results_so_far env bat buffer frames)) 100000
          ≤ list_max (results_so_far env bat buffer frames) *
            min (list_min (results_so_far env bat buffer frames)) 100000 :=
            mul_le_mul_of_nonneg_right h1 hmp.le
        _ ≤ list_max (results_so_far env bat buffer frames) * y :=
            mul_le_mul_of_nonneg_left hmy hmax0
    exact le_trans (to_float_mono hq) (not_lt.mp hnot)

/-! ## Runs -/

theorem count_calls_nil (env : Env) (cnt : Bat → Call → Bool) (bat : Bat) :
    count_calls env cnt bat [] = 0 := rfl

theorem count_calls_cons_some (env : Env) (cnt : Bat → Call → Bool) (bat b : Bat) (c : Call)
    (cs : List Call) (h : step env bat c = some b) :
    count_calls env cnt bat (c :: cs) =
      (if cnt bat c then 1 else 0) + count_calls env cnt b cs := by
  unfold count_calls
  simp only [trace, h, List.countP_cons]
  omega

/-- Induction along a run: a relation between the context and a counter that
every call preserves, the counter advancing with the calls that satisfy `cnt`,
holds at the end of the run. -/
theorem run_induction (env : Env) (cnt : Bat → Call → Bool) (P : Bat → Nat → Prop)
    (hstep : ∀ (b b1 : Bat) (c : Call) (k : Nat), P b k → step env b c = some b1 →
      P b1 (k + if cnt b c then 1 else 0))
    (calls : List Call) :
    ∀ (b b1 : Bat) (k : Nat), P b k → run env b calls = some b1 →
      P b1 (k + count_calls env cnt b calls) := by
  induction calls with
  | nil =>
    intro b b1 k hP hrun
    simp only [run, Option.some.injEq] at hrun
    rw [← hrun, count_calls_nil]
    exact hP
  | cons c cs ih =>
    intro b b1 k hP hrun
    simp only [run] at hrun
    cases hs : step env b c with
    | none => rw [hs] at hrun; simp at hrun
    | some b2 =>
      rw [hs] at hrun
      simp only [Option.some_bind] at hrun
      have h2 := ih b2 b1 _ (hstep b b2 c k hP hs) hrun
      rw [count_calls_cons_some env cnt b b2 c cs hs, ← Nat.add_assoc]
      exact h2

/-! ## Misses -/

theorem play_and_listen_miss (env : Env) (bat : Bat) (buffer : List Int) (frames : Int)
    (h : is_miss bat buffer frames) :
    (play_and_listen env bat buffer frames).2 = buffer ∧
    (play_and_listen env bat buffer frames).1.latency.error = bat.latency.error + 1 ∧
    (play_and_listen env bat buffer frames).1.latency.result = bat.latency.result ∧
    (play_and_listen env bat buffer frames).1.latency.number = bat.latency.number ∧
    (bat.latency.error + 1 > env.LATENCY_TEST_NUMBER →
      (play_and_listen env bat buffer frames).1.latency.state =
        LATENCY_STATE_COMPLETE_FAILURE ∧
      (play_and_listen env bat buffer frames).1.latency.is_capturing = false) ∧
    (¬ bat.latency.error + 1 > env.LATENCY_TEST_NUMBER →
      (play_and_listen env bat buffer frames).1.latency.state = LATENCY_STATE_WAITING ∧
      (play_and_listen env bat buffer frames).1.latency.wait_samples =
        10 * (bat.period_size : Int) ∧
      (play_and_listen env bat buffer frames).1.latency.samples = 0) := by
  obtain ⟨h1, h2⟩ := h
  have h1n : ¬ averageinput bat buffer frames > bat.latency.threshold := not_lt.mpr h1
  unfold play_and_listen
  simp only [record_test_db_threshold, record_test_db_samples, record_test_db_wait_samples,
    record_test_db_error, if_neg h1n, if_pos h2]
  by_cases he : bat.latency.error + 1 > env.LATENCY_TEST_NUMBER
  · simp [he]
  · simp [he, clear_samples_if_waiting, mul_comm]

theorem play_and_listen_error (env : Env) (bat : Bat) (buffer : List Int) (frames : Int) :
    (play_and_listen env bat buffer frames).1.latency.error =
      bat.latency.error + (if is_miss bat buffer frames then 1 else 0) := by
  by_cases h : is_miss bat buffer frames
  · rw [if_pos h]
    exact (play_and_listen_miss env bat buffer frames h).2.1
  · rw [if_neg h, add_zero]
    unfold is_miss at h
    unfold play_and_listen
    simp only [record_test_db_threshold, record_test_db_samples, record_test_db_wait_samples,
      record_test_db_error]
    split_ifs <;> first | omega | simp

theorem handleoutput_latency (env : Env) (bat : Bat) (buffer : List Nat) (bytes frames : Int) :
    (handleoutput env bat buffer bytes frames).1.latency.number = bat.latency.number ∧
    (handleoutput env bat buffer bytes frames).1.latency.error = bat.latency.error ∧
    (handleoutput env bat buffer bytes frames).1.latency.result = bat.latency.result ∧
    (handleoutput env bat buffer bytes frames).1.latency.state = bat.latency.state ∧
    (handleoutput env bat buffer bytes frames).1.latency.samples = bat.latency.samples ∧
    (handleoutput env bat buffer bytes frames).1.latency.sum = bat.latency.sum ∧
    (handleoutput env bat buffer bytes frames).1.latency.threshold = bat.latency.threshold ∧
    (handleoutput env bat buffer bytes frames).1.latency.wait_samples =
      bat.latency.wait_samples ∧
    (handleoutput env bat buffer bytes frames).1.latency.final_result =
      bat.latency.final_result ∧
    (handleoutput env bat buffer bytes frames).1.latency.is_capturing =
      bat.latency.is_capturing ∧
    (handleoutput env bat buffer bytes frames).1.rate = bat.rate ∧
    (handleoutput env bat buffer bytes frames).1.channels = bat.channels ∧
    (handleoutput env bat buffer bytes frames).1.period_size = bat.period_size := by
  unfold handleoutput
  split_ifs <;> simp

theorem handleinput_error (env : Env) (bat : Bat) (buffer : List Int) (frames : Int)
    (r : Bat × List Int × Int) (h : handleinput env bat buffer frames = some r) :
    r.1.latency.error =
      bat.latency.error +
        (if listens bat frames ∧ is_miss bat buffer frames then 1 else 0) := by
  unfold handleinput at h
  by_cases hf : frames = (bat.period_size : Int)
  · by_cases hc : bat.channels = 1
    · rw [if_neg (not_not.mpr hf), if_neg (not_not.mpr hc)] at h
      by_cases hp : bat.latency.state = LATENCY_STATE_PLAY_AND_LISTEN
      · rw [hp] at h
        simp only [Option.some.injEq] at h
        rw [← h]
        simp only [listens, hf, hc, hp, true_and]
        rw [← hf]
        exact play_and_listen_error env bat buffer frames
      · have hl : ¬ (listens bat frames ∧ is_miss bat buffer frames) := fun hh => hp hh.1.2.2
        rw [if_neg hl, add_zero]
        revert h
        cases hs : bat.latency.state <;> simp only [] <;> intro h
        · split_ifs at h <;> simp only [Option.some.injEq] at h <;> rw [← h] <;>
            simp only [measure_for_1_second, calculate_threshold] <;> split_ifs <;> rfl
        · simp only [Option.some.injEq] at h
          rw [← h]
          simp only [measure_for_1_second, calculate_threshold]
          split_ifs <;> rfl
        · exact absurd hs hp
        · split_ifs at h <;> simp only [Option.some.injEq] at h <;> rw [← h]
        · simp only [Option.some.injEq] at h; rw [← h]
        · simp only [Option.some.injEq] at h; rw [← h]
    · rw [if_neg (not_not.mpr hf), if_pos hc] at h
      cases h
  · rw [if_pos hf] at h
    cases h

/-! ## Effect of one call on the trial index and the results -/

theorem play_and_listen_state_of_records (env : Env) (bat : Bat) (buffer : List Int)
    (frames : Int) (h : records_result bat buffer frames) :
    (play_and_listen env bat buffer frames).1.latency.state =
      if gate_fires bat buffer frames = true then LATENCY_STATE_COMPLETE_FAILURE
      else if bat.latency.number = env.LATENCY_TEST_NUMBER then LATENCY_STATE_COMPLETE_SUCCESS
      else LATENCY_STATE_WAITING := by
  obtain ⟨h1, h2⟩ := h
  unfold detect_offset at h2
  unfold play_and_listen
  simp only [record_test_db_threshold, record_test_db_samples, record_test_db_result,
    if_pos h1, if_pos h2]
  simp only [gate_fires, results_after, new_result, latency_ms, detect_offset]
  split_ifs <;> simp

theorem play_and_listen_number (env : Env) (bat : Bat) (buffer : List Int) (frames : Int) :
    (play_and_listen env bat buffer frames).1.latency.number =
      bat.latency.number +
        (if records_result bat buffer frames ∧ gate_fires bat buffer frames = false ∧
            bat.latency.number ≠ env.LATENCY_TEST_NUMBER then 1 else 0) := by
  unfold play_and_listen
  simp only [record_test_db_threshold, record_test_db_samples, record_test_db_result,
    record_test_db_wait_samples, record_test_db_number]
  simp only [records_result, gate_fires, results_after, new_result, latency_ms, detect_offset]
  split_ifs <;> simp_all

theorem play_and_listen_result (env : Env) (bat : Bat) (buffer : List Int) (frames : Int) :
    (play_and_listen env bat buffer frames).1.latency.result =
      if records_result bat buffer frames then results_after bat buffer frames
      else bat.latency.result := by
  by_cases h : records_result bat buffer frames
  · rw [if_pos h]; exact play_and_listen_result_of_records env bat buffer frames h
  · rw [if_neg h]
    unfold records_result detect_offset at h
    unfold play_and_listen
    simp only [record_test_db_threshold, record_test_db_samples, record_test_db_result,
      record_test_db_wait_samples]
    split_ifs <;> first | (exfalso; apply h; constructor <;> assumption) | simp

theorem play_and_listen_config (env : Env) (bat : Bat) (buffer : List Int) (frames : Int) :
    (play_and_listen env bat buffer frames).1.rate = bat.rate ∧
    (play_and_listen env bat buffer frames).1.channels = bat.channels ∧
    (play_and_listen env bat buffer frames).1.period_size = bat.period_size := by
  unfold play_and_listen
  simp only []
  split_ifs <;> simp

theorem handleinput_listening (env : Env) (bat : Bat) (buffer : List Int) (frames : Int)
    (h : listens bat frames) :
    handleinput env bat buffer frames =
      some ((play_and_listen env bat buffer frames).1,
        (play_and_listen env bat buffer frames).2, 0) := by
  obtain ⟨hf, hc, hp⟩ := h
  unfold handleinput
  rw [if_neg (not_not.mpr hf), if_neg (not_not.mpr hc), hp]

theorem handleinput_not_listening (env : Env) (bat : Bat) (buffer : List Int) (frames : Int)
    (r : Bat × List Int × Int) (hp : bat.latency.state ≠ LATENCY_STATE_PLAY_AND_LISTEN)
    (h : handleinput env bat buffer frames = some r) :
    r.1.latency.number = bat.latency.number ∧
    r.1.latency.result = bat.latency.result ∧
    r.1.latency.final_result = bat.latency.final_result ∧
    r.1.latency.is_capturing = bat.latency.is_capturing ∧
    r.1.rate = bat.rate ∧ r.1.channels = bat.channels ∧
    r.1.period_size = bat.period_size ∧
    r.2.1 = buffer ∧ r.2.2 = 0 ∧
    (is_terminal bat.latency.state → r.1 = bat) ∧
    (¬ is_terminal bat.latency.state → ¬ is_terminal r.1.latency.state) := by
  unfold handleinput at h
  by_cases hf : frames = (bat.period_size : Int)
  · by_cases hc : bat.channels = 1
    · rw [if_neg (not_not.mpr hf), if_neg (not_not.mpr hc)] at h
      revert h
      cases hs : bat.latency.state <;> simp only [] <;> intro h
      · split_ifs at h <;> simp only [Option.some.injEq] at h <;> rw [← h] <;>
          simp only [measure_for_1_second, calculate_threshold] <;> (try split_ifs) <;>
          simp [is_terminal, hs]
      · simp only [Option.some.injEq] at h
        rw [← h]
        simp only [measure_for_1_second, calculate_threshold]
        split_ifs <;> simp [is_terminal, hs]
      · exact absurd hs hp
      · split_ifs at h <;> simp only [Option.some.injEq] at h <;> rw [← h] <;>
          simp [is_terminal, hs]
      · simp only [Option.some.injEq] at h; rw [← h]; simp [is_terminal, hs]
      · simp only [Option.some.injEq] at h; rw [← h]; simp [is_terminal, hs]
    · rw [if_neg (not_not.mpr hf), if_pos hc] at h
      cases h
  · rw [if_pos hf] at h
    cases h

theorem handleinput_accepts (env : Env) (bat : Bat) (buffer : List Int) (frames : Int)
    (r : Bat × List Int × Int) (h : handleinput env bat buffer frames = some r) :
    frames = (bat.period_size : Int) ∧ bat.channels = 1 := by
  unfold handleinput at h
  by_cases hf : frames = (bat.period_size : Int)
  · by_cases hc : bat.channels = 1
    · exact ⟨hf, hc⟩
    · rw [if_neg (not_not.mpr hf), if_pos hc] at h
      cases h
  · rw [if_pos hf] at h
    cases h

/-- C8: a `handleinput` call leaves `number` as it is or adds exactly 1, and it
adds 1 exactly when the call is made in PLAY_AND_LISTEN, records a result, the
gate does not fire and the trial is not the final one; `handleoutput` never
changes `number`. -/
theorem handleinput_number (env : Env) (bat : Bat) (buffer : List Int) (frames : Int)
    (r : Bat × List Int × Int) (h : handleinput env bat buffer frames = some r) :
    r.1.latency.number =
      bat.latency.number +
        (if bat.latency.state = LATENCY_STATE_PLAY_AND_LISTEN ∧
            records_result bat buffer frames ∧ gate_fires bat buffer frames = false ∧
            bat.latency.number ≠ env.LATENCY_TEST_NUMBER then 1 else 0) ∧
    ∀ (obuffer : List Nat) (bytes oframes : Int),
      (handleoutput env bat obuffer bytes oframes).1.latency.number = bat.latency.number := by
  refine ⟨?_, fun obuffer bytes oframes =>
    (handleoutput_latency env bat obuffer bytes oframes).1⟩
  obtain ⟨hf, hc⟩ := handleinput_accepts env bat buffer frames r h
  by_cases hp : bat.latency.state = LATENCY_STATE_PLAY_AND_LISTEN
  · rw [handleinput_listening env bat buffer frames ⟨hf, hc, hp⟩] at h
    simp only [Option.some.injEq] at h
    rw [← h, play_and_listen_number]
    simp only [hp, true_and]
  · rw [(handleinput_not_listening env bat buffer frames r hp h).1, if_neg (fun hh => hp hh.1),
      add_zero]

theorem handleinput_number_witness :
    handleinput env0 bat_consistent_trial [500, 500] 2 =
      some ((play_and_listen env0 bat_consistent_trial [500, 500] 2).1,
        (play_and_listen env0 bat_consistent_trial [500, 500] 2).2, 0) ∧
    (play_and_listen env0 bat_consistent_trial [500, 500] 2).1.latency.number = 3 := by
  have hl : listens bat_consistent_trial 2 := ⟨rfl, rfl, rfl⟩
  have hin := handleinput_listening env0 bat_consistent_trial [500, 500] 2 hl
  have hrec : records_result bat_consistent_trial [500, 500] 2 := by
    decide!
  have hgate : gate_fires bat_consistent_trial [500, 500] 2 = false := by
    decide!
  have hne : bat_consistent_trial.latency.number ≠ env0.LATENCY_TEST_NUMBER := by decide
  have h := (handleinput_number env0 bat_consistent_trial [500, 500] 2 _ hin).1
  rw [if_pos ⟨rfl, hrec, hgate, hne⟩] at h
  exact ⟨hin, h⟩

/-! ## The trial index along a run -/

theorem float_store_length (a : List ℚ) (i : Int) (v : ℚ) :
    (float_store a i v).length = a.length := by
  unfold float_store
  split_ifs <;> simp

theorem step_input_some (env : Env) (b b1 : Bat) (buffer : List Int) (frames : Int)
    (hs : step env b (Call.input buffer frames) = some b1) :
    ∃ r, handleinput env b buffer frames = some r ∧ r.1 = b1 := by
  simp only [step, Option.map_eq_some'] at hs
  exact hs

theorem step_number_invariant (env : Env) (b b1 : Bat) (c : Call) (k : Nat)
    (hP : number_invariant env b k) (hs : step env b c = some b1) :
    number_invariant env b1 (k + if call_records b c then 1 else 0) := by
  obtain ⟨h1, h2, h3, h4, h5⟩ := hP
  cases c with
  | output obuffer bytes oframes =>
    simp only [step, Option.some.injEq] at hs
    obtain ⟨e1, _, e3, e4, _⟩ := handleoutput_latency env b obuffer bytes oframes
    rw [← hs]
    simp only [call_records, Bool.false_eq_true, if_false, add_zero]
    unfold number_invariant
    rw [e1, e3, e4]
    exact ⟨h1, h2, h3, h4, h5⟩
  | input buffer frames =>
    obtain ⟨r, hr, hb1⟩ := step_input_some env b b1 buffer frames hs
    obtain ⟨hf, hc⟩ := handleinput_accepts env b buffer frames r hr
    rw [← hb1]
    by_cases hp : b.latency.state = LATENCY_STATE_PLAY_AND_LISTEN
    · have hl : listens b frames := ⟨hf, hc, hp⟩
      have hnt : ¬ is_terminal b.latency.state := by rw [hp]; simp [is_terminal]
      have hk := h4 hnt
      rw [handleinput_listening env b buffer frames hl] at hr
      simp only [Option.some.injEq] at hr
      rw [← hr]
      have hnum := play_and_listen_number env b buffer frames
      have hres := play_and_listen_result env b buffer frames
      by_cases hrec : records_result b buffer frames
      · have hst := play_and_listen_state_of_records env b buffer frames hrec
        simp only [call_records, hl, hrec, and_self, decide_True, if_true]
        rw [if_pos hrec] at hres
        unfold number_invariant
        simp only [hres, results_after, float_store_length]
        by_cases hg : gate_fires b buffer frames = true
        · rw [if_pos hg] at hst
          rw [if_neg (fun hh => by rw [hg] at hh; simp at hh), add_zero] at hnum
          rw [hst, hnum]
          refine ⟨h1, h2, h3, fun hh => absurd (Or.inr rfl) hh, fun _ => ?_⟩
          push_cast; omega
        · have hgf : gate_fires b buffer frames = false := by simpa using hg
          rw [if_neg hg] at hst
          by_cases hfin : b.latency.number = env.LATENCY_TEST_NUMBER
          · rw [if_pos hfin] at hst
            rw [if_neg (fun hh => hh.2.2 hfin), add_zero] at hnum
            rw [hst, hnum]
            refine ⟨h1, h2, h3, fun hh => absurd (Or.inl rfl) hh, fun _ => ?_⟩
            push_cast; omega
          · rw [if_neg hfin] at hst
            rw [if_pos ⟨hrec, hgf, hfin⟩] at hnum
            rw [hst, hnum]
            refine ⟨by omega, by omega, h3, fun _ => ?_, fun hh => ?_⟩
            · push_cast; omega
            · simp [is_terminal] at hh
      · simp only [call_records, hrec, and_false, decide_False, Bool.false_eq_true, if_false,
          add_zero]
        rw [if_neg hrec] at hres
        rw [if_neg (fun hh => hrec hh.1), add_zero] at hnum
        unfold number_invariant
        rw [hres, hnum]
        exact ⟨h1, h2, h3, fun _ => hk, fun _ => by omega⟩
    · obtain ⟨e1, e2, _, _, _, _, _, _, _, e10, e11⟩ :=
        handleinput_not_listening env b buffer frames r hp hr
      have hnl : ¬ listens b frames := fun hh => hp hh.2.2
      simp only [call_records, hnl, false_and, decide_False, Bool.false_eq_true, if_false,
        add_zero]
      unfold number_invariant
      rw [e1, e2]
      refine ⟨h1, h2, h3, fun hh => ?_, fun hh => ?_⟩
      · by_cases ht : is_terminal b.latency.state
        · rw [e10 ht] at hh; exact absurd ht hh
        · exact h4 ht
      · by_cases ht : is_terminal b.latency.state
        · exact h5 ht
        · have := h4 ht; omega

theorem roundtrip_latency_init_number_invariant (env : Env) (bat0 : Bat)
    (hN : 1 ≤ env.LATENCY_TEST_NUMBER)
    (hlen : (bat0.latency.result.length : Int) = env.LATENCY_TEST_NUMBER) :
    number_invariant env (roundtrip_latency_init env bat0) 0 := by
  unfold number_invariant roundtrip_latency_init
  simp [is_terminal, hN, hlen]

/-- C7: in every context reached from `roundtrip_latency_init` by calls of
`handleinput` and `handleoutput`, `1 <= number <= LATENCY_TEST_NUMBER`, so the
index `number - 1` of the write in `play_and_listen` lies inside the result
array; the number of results recorded never exceeds the trial count, and
`number` is that count plus 1 in every state that is not terminal, in
particular in PLAY_AND_LISTEN and WAITING. -/
theorem reachable_number_bounds (env : Env) (bat0 b : Bat) (calls : List Call)
    (hN : 1 ≤ env.LATENCY_TEST_NUMBER)
    (hlen : (bat0.latency.result.length : Int) = env.LATENCY_TEST_NUMBER)
    (hrun : run env (roundtrip_latency_init env bat0) calls = some b) :
    1 ≤ b.latency.number ∧ b.latency.number ≤ env.LATENCY_TEST_NUMBER ∧
    (0 ≤ b.latency.number - 1 ∧ (b.latency.number - 1).toNat < b.latency.result.length) ∧
    (recordings env (roundtrip_latency_init env bat0) calls : Int) ≤
      env.LATENCY_TEST_NUMBER ∧
    ((b.latency.state = LATENCY_STATE_PLAY_AND_LISTEN ∨
        b.latency.state = LATENCY_STATE_WAITING ∨
        b.latency.state = LATENCY_STATE_MEASURE_FOR_1_SECOND_SKIP_LEAD ∨
        b.latency.state = LATENCY_STATE_MEASURE_FOR_1_SECOND) →
      b.latency.number =
        (recordings env (roundtrip_latency_init env bat0) calls : Int) + 1) := by
  have h := run_induction env call_records (number_invariant env)
    (fun b b1 c k hP hs => step_number_invariant env b b1 c k hP hs) calls
    (roundtrip_latency_init env bat0) b 0
    (roundtrip_latency_init_number_invariant env bat0 hN hlen) hrun
  rw [Nat.zero_add] at h
  obtain ⟨h1, h2, h3, h4, h5⟩ := h
  unfold recordings
  refine ⟨h1, h2, ⟨by omega, by omega⟩, ?_, ?_⟩
  · by_cases ht : is_terminal b.latency.state
    · have := h5 ht; omega
    · have := h4 ht; omega
  · intro hst
    apply h4
    unfold is_terminal
    rcases hst with h | h | h | h <;> rw [h] <;> simp

/-! ## The miss counter along a run -/

theorem step_error_invariant (env : Env) (b b1 : Bat) (c : Call) (k : Nat)
    (hP : error_invariant env b k) (hs : step env b c = some b1) :
    error_invariant env b1 (k + if call_misses b c then 1 else 0) := by
  obtain ⟨h1, h2⟩ := hP
  cases c with
  | output obuffer bytes oframes =>
    simp only [step, Option.some.injEq] at hs
    obtain ⟨_, e2, _, e4, _⟩ := handleoutput_latency env b obuffer bytes oframes
    rw [← hs]
    simp only [call_misses, Bool.false_eq_true, if_false, add_zero]
    unfold error_invariant
    rw [e2, e4]
    exact ⟨h1, h2⟩
  | input buffer frames =>
    obtain ⟨r, hr, hb1⟩ := step_input_some env b b1 buffer frames hs
    have herr := handleinput_error env b buffer frames r hr
    rw [← hb1]
    unfold error_invariant
    by_cases hm : listens b frames ∧ is_miss b buffer frames
    · have hnt : ¬ is_terminal b.latency.state := by rw [hm.1.2.2]; simp [is_terminal]
      have hle := h2 hnt
      simp only [call_misses, hm, and_self, decide_True, if_true] at herr ⊢
      rw [handleinput_listening env b buffer frames hm.1] at hr
      simp only [Option.some.injEq] at hr
      obtain ⟨_, _, _, _, hfail, _⟩ := play_and_listen_miss env b buffer frames hm.2
      refine ⟨by rw [herr, h1]; push_cast; rfl, fun hh => ?_⟩
      rw [herr]
      by_contra hgt
      have hst := (hfail (by omega)).1
      rw [← hr] at hh
      exact hh (Or.inr hst)
    · simp only [call_misses, hm, decide_False, Bool.false_eq_true, if_false, add_zero]
        at herr ⊢
      refine ⟨by rw [herr, h1], fun hh => ?_⟩
      rw [herr]
      apply h2
      intro ht
      have hp : b.latency.state ≠ LATENCY_STATE_PLAY_AND_LISTEN := by
        intro hp
        rw [hp] at ht
        simp [is_terminal] at ht
      have hsame := (handleinput_not_listening env b buffer frames r hp hr).2.2.2.2.2.2.2.2.2.1 ht
      rw [hsame] at hh
      exact hh ht

theorem roundtrip_latency_init_error_invariant (env : Env) (bat0 : Bat)
    (hN : 0 ≤ env.LATENCY_TEST_NUMBER) :
    error_invariant env (roundtrip_latency_init env bat0) 0 := by
  unfold error_invariant roundtrip_latency_init
  simp [hN]

theorem step_result (env : Env) (b b1 : Bat) (c : Call) (hs : step env b c = some b1)
    (hc : call_records b c = false) :
    b1.latency.result = b.latency.result := by
  cases c with
  | output obuffer bytes oframes =>
    simp only [step, Option.some.injEq] at hs
    rw [← hs]
    exact (handleoutput_latency env b obuffer bytes oframes).2.2.1
  | input buffer frames =>
    obtain ⟨r, hr, hb1⟩ := step_input_some env b b1 buffer frames hs
    obtain ⟨hf, hch⟩ := handleinput_accepts env b buffer frames r hr
    rw [← hb1]
    by_cases hp : b.latency.state = LATENCY_STATE_PLAY_AND_LISTEN
    · have hl : listens b frames := ⟨hf, hch, hp⟩
      simp only [call_records, hl, true_and, decide_eq_false_iff_not] at hc
      rw [handleinput_listening env b buffer frames hl] at hr
      simp only [Option.some.injEq] at hr
      rw [← hr, play_and_listen_result, if_neg hc]
    · exact (handleinput_not_listening env b buffer frames r hp hr).2.1

theorem run_result_of_no_recording (env : Env) (calls : List Call) :
    ∀ (b b1 : Bat), run env b calls = some b1 → recordings env b calls = 0 →
      b1.latency.result = b.latency.result := by
  induction calls with
  | nil =>
    intro b b1 hrun _
    simp only [run, Option.some.injEq] at hrun
    rw [hrun]
  | cons c cs ih =>
    intro b b1 hrun hrec
    simp only [run] at hrun
    cases hs : step env b c with
    | none => rw [hs] at hrun; simp at hrun
    | some b2 =>
      rw [hs] at hrun
      simp only [Option.some_bind] at hrun
      unfold recordings at hrec
      rw [count_calls_cons_some env call_records b b2 c cs hs] at hrec
      have hc : call_records b c = false := by
        by_contra hne
        simp only [Bool.not_eq_false] at hne
        rw [hne] at hrec
        simp at hrec
      have h0 : recordings env b2 cs = 0 := by
        unfold recordings; omega
      rw [ih b2 b1 hrun h0, step_result env b b2 c hs hc]

/-- C5: in PLAY_AND_LISTEN a block whose average is not above the threshold
and with `samples + frames > wait_samples` adds exactly 1 to `error`; if the
new `error` exceeds `LATENCY_TEST_NUMBER` the state becomes COMPLETE_FAILURE
with `is_capturing` false, otherwise WAITING with `wait_samples` equal to
`10 * period_size` and `samples` 0; `result[]` and `number` keep their values.
Along a run from `roundtrip_latency_init`, `error` is the number of misses so
far and a miss aborts the run exactly when `LATENCY_TEST_NUMBER` misses came
before it; a stretch of calls that records nothing leaves `result[]` as it
was. -/
theorem handleinput_miss (env : Env) (hN : 0 ≤ env.LATENCY_TEST_NUMBER) :
    (∀ (bat : Bat) (buffer : List Int) (frames : Int),
      listens bat frames → is_miss bat buffer frames →
      ∃ bat1, handleinput env bat buffer frames = some (bat1, buffer, 0) ∧
        bat1.latency.error = bat.latency.error + 1 ∧
        bat1.latency.result = bat.latency.result ∧
        bat1.latency.number = bat.latency.number ∧
        (bat.latency.error + 1 > env.LATENCY_TEST_NUMBER →
          bat1.latency.state = LATENCY_STATE_COMPLETE_FAILURE ∧
          bat1.latency.is_capturing = false) ∧
        (¬ bat.latency.error + 1 > env.LATENCY_TEST_NUMBER →
          bat1.latency.state = LATENCY_STATE_WAITING ∧
          bat1.latency.wait_samples = 10 * (bat.period_size : Int) ∧
          bat1.latency.samples = 0)) ∧
    (∀ (bat0 b : Bat) (calls : List Call),
      run env (roundtrip_latency_init env bat0) calls = some b →
      b.latency.error = (misses env (roundtrip_latency_init env bat0) calls : Int) ∧
      ∀ (buffer : List Int) (frames : Int),
        listens b frames → is_miss b buffer frames →
        ((play_and_listen env b buffer frames).1.latency.state =
            LATENCY_STATE_COMPLETE_FAILURE ↔
          (misses env (roundtrip_latency_init env bat0) calls : Int) =
            env.LATENCY_TEST_NUMBER)) ∧
    (∀ (b b1 : Bat) (calls : List Call),
      run env b calls = some b1 → recordings env b calls = 0 →
      b1.latency.result = b.latency.result) := by
  refine ⟨?_, ?_, fun b b1 calls hrun hrec => run_result_of_no_recording env calls b b1 hrun hrec⟩
  · intro bat buffer frames hl hm
    obtain ⟨e1, e2, e3, e4, e5, e6⟩ := play_and_listen_miss env bat buffer frames hm
    refine ⟨(play_and_listen env bat buffer frames).1, ?_, e2, e3, e4, e5, e6⟩
    rw [handleinput_listening env bat buffer frames hl, e1]
  · intro bat0 b calls hrun
    have h := run_induction env call_misses (error_invariant env)
      (fun b b1 c k hP hs => step_error_invariant env b b1 c k hP hs) calls
      (roundtrip_latency_init env bat0) b 0
      (roundtrip_latency_init_error_invariant env bat0 hN) hrun
    rw [Nat.zero_add] at h
    obtain ⟨h1, h2⟩ := h
    unfold misses
    refine ⟨h1, ?_⟩
    intro buffer frames hl hm
    have hnt : ¬ is_terminal b.latency.state := by rw [hl.2.2]; simp [is_terminal]
    have hle := h2 hnt
    obtain ⟨_, _, _, _, e5, e6⟩ := play_and_listen_miss env b buffer frames hm
    constructor
    · intro hst
      by_contra hne
      have hw := (e6 (by omega)).1
      rw [hw] at hst
      cases hst
    · intro heq
      exact (e5 (by omega)).1

theorem handleinput_miss_witness :
    (0 : Int) ≤ env0.LATENCY_TEST_NUMBER ∧
    listens bat_timeout 2 ∧ is_miss bat_timeout [0, 0] 2 ∧
    ∃ bat1, handleinput env0 bat_timeout [0, 0] 2 = some (bat1, [0, 0], 0) ∧
      bat1.latency.error = bat_timeout.latency.error + 1 ∧
      bat1.latency.result = bat_timeout.latency.result ∧
      bat1.latency.number = bat_timeout.latency.number ∧
      (bat_timeout.latency.error + 1 > env0.LATENCY_TEST_NUMBER →
        bat1.latency.state = LATENCY_STATE_COMPLETE_FAILURE ∧
        bat1.latency.is_capturing = false) ∧
      (¬ bat_timeout.latency.error + 1 > env0.LATENCY_TEST_NUMBER →
        bat1.latency.state = LATENCY_STATE_WAITING ∧
        bat1.latency.wait_samples = 10 * (bat_timeout.period_size : Int) ∧
        bat1.latency.samples = 0) := by
  have hl : listens bat_timeout 2 := ⟨rfl, rfl, rfl⟩
  have hm : is_miss bat_timeout [0, 0] 2 := by
    decide!
  exact ⟨by decide, hl, hm, (handleinput_miss env0 (by decide)).1 bat_timeout [0, 0] 2 hl hm⟩

/-! ## Recorded results along a run -/

theorem step_config (env : Env) (b b1 : Bat) (c : Call) (hs : step env b c = some b1) :
    b1.rate = b.rate ∧ b1.channels = b.channels ∧ b1.period_size = b.period_size := by
  cases c with
  | output obuffer bytes oframes =>
    simp only [step, Option.some.injEq] at hs
    obtain ⟨_, _, _, _, _, _, _, _, _, _, e1, e2, e3⟩ :=
      handleoutput_latency env b obuffer bytes oframes
    rw [← hs]
    exact ⟨e1, e2, e3⟩
  | input buffer frames =>
    obtain ⟨r, hr, hb1⟩ := step_input_some env b b1 buffer frames hs
    obtain ⟨hf, hch⟩ := handleinput_accepts env b buffer frames r hr
    rw [← hb1]
    by_cases hp : b.latency.state = LATENCY_STATE_PLAY_AND_LISTEN
    · rw [handleinput_listening env b buffer frames ⟨hf, hch, hp⟩] at hr
      simp only [Option.some.injEq] at hr
      rw [← hr]
      exact play_and_listen_config env b buffer frames
    · obtain ⟨_, _, _, _, e1, e2, e3, _⟩ :=
        handleinput_not_listening env b buffer frames r hp hr
      exact ⟨e1, e2, e3⟩

theorem step_results_positive (env : Env) (b b1 : Bat) (c : Call) (k : Nat)
    (hinv : number_invariant env b k) (hrate : 0 < b.rate) (hrate2 : b.rate ≤ 2147483647)
    (hpos : earlier_results_positive b) (hs : step env b c = some b1) :
    earlier_results_positive b1 := by
  obtain ⟨h1, h2, h3, _, _⟩ := hinv
  cases c with
  | output obuffer bytes oframes =>
    simp only [step, Option.some.injEq] at hs
    obtain ⟨e1, _, e3, _⟩ := handleoutput_latency env b obuffer bytes oframes
    rw [← hs]
    unfold earlier_results_positive
    rw [e1, e3]
    exact hpos
  | input buffer frames =>
    obtain ⟨r, hr, hb1⟩ := step_input_some env b b1 buffer frames hs
    obtain ⟨hf, hch⟩ := handleinput_accepts env b buffer frames r hr
    rw [← hb1]
    by_cases hp : b.latency.state = LATENCY_STATE_PLAY_AND_LISTEN
    · rw [handleinput_listening env b buffer frames ⟨hf, hch, hp⟩] at hr
      simp only [Option.some.injEq] at hr
      rw [← hr]
      have hnum := play_and_listen_number env b buffer frames
      have hres := play_and_listen_result env b buffer frames
      unfold earlier_results_positive
      by_cases hrec : records_result b buffer frames
      · rw [if_pos hrec] at hres
        have hframes : 0 ≤ frames := by rw [hf]; exact Int.natCast_nonneg _
        have hlen : b.latency.number ≤ (b.latency.result.length : Int) := by omega
        by_cases hinc : records_result b buffer frames ∧ gate_fires b buffer frames = false ∧
            b.latency.number ≠ env.LATENCY_TEST_NUMBER
        · rw [if_pos hinc] at hnum
          rw [hnum, hres]
          have hso := results_so_far_pos env b buffer frames hrec hrate hrate2 hframes h1 hlen hpos
          rw [results_so_far, play_and_listen_result_of_records env b buffer frames hrec]
            at hso
          simpa using hso.2
        · rw [if_neg hinc, add_zero] at hnum
          rw [hnum, hres, results_after,
            recorded_results_store_above _ _ _ _ (by omega)]
          exact hpos
      · rw [if_neg hrec] at hres
        rw [if_neg (fun hh => hrec hh.1), add_zero] at hnum
        rw [hnum, hres]
        exact hpos
    · obtain ⟨e1, e2, _⟩ := handleinput_not_listening env b buffer frames r hp hr
      unfold earlier_results_positive
      rw [e1, e2]
      exact hpos

/-- Along every run from `roundtrip_latency_init` at a positive sample rate
the earlier results of the context are positive and the write index
`number - 1` lies inside the result array. -/
theorem reachable_results_positive (env : Env) (bat0 b : Bat) (calls : List Call)
    (hN : 1 ≤ env.LATENCY_TEST_NUMBER)
    (hlen : (bat0.latency.result.length : Int) = env.LATENCY_TEST_NUMBER)
    (hrate : 0 < bat0.rate) (hrate2 : bat0.rate ≤ 2147483647)
    (hrun : run env (roundtrip_latency_init env bat0) calls = some b) :
    0 < b.rate ∧ b.rate ≤ 2147483647 ∧ 1 ≤ b.latency.number ∧
      b.latency.number ≤ (b.latency.result.length : Int) ∧
      earlier_results_positive b := by
  have h := run_induction env call_records
    (fun b k => number_invariant env b k ∧ (0 < b.rate ∧ b.rate ≤ 2147483647) ∧
      earlier_results_positive b)
    (fun b b1 c k hP hs =>
      ⟨step_number_invariant env b b1 c k hP.1 hs,
        by rw [(step_config env b b1 c hs).1]; exact hP.2.1,
        step_results_positive env b b1 c k hP.1 hP.2.1.1 hP.2.1.2 hP.2.2 hs⟩)
    calls (roundtrip_latency_init env bat0) b 0
    ⟨roundtrip_latency_init_number_invariant env bat0 hN hlen,
      by simpa [roundtrip_latency_init] using ⟨hrate, hrate2⟩,
      by simp [earlier_results_positive, roundtrip_latency_init, recorded_results]⟩
    hrun
  obtain ⟨⟨h1, h2, h3, _, _⟩, h4, h5⟩ := h
  exact ⟨h4.1, h4.2, h1, by omega, h5⟩

/-! ## The amplitude estimator -/

theorem sumaudio_frames_single (pre l : List Int) (sum : ℚ) :
    sumaudio_frames 1 (pre ++ l) l.length pre.length sum = float_abs_sum sum l := by
  induction l generalizing pre sum with
  | nil => simp [sumaudio_frames, float_abs_sum]
  | cons x xs ih =>
    have h := ih (pre ++ [x]) (to_float (sum + to_float ((|x| : Int) : ℚ)))
    simp only [List.append_assoc, List.singleton_append, List.length_append,
      List.length_singleton] at h
    simp only [List.length_cons, sumaudio_frames, sumaudio_channels, sample_at]
    rw [List.getD_eq_getElem?_getD, List.getElem?_append_right (le_refl _)]
    simp only [Nat.sub_self, List.getElem?_cons_zero, Option.getD_some]
    rw [h]
    simp [float_abs_sum]

theorem float_abs_sum_is_float (l : List Int) :
    ∀ s : ℚ, to_float s = s → to_float (float_abs_sum s l) = float_abs_sum s l := by
  induction l with
  | nil => intro s hs; simpa [float_abs_sum] using hs
  | cons x xs ih =>
    intro s _
    simp only [float_abs_sum, List.foldl_cons]
    exact ih _ (to_float_idem _)

theorem float_abs_sum_nonneg (l : List Int) :
    ∀ s : ℚ, 0 ≤ s → 0 ≤ float_abs_sum s l := by
  induction l with
  | nil => intro s hs; simpa [float_abs_sum] using hs
  | cons x xs ih =>
    intro s hs
    simp only [float_abs_sum, List.foldl_cons]
    apply ih
    apply to_float_nonneg
    have h1 : (0 : ℚ) ≤ ((|x| : Int) : ℚ) := by exact_mod_cast abs_nonneg x
    have h2 := to_float_nonneg h1
    linarith

theorem sumaudio_single (bat : Bat) (buffer : List Int) (frames : Int)
    (hch : bat.channels = 1) (hlen : (buffer.length : Int) = frames) :
    sumaudio bat buffer frames = float_abs_sum 0 buffer := by
  have h := sumaudio_frames_single [] buffer 0
  simp only [List.nil_append, List.length_nil] at h
  have hn : frames.toNat = buffer.length := by omega
  unfold sumaudio
  rw [hch, hn]
  simp only [Int.toNat_one, Int.cast_one]
  rw [h, to_float_one, div_one]
  exact float_abs_sum_is_float buffer 0 to_float_zero

theorem abs_sum_nonneg (l : List Int) : 0 ≤ (l.map (fun x => |x|)).sum := by
  apply List.sum_nonneg
  intro x hx
  obtain ⟨y, _, hy⟩ := List.mem_map.mp hx
  rw [← hy]
  exact abs_nonneg y

/-- While the exact sum stays within 24 bits the running sum is exact. -/
theorem float_abs_sum_exact (l : List Int) :
    ∀ s : Int, 0 ≤ s → s + (l.map (fun x => |x|)).sum ≤ 16777216 →
      float_abs_sum (s : ℚ) l = ((s + (l.map (fun x => |x|)).sum : Int) : ℚ) := by
  induction l with
  | nil => intro s _ _; simp [float_abs_sum]
  | cons x xs ih =>
    intro s hs hle
    simp only [List.map_cons, List.sum_cons] at hle ⊢
    have hx0 : 0 ≤ |x| := abs_nonneg x
    have hr := abs_sum_nonneg xs
    have e1 : to_float ((|x| : Int) : ℚ) = ((|x| : Int) : ℚ) :=
      to_float_intCast _ (by rw [abs_of_nonneg hx0]; omega)
    have e2 : to_float (((s + |x| : Int)) : ℚ) = ((s + |x| : Int) : ℚ) :=
      to_float_intCast _ (by rw [abs_of_nonneg (by omega)]; omega)
    simp only [float_abs_sum, List.foldl_cons]
    rw [e1]
    have e3 : (s : ℚ) + ((|x| : Int) : ℚ) = ((s + |x| : Int) : ℚ) := by push_cast; ring
    rw [e3, e2]
    have h := ih (s + |x|) (by omega) (by omega)
    simp only [float_abs_sum] at h
    rw [h]
    congr 1
    ring

/-- The truncation of a rounded quotient of integers below `2^24` is the
integer quotient. -/
theorem float_to_int_div_exact (S N : Int) (hS : 0 ≤ S) (hN : 0 < N)
    (hS2 : S < 16777216) (hN2 : N ≤ 16777216) :
    float_to_int (to_float ((S : ℚ) / to_float (N : ℚ))) = S / N := by
  have eN : to_float (N : ℚ) = (N : ℚ) :=
    to_float_intCast N (by rw [abs_of_pos hN]; exact hN2)
  rw [eN]
  have hNq : (0 : ℚ) < (N : ℚ) := by exact_mod_cast hN
  have hq0 : 0 ≤ S / N := Int.ediv_nonneg hS hN.le
  have hqS : S / N ≤ S := Int.ediv_le_self N hS
  have hx0 : (0 : ℚ) ≤ (S : ℚ) / (N : ℚ) := div_nonneg (by exact_mod_cast hS) hNq.le
  have hf0 : 0 ≤ to_float ((S : ℚ) / (N : ℚ)) := to_float_nonneg hx0
  unfold float_to_int
  rw [if_pos hf0, Int.floor_eq_iff]
  -- the quotient and remainder
  have hdm : N * (S / N) + S % N = S := Int.ediv_add_emod S N
  have hm0 : 0 ≤ S % N := Int.emod_nonneg S (by omega)
  have hm1 : S % N < N := Int.emod_lt_of_pos S hN
  have hmul : ((S / N : Int) : ℚ) * (N : ℚ) ≤ (S : ℚ) := by
    have : (S / N) * N ≤ S := by nlinarith
    exact_mod_cast this
  have hmul2 : (S : ℚ) + 1 ≤ (((S / N : Int) : ℚ) + 1) * (N : ℚ) := by
    have : S + 1 ≤ (S / N + 1) * N := by nlinarith
    exact_mod_cast this
  constructor
  · -- the quotient is kept by the rounding
    have hle : ((S / N : Int) : ℚ) ≤ (S : ℚ) / (N : ℚ) := by
      rw [le_div_iff₀ hNq]
      exact hmul
    have h1 := to_float_mono hle
    rwa [to_float_intCast _ (by rw [abs_of_nonneg hq0]; omega)] at h1
  · rcases eq_or_lt_of_le hS with h0 | hpos
    · rw [← h0]
      simp [to_float_zero]
    · have hSq : (1 : ℚ) ≤ (S : ℚ) := by exact_mod_cast hpos
      have hS2q : (S : ℚ) < 16777216 := by exact_mod_cast hS2
      have hN2q : (N : ℚ) ≤ 16777216 := by exact_mod_cast hN2
      have hnorm : (2 : ℚ) ^ (-126 : Int) ≤ (S : ℚ) / (N : ℚ) := by
        have h1 : (2 : ℚ) ^ (-126 : Int) ≤ 1 / 16777216 := by
          rw [zpow_neg]
          norm_num
        have h2 : (1 : ℚ) / 16777216 ≤ (S : ℚ) / (N : ℚ) := by
          rw [div_le_div_iff (by norm_num) hNq]
          nlinarith
        linarith
      have herr := to_float_rel_error hnorm
      have hub := (abs_le.mp herr).2
      have hlt : (S : ℚ) / (N : ℚ) / 16777216 < 1 / (N : ℚ) := by
        rw [div_div, div_lt_div_iff (by positivity) hNq]
        nlinarith
      have hx : (S : ℚ) / (N : ℚ) + 1 / (N : ℚ) ≤ ((S / N : Int) : ℚ) + 1 := by
        rw [← add_div, div_le_iff₀ hNq]
        exact hmul2
      linarith

theorem averageinput_nonneg (bat : Bat) (buffer : List Int) (frames : Int)
    (hch : bat.channels = 1) (hframes : 0 < frames)
    (hlen : (buffer.length : Int) = frames) : 0 ≤ averageinput bat buffer frames := by
  unfold averageinput float_to_int
  rw [sumaudio_single bat buffer frames hch hlen]
  have h1 := float_abs_sum_nonneg buffer 0 le_rfl
  have h2 : 0 < to_float (frames : ℚ) := to_float_rate_pos frames hframes
  have h3 : 0 ≤ to_float (float_abs_sum 0 buffer / to_float (frames : ℚ)) :=
    to_float_nonneg (div_nonneg h1 h2.le)
  rw [if_pos h3]
  exact Int.floor_nonneg.mpr h3

/-- C11 (as the code has it): for a single-channel block of `N > 0` frames
`sumaudio` is the single precision running sum of the absolute sample values
and the amplitude used by the detection engine is
`(int) (sumaudio(B, N) / N)`; whenever the exact sum of the absolute values
plus `N` does not exceed `2^24` (as for every block of at most 511 frames of
16 bit samples) the running sum is exact and the amplitude is the truncated
mean of the absolute sample values; the amplitude is never negative and it is
0 for an all-zero block.  (`sumaudio` returns the sum only: it writes neither
the block nor the context.) -/
theorem averageinput_mean (bat : Bat) (buffer : List Int) (frames : Int)
    (hch : bat.channels = 1) (hframes : 0 < frames)
    (hlen : (buffer.length : Int) = frames) :
    sumaudio bat buffer frames = float_abs_sum 0 buffer ∧
    averageinput bat buffer frames =
      float_to_int (to_float (float_abs_sum 0 buffer / to_float (frames : ℚ))) ∧
    ((buffer.map (fun x => |x|)).sum + frames ≤ 16777216 →
      sumaudio bat buffer frames = (((buffer.map (fun x => |x|)).sum : Int) : ℚ) ∧
      averageinput bat buffer frames = (buffer.map (fun x => |x|)).sum / frames) ∧
    (frames ≤ 511 → (∀ x ∈ buffer, -32768 ≤ x ∧ x ≤ 32767) →
      averageinput bat buffer frames = (buffer.map (fun x => |x|)).sum / frames) ∧
    0 ≤ averageinput bat buffer frames ∧
    ((∀ x ∈ buffer, x = 0) → averageinput bat buffer frames = 0) := by
  have hs := sumaudio_single bat buffer frames hch hlen
  have hnn := abs_sum_nonneg buffer
  have hexact : (buffer.map (fun x => |x|)).sum + frames ≤ 16777216 →
      sumaudio bat buffer frames = (((buffer.map (fun x => |x|)).sum : Int) : ℚ) ∧
      averageinput bat buffer frames = (buffer.map (fun x => |x|)).sum / frames := by
    intro hle
    have he := float_abs_sum_exact buffer 0 le_rfl (by omega)
    simp only [Int.cast_zero, zero_add] at he
    refine ⟨by rw [hs, he], ?_⟩
    unfold averageinput
    rw [hs, he]
    exact float_to_int_div_exact _ _ hnn hframes (by omega) (by omega)
  refine ⟨hs, by unfold averageinput; rw [hs], hexact, ?_,
    averageinput_nonneg bat buffer frames hch hframes hlen, ?_⟩
  · intro h511 hshort
    apply (hexact _).2
    have hb : (buffer.map (fun x => |x|)).sum ≤ (buffer.length : Int) * 32768 := by
      have : ∀ l : List Int, (∀ x ∈ l, -32768 ≤ x ∧ x ≤ 32767) →
          (l.map (fun x => |x|)).sum ≤ (l.length : Int) * 32768 := by
        intro l
        induction l with
        | nil => intro _; simp
        | cons y ys ih =>
          intro hy
          have h1 := hy y (List.mem_cons_self _ _)
          have h2 := ih (fun z hz => hy z (List.mem_cons_of_mem _ hz))
          have h3 : |y| ≤ 32768 := abs_le.mpr ⟨by omega, by omega⟩
          simp only [List.map_cons, List.sum_cons, List.length_cons]
          push_cast
          linarith
      exact this buffer hshort
    rw [hlen] at hb
    nlinarith
  · intro hz
    have h0 : (buffer.map (fun x => |x|)).sum = 0 := by
      apply List.sum_eq_zero
      intro x hx
      obtain ⟨y, hy, hxy⟩ := List.mem_map.mp hx
      rw [← hxy, hz y hy, abs_zero]
    have hfr : frames ≤ 16777216 ∨ 16777216 < frames := le_or_lt _ _
    have he := float_abs_sum_exact buffer 0 le_rfl (by omega)
    simp only [Int.cast_zero, zero_add] at he
    unfold averageinput
    rw [hs, he, h0]
    simp [to_float_zero, float_to_int]

theorem float_abs_sum_loud_block :
    float_abs_sum 0 (List.replicate 1024 20001) = 20480840 := by
  have e : (List.replicate 1024 20001 : List Int) =
      List.replicate 128 20001 ++ List.replicate 128 20001 ++ List.replicate 128 20001 ++
      List.replicate 128 20001 ++ List.replicate 128 20001 ++ List.replicate 128 20001 ++
      List.replicate 128 20001 ++ List.replicate 128 20001 := by
    simp only [← List.replicate_add]
  have h1 : float_abs_sum 0 (List.replicate 128 20001) = 2560128 := by decide!
  have h2 : float_abs_sum 2560128 (List.replicate 128 20001) = 5120256 := by decide!
  have h3 : float_abs_sum 5120256 (List.replicate 128 20001) = 7680384 := by decide!
  have h4 : float_abs_sum 7680384 (List.replicate 128 20001) = 10240512 := by decide!
  have h5 : float_abs_sum 10240512 (List.replicate 128 20001) = 12800640 := by decide!
  have h6 : float_abs_sum 12800640 (List.replicate 128 20001) = 15360768 := by decide!
  have h7 : float_abs_sum 15360768 (List.replicate 128 20001) = 17920840 := by decide!
  have h8 : float_abs_sum 17920840 (List.replicate 128 20001) = 20480840 := by decide!
  rw [e]
  simp only [float_abs_sum, List.foldl_append] at *
  rw [h1, h2, h3, h4, h5, h6, h7, h8]

/-- C11 (as stated) fails: for a block of 1024 frames of the sample 20001 the
single precision sum is 20480840, not 20481024, and the amplitude is 20000,
while the truncated mean of the absolute sample values is 20001. -/
theorem averageinput_loud_block_counterexample :
    bat_48k.channels = 1 ∧
    sumaudio bat_48k (List.replicate 1024 20001) 1024 = 20480840 ∧
    averageinput bat_48k (List.replicate 1024 20001) 1024 = 20000 ∧
    ((List.replicate 1024 (20001 : Int)).map (fun x => |x|)).sum = 20481024 ∧
    ((List.replicate 1024 (20001 : Int)).map (fun x => |x|)).sum / 1024 = 20001 := by
  have hs : sumaudio bat_48k (List.replicate 1024 20001) 1024 = 20480840 := by
    rw [sumaudio_single bat_48k _ 1024 rfl (by rw [List.length_replicate]; rfl),
      float_abs_sum_loud_block]
  have hsum : ((List.replicate 1024 (20001 : Int)).map (fun x => |x|)).sum = 20481024 := by
    rw [List.map_replicate, List.sum_replicate]
    norm_num
  refine ⟨rfl, hs, ?_, hsum, ?_⟩
  · unfold averageinput
    rw [hs]
    decide!
  · rw [hsum]
    decide

theorem averageinput_mean_witness :
    bat_first_block.channels = 1 ∧ (0 : Int) < 2 ∧
    averageinput bat_first_block [-300, 501] 2 = 400 ∧
    0 ≤ averageinput bat_first_block [-300, 501] 2 := by
  have h := averageinput_mean bat_first_block [-300, 501] 2 rfl (by decide) rfl
  refine ⟨rfl, by decide, ?_, h.2.2.2.2.1⟩
  rw [(h.2.2.1 (by decide)).2]
  decide

/-! ## Evaluating and folding runs -/

theorem run_cons (env : Env) (b : Bat) (c : Call) (cs : List Call) :
    run env b (c :: cs) = (step env b c).bind (fun b1 => run env b1 cs) := rfl

theorem run_nil (env : Env) (b : Bat) : run env b [] = some b := rfl

theorem fold_calls_cons_some {G : Type} (env : Env) (upd : G → Bat → Call → G) (g : G)
    (bat b : Bat) (c : Call) (cs : List Call) (h : step env bat c = some b) :
    fold_calls env upd g bat (c :: cs) = fold_calls env upd (upd g bat c) b cs := by
  simp only [fold_calls, h]

/-- Induction along a run with a ghost value: a relation between the context
and the ghost value that every call preserves holds at the end of the run. -/
theorem run_fold_induction {G : Type} (env : Env) (upd : G → Bat → Call → G)
    (P : Bat → G → Prop)
    (hstep : ∀ (b b1 : Bat) (c : Call) (g : G), P b g → step env b c = some b1 →
      P b1 (upd g b c))
    (calls : List Call) :
    ∀ (b b1 : Bat) (g : G), P b g → run env b calls = some b1 →
      P b1 (fold_calls env upd g b calls) := by
  induction calls with
  | nil =>
    intro b b1 g hP hrun
    simp only [run, Option.some.injEq] at hrun
    rw [← hrun]
    exact hP
  | cons c cs ih =>
    intro b b1 g hP hrun
    simp only [run] at hrun
    cases hs : step env b c with
    | none => rw [hs] at hrun; simp at hrun
    | some b2 =>
      rw [hs] at hrun
      simp only [Option.some_bind] at hrun
      rw [fold_calls_cons_some env upd g b b2 c cs hs]
      exact ih b2 b1 _ (hstep b b2 c g hP hs) hrun

/-! ## Fields that `play_and_listen` never writes -/

@[simp] theorem record_test_db_silence_artifact (env : Env) (l : RoundtripLatency) (avg : Int) :
    (record_test_db env l avg).silence_artifact = l.silence_artifact := by
  unfold record_test_db; split_ifs <;> rfl

@[simp] theorem record_test_db_silence_artifact_def (env : Env) (l : RoundtripLatency)
    (avg : Int) :
    (record_test_db env l avg).silence_artifact_def = l.silence_artifact_def := by
  unfold record_test_db; split_ifs <;> rfl

@[simp] theorem record_test_db_measure_skip_samples (env : Env) (l : RoundtripLatency)
    (avg : Int) :
    (record_test_db env l avg).measure_skip_samples = l.measure_skip_samples := by
  unfold record_test_db; split_ifs <;> rfl

@[simp] theorem clear_samples_if_waiting_silence_artifact_def (l : RoundtripLatency) :
    (clear_samples_if_waiting l).silence_artifact_def = l.silence_artifact_def := by
  unfold clear_samples_if_waiting; split_ifs <;> rfl

theorem play_and_listen_frame (env : Env) (bat : Bat) (buffer : List Int) (frames : Int) :
    (play_and_listen env bat buffer frames).1.latency.threshold = bat.latency.threshold ∧
    (play_and_listen env bat buffer frames).1.latency.sum = bat.latency.sum ∧
    (play_and_listen env bat buffer frames).1.latency.silence_artifact =
      bat.latency.silence_artifact ∧
    (play_and_listen env bat buffer frames).1.latency.silence_artifact_def =
      bat.latency.silence_artifact_def ∧
    (play_and_listen env bat buffer frames).1.latency.measure_skip_samples =
      bat.latency.measure_skip_samples ∧
    (play_and_listen env bat buffer frames).1.periods_played = bat.periods_played := by
  unfold play_and_listen
  simp only []
  split_ifs <;> simp

/-! ## The calls of `handleinput` outside PLAY_AND_LISTEN, case by case -/

theorem handleinput_of_calibrates (env : Env) (bat : Bat) (buffer : List Int) (frames : Int)
    (h : calibrates bat frames) :
    handleinput env bat buffer frames =
      some ({ bat with latency :=
        { bat.latency with
          measure_avgdb := average_db env
            (calibration_average (calibration_input bat buffer frames).1
              (calibration_input bat buffer frames).2)
          threshold := threshold_of env (calibration_input bat buffer frames).1
            (calibration_input bat buffer frames).2
          state := LATENCY_STATE_PLAY_AND_LISTEN
          samples := 0
          sum := 0
          wait_samples := bat.rate * env.LATENCY_TEST_MAX
          silence_artifact := bat.latency.silence_artifact_def
          test_db_num := 0 } }, buffer, 0) := by
  obtain ⟨hf, hc, hcase⟩ := h
  unfold handleinput
  rw [if_neg (not_not.mpr hf), if_neg (not_not.mpr hc)]
  rcases hcase with ⟨hs, hge⟩ | ⟨hs, hskip, hge⟩
  · rw [hs]
    simp only [measure_for_1_second, calculate_threshold, calibration_input, threshold_of,
      threshold_of_average, average_db, calibration_average, hs, if_true, if_pos hge, sumaudio]
  · rw [hs]
    simp only [if_neg hskip, measure_for_1_second, calculate_threshold, calibration_input,
      threshold_of, threshold_of_average, average_db, calibration_average, hs, if_pos hge,
      sumaudio]
    simp

theorem handleinput_measure_continue (env : Env) (bat : Bat) (buffer : List Int)
    (frames : Int) (hf : frames = (bat.period_size : Int)) (hc : bat.channels = 1)
    (hs : bat.latency.state = LATENCY_STATE_MEASURE_FOR_1_SECOND)
    (hlt : ¬ bat.latency.samples + frames ≥ bat.rate - bat.latency.measure_skip_samples) :
    handleinput env bat buffer frames =
      some ({ bat with latency :=
        { bat.latency with
          sum := to_float (bat.latency.sum + sumaudio bat buffer frames)
          samples := bat.latency.samples + frames } }, buffer, 0) := by
  unfold handleinput
  rw [if_neg (not_not.mpr hf), if_neg (not_not.mpr hc), hs]
  simp only [measure_for_1_second, if_neg hlt]

theorem handleinput_skip_lead (env : Env) (bat : Bat) (buffer : List Int) (frames : Int)
    (hf : frames = (bat.period_size : Int)) (hc : bat.channels = 1)
    (hs : bat.latency.state = LATENCY_STATE_MEASURE_FOR_1_SECOND_SKIP_LEAD)
    (hskip : bat.latency.measure_skip_samples > 0) :
    handleinput env bat buffer frames =
      some (if bat.latency.samples + frames ≥ bat.latency.measure_skip_samples then
          { bat with latency :=
            { bat.latency with samples := 0, state := LATENCY_STATE_MEASURE_FOR_1_SECOND } }
        else { bat with latency :=
            { bat.latency with samples := bat.latency.samples + frames } }, buffer, 0) := by
  unfold handleinput
  rw [if_neg (not_not.mpr hf), if_neg (not_not.mpr hc), hs]
  simp only [if_pos hskip]
  split_ifs <;> rfl

theorem handleinput_skip_lead_fallthrough (env : Env) (bat : Bat) (buffer : List Int)
    (frames : Int) (hf : frames = (bat.period_size : Int)) (hc : bat.channels = 1)
    (hs : bat.latency.state = LATENCY_STATE_MEASURE_FOR_1_SECOND_SKIP_LEAD)
    (hskip : ¬ bat.latency.measure_skip_samples > 0)
    (hlt : ¬ 0 + frames ≥ bat.rate - bat.latency.measure_skip_samples) :
    handleinput env bat buffer frames =
      some ({ bat with latency :=
        { bat.latency with
          state := LATENCY_STATE_MEASURE_FOR_1_SECOND
          sum := to_float (bat.latency.sum + sumaudio bat buffer frames)
          samples := 0 + frames } }, buffer, 0) := by
  unfold handleinput
  rw [if_neg (not_not.mpr hf), if_neg (not_not.mpr hc), hs]
  simp only [if_neg hskip, measure_for_1_second, if_neg hlt, sumaudio]

theorem handleinput_waiting (env : Env) (bat : Bat) (buffer : List Int) (frames : Int)
    (hf : frames = (bat.period_size : Int)) (hc : bat.channels = 1)
    (hs : bat.latency.state = LATENCY_STATE_WAITING) :
    handleinput env bat buffer frames =
      some (if bat.latency.samples + frames > bat.rate * 3 then
          { bat with latency :=
            { bat.latency with
              samples := 0
              sum := 0
              state := LATENCY_STATE_MEASURE_FOR_1_SECOND_SKIP_LEAD } }
        else { bat with latency :=
            { bat.latency with samples := bat.latency.samples + frames } }, buffer, 0) := by
  unfold handleinput
  rw [if_neg (not_not.mpr hf), if_neg (not_not.mpr hc), hs]
  simp only []
  split_ifs <;> rfl

/-! ## Calibration of the threshold -/

theorem handleinput_threshold_of_not_calibrates (env : Env) (bat : Bat) (buffer : List Int)
    (frames : Int) (r : Bat × List Int × Int)
    (h : handleinput env bat buffer frames = some r) (hn : ¬ calibrates bat frames) :
    r.1.latency.threshold = bat.latency.threshold ∧
      (bat.latency.state ≠ LATENCY_STATE_PLAY_AND_LISTEN →
        r.1.latency.state ≠ LATENCY_STATE_PLAY_AND_LISTEN) ∧
      r.1.latency.silence_artifact = bat.latency.silence_artifact ∧
      r.1.latency.silence_artifact_def = bat.latency.silence_artifact_def := by
  obtain ⟨hf, hc⟩ := handleinput_accepts env bat buffer frames r h
  cases hs : bat.latency.state with
  | LATENCY_STATE_MEASURE_FOR_1_SECOND_SKIP_LEAD =>
    by_cases hskip : bat.latency.measure_skip_samples > 0
    · rw [handleinput_skip_lead env bat buffer frames hf hc hs hskip] at h
      simp only [Option.some.injEq] at h
      rw [← h]
      split_ifs <;> simp [hs]
    · have hlt : ¬ 0 + frames ≥ bat.rate - bat.latency.measure_skip_samples :=
        fun hge => hn ⟨hf, hc, Or.inr ⟨hs, hskip, hge⟩⟩
      rw [handleinput_skip_lead_fallthrough env bat buffer frames hf hc hs hskip hlt] at h
      simp only [Option.some.injEq] at h
      rw [← h]
      simp
  | LATENCY_STATE_MEASURE_FOR_1_SECOND =>
    have hlt : ¬ bat.latency.samples + frames ≥ bat.rate - bat.latency.measure_skip_samples :=
      fun hge => hn ⟨hf, hc, Or.inl ⟨hs, hge⟩⟩
    rw [handleinput_measure_continue env bat buffer frames hf hc hs hlt] at h
    simp only [Option.some.injEq] at h
    rw [← h]
    simp [hs]
  | LATENCY_STATE_PLAY_AND_LISTEN =>
    rw [handleinput_listening env bat buffer frames ⟨hf, hc, hs⟩] at h
    simp only [Option.some.injEq] at h
    rw [← h]
    exact ⟨(play_and_listen_frame env bat buffer frames).1, fun hh => absurd rfl hh,
      (play_and_listen_frame env bat buffer frames).2.2.1,
      (play_and_listen_frame env bat buffer frames).2.2.2.1⟩
  | LATENCY_STATE_WAITING =>
    rw [handleinput_waiting env bat buffer frames hf hc hs] at h
    simp only [Option.some.injEq] at h
    rw [← h]
    split_ifs <;> simp [hs]
  | LATENCY_STATE_COMPLETE_SUCCESS =>
    have hp : bat.latency.state ≠ LATENCY_STATE_PLAY_AND_LISTEN := by rw [hs]; simp
    have hsame := (handleinput_not_listening env bat buffer frames r hp h).2.2.2.2.2.2.2.2.2.1
      (Or.inl hs)
    rw [hsame, hs]
    simp
  | LATENCY_STATE_COMPLETE_FAILURE =>
    have hp : bat.latency.state ≠ LATENCY_STATE_PLAY_AND_LISTEN := by rw [hs]; simp
    have hsame := (handleinput_not_listening env bat buffer frames r hp h).2.2.2.2.2.2.2.2.2.1
      (Or.inr hs)
    rw [hsame, hs]
    simp

theorem step_threshold_of_not_calibrates (env : Env) (b b1 : Bat) (c : Call)
    (hs : step env b c = some b1) (hc : call_calibrates b c = false) :
    b1.latency.threshold = b.latency.threshold := by
  cases c with
  | output obuffer bytes oframes =>
    simp only [step, Option.some.injEq] at hs
    rw [← hs]
    exact (handleoutput_latency env b obuffer bytes oframes).2.2.2.2.2.2.1
  | input buffer frames =>
    obtain ⟨r, hr, hb1⟩ := step_input_some env b b1 buffer frames hs
    simp only [call_calibrates, decide_eq_false_iff_not] at hc
    rw [← hb1]
    exact (handleinput_threshold_of_not_calibrates env b buffer frames r hr hc).1

theorem run_threshold_of_no_calibration (env : Env) (calls : List Call) :
    ∀ (b b1 : Bat), run env b calls = some b1 → calibrations env b calls = 0 →
      b1.latency.threshold = b.latency.threshold := by
  induction calls with
  | nil =>
    intro b b1 hrun _
    simp only [run, Option.some.injEq] at hrun
    rw [hrun]
  | cons c cs ih =>
    intro b b1 hrun hcal
    simp only [run] at hrun
    cases hs : step env b c with
    | none => rw [hs] at hrun; simp at hrun
    | some b2 =>
      rw [hs] at hrun
      simp only [Option.some_bind] at hrun
      unfold calibrations at hcal
      rw [count_calls_cons_some env call_calibrates b b2 c cs hs] at hcal
      have hc : call_calibrates b c = false := by
        by_contra hne
        simp only [Bool.not_eq_false] at hne
        rw [hne] at hcal
        simp at hcal
      have h0 : calibrations env b2 cs = 0 := by
        unfold calibrations; omega
      rw [ih b2 b1 hrun h0, step_threshold_of_not_calibrates env b b2 c hs hc]

/-- C12 (as the code has it): `threshold` is recomputed at every
MEASURE -> PLAY_AND_LISTEN transition, once per measurement step, and held
fixed in between: a `handleinput` call changes it only if it completes the
measurement window, and that call is exactly the one that moves the state into
PLAY_AND_LISTEN; every other `handleinput` call and every `handleoutput` call
leaves it as it is, and so does any stretch of calls without a calibration. -/
theorem handleinput_threshold (env : Env) :
    (∀ (bat : Bat) (buffer : List Int) (frames : Int) (r : Bat × List Int × Int),
      handleinput env bat buffer frames = some r →
      (¬ calibrates bat frames → r.1.latency.threshold = bat.latency.threshold) ∧
      (calibrates bat frames →
        r.1.latency.threshold =
          threshold_of env (calibration_input bat buffer frames).1
            (calibration_input bat buffer frames).2) ∧
      ((bat.latency.state ≠ LATENCY_STATE_PLAY_AND_LISTEN ∧
          r.1.latency.state = LATENCY_STATE_PLAY_AND_LISTEN) ↔ calibrates bat frames)) ∧
    (∀ (bat : Bat) (obuffer : List Nat) (bytes oframes : Int),
      (handleoutput env bat obuffer bytes oframes).1.latency.threshold =
        bat.latency.threshold) ∧
    (∀ (b b1 : Bat) (calls : List Call),
      run env b calls = some b1 → calibrations env b calls = 0 →
      b1.latency.threshold = b.latency.threshold) := by
  refine ⟨?_, fun bat obuffer bytes oframes =>
      (handleoutput_latency env bat obuffer bytes oframes).2.2.2.2.2.2.1,
    fun b b1 calls hrun hcal => run_threshold_of_no_calibration env calls b b1 hrun hcal⟩
  intro bat buffer frames r h
  refine ⟨fun hn => (handleinput_threshold_of_not_calibrates env bat buffer frames r h hn).1,
    ?_, ?_⟩
  · intro hcal
    rw [handleinput_of_calibrates env bat buffer frames hcal] at h
    simp only [Option.some.injEq] at h
    rw [← h]
  · constructor
    · intro ⟨hne, hplay⟩
      by_contra hn
      exact (handleinput_threshold_of_not_calibrates env bat buffer frames r h hn).2.1 hne hplay
    · intro hcal
      have hne : bat.latency.state ≠ LATENCY_STATE_PLAY_AND_LISTEN := by
        rcases hcal.2.2 with ⟨hs, _⟩ | ⟨hs, _⟩ <;> rw [hs] <;> simp
      rw [handleinput_of_calibrates env bat buffer frames hcal] at h
      simp only [Option.some.injEq] at h
      rw [← h]
      exact ⟨hne, rfl⟩

theorem count_calls_cons (env : Env) (cnt : Bat → Call → Bool) (bat : Bat) (c : Call)
    (cs : List Call) :
    count_calls env cnt bat (c :: cs) =
      (if cnt bat c then 1 else 0) +
        (match step env bat c with
          | none => 0
          | some b => count_calls env cnt b cs) := by
  unfold count_calls
  cases hs : step env bat c with
  | none => simp only [trace, hs, List.countP_cons, List.countP_nil]; omega
  | some b => simp only [trace, hs, List.countP_cons]; omega

/-! ## The output scheduler -/

theorem memset_zero_length (buffer : List Nat) (bytes : Int) :
    (memset_zero buffer bytes).length = buffer.length := by
  unfold memset_zero
  simp only [List.length_append, List.length_replicate, List.length_drop]
  omega

theorem memset_zero_getD (buffer : List Nat) (bytes : Int) (i : Nat) (d : Nat) :
    (memset_zero buffer bytes).getD i d =
      if i < bytes.toNat ∧ i < buffer.length then 0 else buffer.getD i d := by
  unfold memset_zero
  rw [List.getD_eq_getElem?_getD, List.getD_eq_getElem?_getD]
  by_cases h1 : i < min bytes.toNat buffer.length
  · rw [List.getElem?_append_left (by simp only [List.length_replicate]; omega)]
    have h2 : i < bytes.toNat ∧ i < buffer.length := by omega
    rw [if_pos h2]
    simp [List.getElem?_replicate, h1]
  · have h2 : ¬ (i < bytes.toNat ∧ i < buffer.length) := by omega
    rw [if_neg h2, List.getElem?_append_right (by simp only [List.length_replicate]; omega)]
    simp only [List.length_replicate, List.getElem?_drop]
    by_cases h3 : bytes.toNat ≤ buffer.length
    · rw [min_eq_left h3]
      congr 2
      omega
    · rw [min_eq_right (by omega)]
      rw [List.getElem?_eq_none (by omega), List.getElem?_eq_none (by omega)]

theorem handleoutput_early (env : Env) (bat : Bat) (buffer : List Nat) (bytes frames : Int)
    (h : early_exit bat frames) :
    handleoutput env bat buffer bytes frames =
      (bat, buffer, env.state_value bat.latency.state) := by
  unfold early_exit at h
  unfold handleoutput
  rw [if_pos h]

theorem handleoutput_tone (env : Env) (bat : Bat) (buffer : List Nat) (bytes frames : Int)
    (h : emits_tone bat frames) :
    handleoutput env bat buffer bytes frames =
      ({ bat with latency :=
          { bat.latency with latest_playback_state := bat.latency.state } },
        (env.generate_sine_wave bat frames buffer).2,
        (env.generate_sine_wave bat frames buffer).1) := by
  obtain ⟨h1, h2, h3⟩ := h
  unfold early_exit at h1
  unfold handleoutput
  rw [if_neg h1, if_pos h2, if_neg h3]

theorem handleoutput_guard (env : Env) (bat : Bat) (buffer : List Nat) (bytes frames : Int)
    (h1 : ¬ early_exit bat frames)
    (h2 : bat.latency.state = LATENCY_STATE_PLAY_AND_LISTEN)
    (h3 : bat.latency.silence_artifact > 0) :
    handleoutput env bat buffer bytes frames =
      ({ bat with latency :=
          { bat.latency with
            silence_artifact := bat.latency.silence_artifact - 1
            latest_playback_state := bat.latency.state } },
        memset_zero buffer bytes, 0) := by
  unfold early_exit at h1
  unfold handleoutput
  rw [if_neg h1, if_pos h2, if_pos h3]

theorem handleoutput_idle (env : Env) (bat : Bat) (buffer : List Nat) (bytes frames : Int)
    (h1 : ¬ early_exit bat frames)
    (h2 : bat.latency.state ≠ LATENCY_STATE_PLAY_AND_LISTEN) :
    handleoutput env bat buffer bytes frames =
      ({ bat with latency :=
          { bat.latency with latest_playback_state := bat.latency.state } },
        memset_zero buffer bytes, 0) := by
  unfold early_exit at h1
  unfold handleoutput
  rw [if_neg h1, if_neg h2]

theorem handleoutput_silence_artifact (env : Env) (bat : Bat) (buffer : List Nat)
    (bytes frames : Int) :
    (handleoutput env bat buffer bytes frames).1.latency.silence_artifact =
      bat.latency.silence_artifact -
        (if ¬ early_exit bat frames ∧ bat.latency.state = LATENCY_STATE_PLAY_AND_LISTEN ∧
            bat.latency.silence_artifact > 0 then 1 else 0) ∧
    (handleoutput env bat buffer bytes frames).1.latency.silence_artifact_def =
      bat.latency.silence_artifact_def := by
  by_cases h1 : early_exit bat frames
  · rw [handleoutput_early env bat buffer bytes frames h1]
    simp [h1]
  · by_cases h2 : bat.latency.state = LATENCY_STATE_PLAY_AND_LISTEN
    · by_cases h3 : bat.latency.silence_artifact > 0
      · rw [handleoutput_guard env bat buffer bytes frames h1 h2 h3]
        simp [h1, h2, h3]
      · rw [handleoutput_tone env bat buffer bytes frames ⟨h1, h2, h3⟩]
        simp [h3]
    · rw [handleoutput_idle env bat buffer bytes frames h1 h2]
      simp [h2]

/-- C14: `handleoutput` is purely reactive: it leaves `state`, `number`,
`samples`, `sum`, `threshold`, `wait_samples`, `error`, `result[]`,
`final_result` and `is_capturing` as they are and writes at most
`silence_artifact`, `latest_playback_state` (set to the current state) and the
output block; on the early-termination path it changes nothing at all, the
output block included, and returns the current state. -/
theorem handleoutput_reactive (env : Env) (bat : Bat) (buffer : List Nat)
    (bytes frames : Int) :
    (handleoutput env bat buffer bytes frames).1 =
      { bat with latency :=
        { bat.latency with
          silence_artifact :=
            (handleoutput env bat buffer bytes frames).1.latency.silence_artifact
          latest_playback_state :=
            (handleoutput env bat buffer bytes frames).1.latency.latest_playback_state } } ∧
    ((handleoutput env bat buffer bytes frames).1.latency.state = bat.latency.state ∧
      (handleoutput env bat buffer bytes frames).1.latency.number = bat.latency.number ∧
      (handleoutput env bat buffer bytes frames).1.latency.samples = bat.latency.samples ∧
      (handleoutput env bat buffer bytes frames).1.latency.sum = bat.latency.sum ∧
      (handleoutput env bat buffer bytes frames).1.latency.threshold =
        bat.latency.threshold ∧
      (handleoutput env bat buffer bytes frames).1.latency.wait_samples =
        bat.latency.wait_samples ∧
      (handleoutput env bat buffer bytes frames).1.latency.error = bat.latency.error ∧
      (handleoutput env bat buffer bytes frames).1.latency.result = bat.latency.result ∧
      (handleoutput env bat buffer bytes frames).1.latency.final_result =
        bat.latency.final_result ∧
      (handleoutput env bat buffer bytes frames).1.latency.is_capturing =
        bat.latency.is_capturing) ∧
    (¬ early_exit bat frames →
      (handleoutput env bat buffer bytes frames).1.latency.latest_playback_state =
        bat.latency.state) ∧
    (early_exit bat frames →
      handleoutput env bat buffer bytes frames =
        (bat, buffer, env.state_value bat.latency.state)) := by
  refine ⟨?_, ?_, ?_, fun h => handleoutput_early env bat buffer bytes frames h⟩
  · by_cases h1 : early_exit bat frames
    · rw [handleoutput_early env bat buffer bytes frames h1]
    · by_cases h2 : bat.latency.state = LATENCY_STATE_PLAY_AND_LISTEN
      · by_cases h3 : bat.latency.silence_artifact > 0
        · rw [handleoutput_guard env bat buffer bytes frames h1 h2 h3]
        · rw [handleoutput_tone env bat buffer bytes frames ⟨h1, h2, h3⟩]
      · rw [handleoutput_idle env bat buffer bytes frames h1 h2]
  · obtain ⟨e1, e2, e3, e4, e5, e6, e7, e8, e9, e10, _⟩ :=
      handleoutput_latency env bat buffer bytes frames
    exact ⟨e4, e1, e5, e6, e7, e8, e2, e3, e9, e10⟩
  · intro h1
    by_cases h2 : bat.latency.state = LATENCY_STATE_PLAY_AND_LISTEN
    · by_cases h3 : bat.latency.silence_artifact > 0
      · rw [handleoutput_guard env bat buffer bytes frames h1 h2 h3]
      · rw [handleoutput_tone env bat buffer bytes frames ⟨h1, h2, h3⟩]
    · rw [handleoutput_idle env bat buffer bytes frames h1 h2]

theorem handleoutput_reactive_witness :
    early_exit bat_finished 2 ∧
    handleoutput env0 bat_finished [1, 2, 3, 4] 4 2 = (bat_finished, [1, 2, 3, 4], 0) :=
  ⟨by decide, (handleoutput_reactive env0 bat_finished [1, 2, 3, 4] 4 2).2.2.2 (by decide)⟩

theorem step_silence_artifact (env : Env) (b b1 : Bat) (c : Call)
    (hs : step env b c = some b1) (hc : call_calibrates b c = false) :
    b1.latency.silence_artifact =
      b.latency.silence_artifact -
        (if call_listening_output b c = true ∧ b.latency.silence_artifact > 0 then 1 else 0) ∧
    b1.latency.silence_artifact_def = b.latency.silence_artifact_def := by
  cases c with
  | output obuffer bytes oframes =>
    simp only [step, Option.some.injEq] at hs
    rw [← hs]
    obtain ⟨e1, e2⟩ := handleoutput_silence_artifact env b obuffer bytes oframes
    refine ⟨?_, e2⟩
    rw [e1]
    simp only [call_listening_output, decide_eq_true_eq, and_assoc]
  | input buffer frames =>
    obtain ⟨r, hr, hb1⟩ := step_input_some env b b1 buffer frames hs
    simp only [call_calibrates, decide_eq_false_iff_not] at hc
    rw [← hb1]
    obtain ⟨_, _, e3, e4⟩ := handleinput_threshold_of_not_calibrates env b buffer frames r hr hc
    simp [call_listening_output, e3, e4]

theorem run_silence_artifact (env : Env) (calls : List Call) :
    ∀ (b b1 : Bat), 0 ≤ b.latency.silence_artifact → run env b calls = some b1 →
      calibrations env b calls = 0 →
      b1.latency.silence_artifact =
        max (b.latency.silence_artifact - (listening_outputs env b calls : Int)) 0 := by
  induction calls with
  | nil =>
    intro b b1 h0 hrun _
    simp only [run, Option.some.injEq] at hrun
    rw [← hrun]
    simp [listening_outputs, count_calls_nil, h0]
  | cons c cs ih =>
    intro b b1 h0 hrun hcal
    simp only [run] at hrun
    cases hs : step env b c with
    | none => rw [hs] at hrun; simp at hrun
    | some b2 =>
      rw [hs] at hrun
      simp only [Option.some_bind] at hrun
      unfold calibrations at hcal
      rw [count_calls_cons_some env call_calibrates b b2 c cs hs] at hcal
      have hc : call_calibrates b c = false := by
        by_contra hne
        simp only [Bool.not_eq_false] at hne
        rw [hne] at hcal
        simp at hcal
      have hcal2 : calibrations env b2 cs = 0 := by
        unfold calibrations; omega
      obtain ⟨e1, _⟩ := step_silence_artifact env b b2 c hs hc
      have h2 : 0 ≤ b2.latency.silence_artifact := by
        rw [e1]; split_ifs <;> omega
      have hih := ih b2 b1 h2 hrun hcal2
      unfold listening_outputs at hih ⊢
      rw [count_calls_cons_some env call_listening_output b b2 c cs hs, hih, e1]
      by_cases hlo : call_listening_output b c = true
      · by_cases hpos : b.latency.silence_artifact > 0
        · rw [if_pos ⟨hlo, hpos⟩, if_pos hlo]
          push_cast
          congr 1
          omega
        · rw [if_neg (fun hh => hpos hh.2), if_pos hlo]
          push_cast
          have hz : b.latency.silence_artifact = 0 := by omega
          rw [hz]
          rw [max_eq_right (by omega), max_eq_right (by omega)]
      · rw [if_neg (fun hh => hlo hh.1), if_neg hlo]
        push_cast
        congr 1
        omega

theorem step_silence_invariant (env : Env) (d : Int) (hd : 0 ≤ d) (b b1 : Bat) (c : Call)
    (hP : b.latency.silence_artifact_def = d ∧
      (b.latency.state = LATENCY_STATE_PLAY_AND_LISTEN → 0 ≤ b.latency.silence_artifact))
    (hs : step env b c = some b1) :
    b1.latency.silence_artifact_def = d ∧
      (b1.latency.state = LATENCY_STATE_PLAY_AND_LISTEN → 0 ≤ b1.latency.silence_artifact) := by
  obtain ⟨h1, h2⟩ := hP
  by_cases hc : call_calibrates b c = true
  · cases c with
    | output obuffer bytes oframes => simp [call_calibrates] at hc
    | input buffer frames =>
      simp only [call_calibrates, decide_eq_true_eq] at hc
      obtain ⟨r, hr, hb1⟩ := step_input_some env b b1 buffer frames hs
      rw [handleinput_of_calibrates env b buffer frames hc] at hr
      simp only [Option.some.injEq] at hr
      rw [← hb1, ← hr]
      simp only []
      exact ⟨h1, fun _ => by rw [h1]; exact hd⟩
  · have hcf : call_calibrates b c = false := by simpa using hc
    obtain ⟨e1, e2⟩ := step_silence_artifact env b b1 c hs hcf
    refine ⟨by rw [e2, h1], fun hplay => ?_⟩
    have hbp : b.latency.state = LATENCY_STATE_PLAY_AND_LISTEN := by
      cases c with
      | output obuffer bytes oframes =>
        simp only [step, Option.some.injEq] at hs
        rw [← hs, (handleoutput_latency env b obuffer bytes oframes).2.2.2.1] at hplay
        exact hplay
      | input buffer frames =>
        obtain ⟨r, hr, hb1⟩ := step_input_some env b b1 buffer frames hs
        simp only [call_calibrates, decide_eq_false_iff_not] at hcf
        by_contra hne
        rw [← hb1] at hplay
        exact (handleinput_threshold_of_not_calibrates env b buffer frames r hr hcf).2.1
          hne hplay
    have := h2 hbp
    rw [e1]
    split_ifs <;> omega

/-- C13: a `handleoutput` call off the early-termination path fills the block
with silence and returns 0 when the state is not PLAY_AND_LISTEN; in
PLAY_AND_LISTEN with `silence_artifact > 0` it fills the block with silence
and takes exactly 1 off `silence_artifact`; it reaches `generate_sine_wave`
exactly in PLAY_AND_LISTEN with `silence_artifact` not positive, which in every
context reached from `roundtrip_latency_init` with `silence_artifact_def >= 0`
means `silence_artifact == 0`.  A calibration sets `silence_artifact` to
`silence_artifact_def`, and from there until the next calibration it is
`silence_artifact_def` less the output periods of the listening phase, never
below 0: the first `silence_artifact_def` such periods are silent and the tone
follows. -/
theorem handleoutput_silence_guard (env : Env) :
    (∀ (bat : Bat) (buffer : List Nat) (bytes frames : Int), ¬ early_exit bat frames →
      (bat.latency.state ≠ LATENCY_STATE_PLAY_AND_LISTEN →
        (handleoutput env bat buffer bytes frames).2 = (memset_zero buffer bytes, 0)) ∧
      (bat.latency.state = LATENCY_STATE_PLAY_AND_LISTEN →
        bat.latency.silence_artifact > 0 →
        (handleoutput env bat buffer bytes frames).2 = (memset_zero buffer bytes, 0) ∧
        (handleoutput env bat buffer bytes frames).1.latency.silence_artifact =
          bat.latency.silence_artifact - 1) ∧
      (emits_tone bat frames →
        (handleoutput env bat buffer bytes frames).2 =
          ((env.generate_sine_wave bat frames buffer).2,
            (env.generate_sine_wave bat frames buffer).1) ∧
        (handleoutput env bat buffer bytes frames).1.latency.silence_artifact =
          bat.latency.silence_artifact) ∧
      (emits_tone bat frames ↔
        (bat.latency.state = LATENCY_STATE_PLAY_AND_LISTEN ∧
          ¬ bat.latency.silence_artifact > 0))) ∧
    (∀ (buffer : List Nat) (bytes : Int),
      (memset_zero buffer bytes).length = buffer.length ∧
      ∀ i : Nat, i < bytes.toNat → i < buffer.length →
        (memset_zero buffer bytes).getD i 1 = 0) ∧
    (∀ (bat0 b : Bat) (calls : List Call), 0 ≤ bat0.latency.silence_artifact_def →
      run env (roundtrip_latency_init env bat0) calls = some b →
      b.latency.state = LATENCY_STATE_PLAY_AND_LISTEN →
      0 ≤ b.latency.silence_artifact ∧
      ∀ frames : Int, emits_tone b frames → b.latency.silence_artifact = 0) ∧
    (∀ (bat : Bat) (buffer : List Int) (frames : Int) (r : Bat × List Int × Int),
      calibrates bat frames → handleinput env bat buffer frames = some r →
      r.1.latency.state = LATENCY_STATE_PLAY_AND_LISTEN ∧
      r.1.latency.silence_artifact = bat.latency.silence_artifact_def) ∧
    (∀ (b b1 : Bat) (calls : List Call), 0 ≤ b.latency.silence_artifact →
      run env b calls = some b1 → calibrations env b calls = 0 →
      b1.latency.silence_artifact =
        max (b.latency.silence_artifact - (listening_outputs env b calls : Int)) 0 ∧
      ∀ frames : Int, ¬ early_exit b1 frames →
        b1.latency.state = LATENCY_STATE_PLAY_AND_LISTEN →
        (emits_tone b1 frames ↔
          b.latency.silence_artifact ≤ (listening_outputs env b calls : Int))) := by
  refine ⟨?_, ?_, ?_, ?_, ?_⟩
  · intro bat buffer bytes frames h1
    refine ⟨?_, ?_, ?_, ?_⟩
    · intro h2
      rw [handleoutput_idle env bat buffer bytes frames h1 h2]
    · intro h2 h3
      rw [handleoutput_guard env bat buffer bytes frames h1 h2 h3]
      exact ⟨rfl, rfl⟩
    · intro ht
      rw [handleoutput_tone env bat buffer bytes frames ht]
      exact ⟨rfl, rfl⟩
    · unfold emits_tone
      exact ⟨fun h => h.2, fun h => ⟨h1, h⟩⟩
  · intro buffer bytes
    refine ⟨memset_zero_length buffer bytes, ?_⟩
    intro i hi1 hi2
    rw [memset_zero_getD, if_pos ⟨hi1, hi2⟩]
  · intro bat0 b calls hd hrun hplay
    have h := run_induction env (fun _ _ => false)
      (fun b _ => b.latency.silence_artifact_def = bat0.latency.silence_artifact_def ∧
        (b.latency.state = LATENCY_STATE_PLAY_AND_LISTEN → 0 ≤ b.latency.silence_artifact))
      (fun b b1 c _ hP hs =>
        step_silence_invariant env bat0.latency.silence_artifact_def hd b b1 c hP hs)
      calls (roundtrip_latency_init env bat0) b 0
      ⟨by simp [roundtrip_latency_init], by simp [roundtrip_latency_init]⟩ hrun
    have h0 := h.2 hplay
    refine ⟨h0, fun frames ht => ?_⟩
    have := ht.2.2
    omega
  · intro bat buffer frames r hcal hr
    rw [handleinput_of_calibrates env bat buffer frames hcal] at hr
    simp only [Option.some.injEq] at hr
    rw [← hr]
    exact ⟨rfl, rfl⟩
  · intro b b1 calls h0 hrun hcal
    have hs := run_silence_artifact env calls b b1 h0 hrun hcal
    refine ⟨hs, fun frames he hplay => ?_⟩
    unfold emits_tone
    rw [hs]
    constructor
    · intro ht
      have h3 := ht.2.2
      by_contra hlt
      apply h3
      rw [max_eq_left (by omega)]
      omega
    · intro hle
      refine ⟨he, hplay, ?_⟩
      rw [max_eq_right (by omega)]
      omega

theorem handleoutput_silence_guard_witness :
    ¬ early_exit bat_guard 2 ∧
    bat_guard.latency.state = LATENCY_STATE_PLAY_AND_LISTEN ∧
    bat_guard.latency.silence_artifact > 0 ∧
    (handleoutput env0 bat_guard [9, 9, 9, 9] 4 2).2 = ([0, 0, 0, 0], 0) ∧
    (handleoutput env0 bat_guard [9, 9, 9, 9] 4 2).1.latency.silence_artifact = 1 := by
  have h := ((handleoutput_silence_guard env0).1 bat_guard [9, 9, 9, 9] 4 2
    (by decide)).2.1 rfl (by decide)
  refine ⟨by decide, rfl, by decide, ?_, ?_⟩
  · rw [h.1]; rfl
  · rw [h.2]; rfl

/-! ## The scan for the detection offset -/

/-- C15: the code at a block where it departs from the claim.  With threshold
100 the block `[0, 100, 500]` has its first sample above the threshold at
index 2, but the scan adds `channels` to the sample that follows each sample
it passes, stops at index 1 and leaves the block as `[0, 101, 500]`; the
latency recorded is 7 ms instead of 8 ms. -/
theorem scan_offset_divergence :
    listens bat_three_frames 3 ∧
    averageinput bat_three_frames [0, 100, 500] 3 > bat_three_frames.latency.threshold ∧
    spec_detection_offset bat_three_frames.latency.threshold [0, 100, 500] 3 = 2 ∧
    detect_offset bat_three_frames [0, 100, 500] 3 = 1 ∧
    (handleinput env0 bat_three_frames [0, 100, 500] 3).map
        (fun r => (r.2.1, r.1.latency.result)) =
      some ([0, 101, 500], [7, 0, 0, 0, 0]) := by
  have hl : listens bat_three_frames 3 := ⟨rfl, rfl, rfl⟩
  exact ⟨hl, by decide!, by decide, by decide, by decide!⟩

/-! ## Detections after the first listened block -/

theorem play_and_listen_discard (env : Env) (bat : Bat) (buffer : List Int) (frames : Int)
    (havg : averageinput bat buffer frames > bat.latency.threshold)
    (hn : ¬ bat.latency.samples + (detect_offset bat buffer frames : Int) > frames) :
    (play_and_listen env bat buffer frames).1.latency.result = bat.latency.result ∧
    (play_and_listen env bat buffer frames).1.latency.number = bat.latency.number ∧
    (play_and_listen env bat buffer frames).1.latency.state = LATENCY_STATE_WAITING ∧
    (play_and_listen env bat buffer frames).1.latency.samples = 0 := by
  unfold detect_offset at hn
  unfold play_and_listen
  simp only [record_test_db_threshold, record_test_db_samples, if_pos havg, if_neg hn]
  simp [clear_samples_if_waiting_samples]

/-- C16: the code at an input where it departs from the claim.  After exactly
one listened block (`samples == frames == 2`) a block above the threshold
whose first sample already exceeds it (`n == 0`) is a detection in the second
listened block with a latency of exactly one buffer, 2 ms at 1000 Hz; the test
`samples > frames` discards it: `result[]` and `number` keep their values and
the state becomes WAITING.  The same happens in the run from
`roundtrip_latency_init` at 2 Hz that calibrates over silence, listens to one
quiet block and then receives the block `[5, 5]`. -/
theorem detection_after_one_block_divergence :
    listens bat_one_block 2 ∧
    bat_one_block.latency.samples ≥ 2 ∧
    averageinput bat_one_block [500, 500] 2 > bat_one_block.latency.threshold ∧
    detect_offset bat_one_block [500, 500] 2 = 0 ∧
    latency_ms (bat_one_block.latency.samples + 0) bat_one_block.rate = 2 ∧
    (handleinput env0 bat_one_block [500, 500] 2).map
        (fun r => (r.1.latency.result, r.1.latency.number, r.1.latency.state)) =
      some ([0, 0, 0, 0, 0], 1, LATENCY_STATE_WAITING) ∧
    (run env0 (roundtrip_latency_init env0 bat_slow)
        [Call.input [0, 0] 2, Call.input [0, 0] 2]).map
        (fun b => (b.latency.state, b.latency.samples, b.latency.threshold)) =
      some (LATENCY_STATE_PLAY_AND_LISTEN, 2, 0) ∧
    (run env0 (roundtrip_latency_init env0 bat_slow)
        [Call.input [0, 0] 2, Call.input [0, 0] 2, Call.input [5, 5] 2]).map
        (fun b => (b.latency.result, b.latency.number, b.latency.state)) =
      some ([0, 0, 0, 0, 0], 1, LATENCY_STATE_WAITING) := by
  have hl : listens bat_one_block 2 := ⟨rfl, rfl, rfl⟩
  exact ⟨hl, by decide, by decide!, by decide, by decide!, by decide!, by decide!, by decide!⟩

/-- In PLAY_AND_LISTEN a block whose average is above the threshold is
recorded exactly when the samples listened on entry plus the detection offset
`n` exceed one block, `samples + n > frames`; this holds whenever
`samples > frames` on entry, and with `samples == frames` only for `n > 0`.
When it holds, `result[number - 1]` is set to the latency of `samples + n`
samples whatever the consistency gate decides; when it does not, the detection
is discarded: `result[]` and `number` are unchanged and the state becomes
WAITING. -/
theorem handleinput_detection (env : Env) (bat : Bat) (buffer : List Int) (frames : Int)
    (hl : listens bat frames)
    (havg : averageinput bat buffer frames > bat.latency.threshold) :
    ∃ bat1 buffer1, handleinput env bat buffer frames = some (bat1, buffer1, 0) ∧
      (bat.latency.samples + (detect_offset bat buffer frames : Int) > frames →
        bat1.latency.result =
          float_store bat.latency.result (bat.latency.number - 1)
            (latency_ms (bat.latency.samples + (detect_offset bat buffer frames : Int))
              bat.rate) ∧
        (1 ≤ bat.latency.number → bat.latency.number ≤ (bat.latency.result.length : Int) →
          float_at bat1.latency.result (bat.latency.number - 1) =
            latency_ms (bat.latency.samples + (detect_offset bat buffer frames : Int))
              bat.rate)) ∧
      (¬ bat.latency.samples + (detect_offset bat buffer frames : Int) > frames →
        bat1.latency.result = bat.latency.result ∧
        bat1.latency.number = bat.latency.number ∧
        bat1.latency.state = LATENCY_STATE_WAITING) ∧
      (bat.latency.samples > frames →
        bat.latency.samples + (detect_offset bat buffer frames : Int) > frames) ∧
      (bat.latency.samples = frames →
        (bat.latency.samples + (detect_offset bat buffer frames : Int) > frames ↔
          0 < detect_offset bat buffer frames)) := by
  refine ⟨_, _, handleinput_listening env bat buffer frames hl, ?_, ?_, ?_, ?_⟩
  · intro hgt
    have hrec : records_result bat buffer frames := ⟨havg, hgt⟩
    have hres := play_and_listen_result_of_records env bat buffer frames hrec
    rw [hres]
    refine ⟨rfl, fun h1 h2 => ?_⟩
    unfold results_after new_result
    rw [float_at_store_eq _ _ _ (by omega) (by omega)]
  · intro hn
    obtain ⟨e1, e2, e3, _⟩ := play_and_listen_discard env bat buffer frames havg hn
    exact ⟨e1, e2, e3⟩
  · intro hgt
    omega
  · intro heq
    omega

theorem handleinput_detection_witness :
    listens bat_consistent_trial 2 ∧
    averageinput bat_consistent_trial [500, 500] 2 > bat_consistent_trial.latency.threshold ∧
    ∃ bat1 buffer1,
      handleinput env0 bat_consistent_trial [500, 500] 2 = some (bat1, buffer1, 0) ∧
      float_at bat1.latency.result 1 = 28 := by
  have hl : listens bat_consistent_trial 2 := ⟨rfl, rfl, rfl⟩
  have havg : averageinput bat_consistent_trial [500, 500] 2 >
      bat_consistent_trial.latency.threshold := by
    decide!
  obtain ⟨bat1, buffer1, h1, h2, _⟩ :=
    handleinput_detection env0 bat_consistent_trial [500, 500] 2 hl havg
  have hoff : detect_offset bat_consistent_trial [500, 500] 2 = 0 := by decide
  have h3 := (h2 (by rw [hoff]; decide)).2 (by decide) (by decide)
  refine ⟨hl, havg, bat1, buffer1, h1, ?_⟩
  have hidx : bat_consistent_trial.latency.number - 1 = 1 := by decide
  rw [hidx, hoff] at h3
  rw [h3]
  decide!

/-! ## The miss counter is not cleared by a recorded result -/

theorem fold_calls_cons {G : Type} (env : Env) (upd : G → Bat → Call → G) (g : G)
    (bat : Bat) (c : Call) (cs : List Call) :
    fold_calls env upd g bat (c :: cs) =
      (match step env bat c with
        | none => upd g bat c
        | some b => fold_calls env upd (upd g bat c) b cs) := rfl

theorem consecutive_le_misses (env : Env) (calls : List Call) :
    ∀ (b : Bat) (k : Nat),
      fold_calls env consecutive_update k b calls ≤ k + misses env b calls := by
  induction calls with
  | nil => intro b k; simp [fold_calls]
  | cons c cs ih =>
    intro b k
    have hupd : consecutive_update k b c ≤ k + (if call_misses b c then 1 else 0) := by
      unfold consecutive_update
      split_ifs <;> omega
    unfold misses
    rw [fold_calls_cons, count_calls_cons]
    cases hs : step env b c with
    | none => simp only []; omega
    | some b2 =>
      simp only []
      have := ih b2 (consecutive_update k b c)
      unfold misses at this
      omega

/-- C17 (as stated) fails: at 2 Hz with periods of two frames, the first trial
times out after three quiet blocks (`error` becomes 1), and after the wait and
a new calibration a detection in the second listened block is recorded; the
misses in a row since that recorded result are 0 but `error` is still 1. -/
theorem error_not_consecutive_counterexample :
    (run env0 (roundtrip_latency_init env0 bat_slow)
      [Call.input [0, 0] 2, Call.input [0, 0] 2, Call.input [0, 0] 2, Call.input [0, 0] 2,
       Call.input [0, 0] 2, Call.input [0, 0] 2, Call.input [0, 0] 2, Call.input [0, 0] 2,
       Call.input [0, 0] 2, Call.input [0, 0] 2, Call.input [0, 5] 2]).map
        (fun b => (b.latency.state, b.latency.error, b.latency.number, b.latency.result)) =
      some (LATENCY_STATE_WAITING, 1, 2, [1500, 0, 0, 0, 0]) ∧
    consecutive_misses env0 (roundtrip_latency_init env0 bat_slow)
      [Call.input [0, 0] 2, Call.input [0, 0] 2, Call.input [0, 0] 2, Call.input [0, 0] 2,
       Call.input [0, 0] 2, Call.input [0, 0] 2, Call.input [0, 0] 2, Call.input [0, 0] 2,
       Call.input [0, 0] 2, Call.input [0, 0] 2, Call.input [0, 5] 2] = 0 := by
  exact ⟨by decide!, by decide!⟩

/-- C17 (as the code has it): `error` counts all misses since
`roundtrip_latency_init`: in every reachable context it equals the total
number of misses so far, which a recorded result never clears, so it is at
least the number of misses in a row; the run is aborted for missed detections
by the miss that brings this total above `LATENCY_TEST_NUMBER`. -/
theorem reachable_error_total (env : Env) (bat0 b : Bat) (calls : List Call)
    (hN : 0 ≤ env.LATENCY_TEST_NUMBER)
    (hrun : run env (roundtrip_latency_init env bat0) calls = some b) :
    b.latency.error = (misses env (roundtrip_latency_init env bat0) calls : Int) ∧
    consecutive_misses env (roundtrip_latency_init env bat0) calls ≤
      misses env (roundtrip_latency_init env bat0) calls ∧
    (¬ is_terminal b.latency.state → b.latency.error ≤ env.LATENCY_TEST_NUMBER) ∧
    (∀ (buffer : List Int) (frames : Int), listens b frames → is_miss b buffer frames →
      ((play_and_listen env b buffer frames).1.latency.state =
          LATENCY_STATE_COMPLETE_FAILURE ↔
        (misses env (roundtrip_latency_init env bat0) calls : Int) =
          env.LATENCY_TEST_NUMBER)) ∧
    (∀ (buffer : List Int) (frames : Int), listens b frames →
      records_result b buffer frames →
      (play_and_listen env b buffer frames).1.latency.error = b.latency.error) := by
  have h := run_induction env call_misses (error_invariant env)
    (fun b b1 c k hP hs => step_error_invariant env b b1 c k hP hs) calls
    (roundtrip_latency_init env bat0) b 0
    (roundtrip_latency_init_error_invariant env bat0 hN) hrun
  rw [Nat.zero_add] at h
  obtain ⟨h1, h2⟩ := h
  have hc := consecutive_le_misses env calls (roundtrip_latency_init env bat0) 0
  rw [Nat.zero_add] at hc
  refine ⟨h1, hc, h2, ?_, ?_⟩
  · intro buffer frames hl hm
    have hnt : ¬ is_terminal b.latency.state := by rw [hl.2.2]; simp [is_terminal]
    have hle := h2 hnt
    obtain ⟨_, _, _, _, e5, e6⟩ := play_and_listen_miss env b buffer frames hm
    unfold misses
    constructor
    · intro hst
      by_contra hne
      have hw := (e6 (by omega)).1
      rw [hw] at hst
      cases hst
    · intro heq
      exact (e5 (by omega)).1
  · intro buffer frames _ hrec
    rw [play_and_listen_error, if_neg, add_zero]
    intro hm
    have h3 := hrec.1
    have h4 := hm.1
    omega

theorem reachable_error_total_witness :
    (0 : Int) ≤ env0.LATENCY_TEST_NUMBER ∧
    ∃ b, run env0 (roundtrip_latency_init env0 bat_slow)
      [Call.input [0, 0] 2, Call.input [0, 0] 2, Call.input [0, 0] 2, Call.input [0, 0] 2,
       Call.input [0, 0] 2, Call.input [0, 0] 2, Call.input [0, 0] 2, Call.input [0, 0] 2,
       Call.input [0, 0] 2, Call.input [0, 0] 2, Call.input [0, 5] 2] = some b ∧
      b.latency.number = 2 ∧ b.latency.error = 1 ∧
      misses env0 (roundtrip_latency_init env0 bat_slow)
        [Call.input [0, 0] 2, Call.input [0, 0] 2, Call.input [0, 0] 2, Call.input [0, 0] 2,
         Call.input [0, 0] 2, Call.input [0, 0] 2, Call.input [0, 0] 2, Call.input [0, 0] 2,
         Call.input [0, 0] 2, Call.input [0, 0] 2, Call.input [0, 5] 2] = 1 ∧
      b.latency.error =
        (misses env0 (roundtrip_latency_init env0 bat_slow)
          [Call.input [0, 0] 2, Call.input [0, 0] 2, Call.input [0, 0] 2, Call.input [0, 0] 2,
           Call.input [0, 0] 2, Call.input [0, 0] 2, Call.input [0, 0] 2, Call.input [0, 0] 2,
           Call.input [0, 0] 2, Call.input [0, 0] 2, Call.input [0, 5] 2] : Int) := by
  have hrun : ∃ b ∈ run env0 (roundtrip_latency_init env0 bat_slow)
      [Call.input [0, 0] 2, Call.input [0, 0] 2, Call.input [0, 0] 2, Call.input [0, 0] 2,
       Call.input [0, 0] 2, Call.input [0, 0] 2, Call.input [0, 0] 2, Call.input [0, 0] 2,
       Call.input [0, 0] 2, Call.input [0, 0] 2, Call.input [0, 5] 2],
      b.latency.number = 2 ∧ b.latency.error = 1 := by decide!
  obtain ⟨b, hb, hnum, herr⟩ := hrun
  exact ⟨by decide, b, hb, hnum, herr, by decide!,
    (reachable_error_total env0 bat_slow b _ (by decide) hb).1⟩

/-! ## The waiting phase -/

theorem play_and_listen_waiting_samples (env : Env) (bat : Bat) (buffer : List Int)
    (frames : Int)
    (h : (play_and_listen env bat buffer frames).1.latency.state = LATENCY_STATE_WAITING) :
    (play_and_listen env bat buffer frames).1.latency.samples = 0 := by
  revert h
  unfold play_and_listen
  simp only []
  split_ifs <;> simp [clear_samples_if_waiting_samples] <;> intro h <;> simp [h]

theorem waiting_blocks_stay (env : Env) (blocks : List (List Int × Int)) :
    ∀ (bat : Bat), bat.latency.state = LATENCY_STATE_WAITING → bat.channels = 1 →
      (∀ blk ∈ blocks, blk.2 = (bat.period_size : Int)) →
      bat.latency.samples + (blocks.length : Int) * (bat.period_size : Int) ≤ 3 * bat.rate →
      handleinput_seq env bat blocks =
        some { bat with latency :=
          { bat.latency with
            samples := bat.latency.samples +
              (blocks.length : Int) * (bat.period_size : Int) } } := by
  induction blocks with
  | nil =>
    intro bat _ _ _ _
    simp [handleinput_seq]
  | cons blk rest ih =>
    intro bat hs hc hall hle
    have hf : blk.2 = (bat.period_size : Int) := hall blk (List.mem_cons_self _ _)
    have hp : (0 : Int) ≤ (bat.period_size : Int) := Int.natCast_nonneg _
    have hr : (0 : Int) ≤ (rest.length : Int) * (bat.period_size : Int) :=
      mul_nonneg (Int.natCast_nonneg _) hp
    simp only [List.length_cons, Nat.cast_add, Nat.cast_one, add_mul, one_mul] at hle
    have hstay : ¬ bat.latency.samples + blk.2 > bat.rate * 3 := by
      rw [hf]; omega
    simp only [handleinput_seq, handleinput_waiting env bat blk.1 blk.2 hf hc hs,
      if_neg hstay, Option.some_bind]
    refine (ih _ ?_ ?_ ?_ ?_).trans ?_
    · exact hs
    · exact hc
    · exact fun b hb => hall b (List.mem_cons_of_mem _ hb)
    · simp only []
      rw [hf]
      omega
    · simp only [List.length_cons, Nat.cast_add, Nat.cast_one, add_mul, one_mul, hf,
        Option.some.injEq]
      congr 2
      ring

theorem waiting_blocks_leave (env : Env) (blocks : List (List Int × Int)) :
    ∀ (bat : Bat), bat.latency.state = LATENCY_STATE_WAITING → bat.channels = 1 →
      (∀ blk ∈ blocks, blk.2 = (bat.period_size : Int)) →
      1 ≤ blocks.length →
      bat.latency.samples + ((blocks.length : Int) - 1) * (bat.period_size : Int) ≤
        3 * bat.rate →
      bat.latency.samples + (blocks.length : Int) * (bat.period_size : Int) > 3 * bat.rate →
      handleinput_seq env bat blocks =
        some { bat with latency :=
          { bat.latency with
            samples := 0
            sum := 0
            state := LATENCY_STATE_MEASURE_FOR_1_SECOND_SKIP_LEAD } } := by
  induction blocks with
  | nil =>
    intro bat _ _ _ h1 _ _
    simp at h1
  | cons blk rest ih =>
    intro bat hs hc hall _ hle hgt
    have hf : blk.2 = (bat.period_size : Int) := hall blk (List.mem_cons_self _ _)
    have hp : (0 : Int) ≤ (bat.period_size : Int) := Int.natCast_nonneg _
    simp only [List.length_cons, Nat.cast_add, Nat.cast_one, add_mul, one_mul,
      add_sub_cancel_right] at hle hgt
    cases rest with
    | nil =>
      simp only [List.length_nil, Nat.cast_zero, zero_mul, add_zero, zero_add] at hle hgt
      have hleave : bat.latency.samples + blk.2 > bat.rate * 3 := by
        rw [hf]; omega
      simp only [handleinput_seq, handleinput_waiting env bat blk.1 blk.2 hf hc hs,
        if_pos hleave, Option.some_bind]
    | cons blk2 rest2 =>
      have hr : (0 : Int) ≤ ((blk2 :: rest2).length : Int) * (bat.period_size : Int) :=
        mul_nonneg (Int.natCast_nonneg _) hp
      have hlen : ((blk2 :: rest2).length : Int) = (rest2.length : Int) + 1 := by
        simp
      have hstay : ¬ bat.latency.samples + blk.2 > bat.rate * 3 := by
        rw [hf]
        rw [hlen] at hle
        have : (0 : Int) ≤ (rest2.length : Int) * (bat.period_size : Int) :=
          mul_nonneg (Int.natCast_nonneg _) hp
        have e : ((rest2.length : Int) + 1) * (bat.period_size : Int) =
            (rest2.length : Int) * (bat.period_size : Int) + (bat.period_size : Int) := by
          ring
        omega
      simp only [handleinput_seq, handleinput_waiting env bat blk.1 blk.2 hf hc hs,
        if_neg hstay, Option.some_bind]
      refine (ih _ ?_ ?_ ?_ (by simp) ?_ ?_).trans rfl
      · exact hs
      · exact hc
      · exact fun b hb => hall b (List.mem_cons_of_mem _ hb)
      · simp only []
        rw [hf]
        have e : (((blk2 :: rest2).length : Int) - 1) * (bat.period_size : Int) =
            ((blk2 :: rest2).length : Int) * (bat.period_size : Int) -
              (bat.period_size : Int) := by ring
        omega
      · simp only []
        rw [hf]
        omega

theorem handleinput_seq_append (env : Env) (l1 l2 : List (List Int × Int)) :
    ∀ bat : Bat, handleinput_seq env bat (l1 ++ l2) =
      (handleinput_seq env bat l1).bind (fun b => handleinput_seq env b l2) := by
  induction l1 with
  | nil => intro bat; simp [handleinput_seq]
  | cons blk rest ih =>
    intro bat
    simp only [List.cons_append, handleinput_seq]
    cases handleinput env bat blk.1 blk.2 with
    | none => simp
    | some r => simp [ih]

theorem sumaudio_congr (b1 b2 : Bat) (h : b1.channels = b2.channels) (buffer : List Int)
    (frames : Int) : sumaudio b1 buffer frames = sumaudio b2 buffer frames := by
  unfold sumaudio
  rw [h]

theorem float_window_sum_congr (b1 b2 : Bat) (h : b1.channels = b2.channels) (sum : ℚ)
    (w : List (List Int × Int)) : float_window_sum b1 sum w = float_window_sum b2 sum w := by
  unfold float_window_sum
  congr 1
  funext s blk
  rw [sumaudio_congr b1 b2 h]

theorem handleinput_calibrated (env : Env) (bat : Bat) (buffer : List Int) (frames : Int)
    (h : calibrates bat frames) :
    handleinput env bat buffer frames =
      some (calibrated env bat (calibration_input bat buffer frames).1
        (calibration_input bat buffer frames).2, buffer, 0) :=
  handleinput_of_calibrates env bat buffer frames h

theorem skip_blocks_leave (env : Env) (blocks : List (List Int × Int)) :
    ∀ (bat : Bat), bat.latency.state = LATENCY_STATE_MEASURE_FOR_1_SECOND_SKIP_LEAD →
      bat.channels = 1 → bat.latency.measure_skip_samples > 0 →
      (∀ blk ∈ blocks, blk.2 = (bat.period_size : Int)) →
      1 ≤ blocks.length →
      bat.latency.samples + ((blocks.length : Int) - 1) * (bat.period_size : Int) <
        bat.latency.measure_skip_samples →
      bat.latency.samples + (blocks.length : Int) * (bat.period_size : Int) ≥
        bat.latency.measure_skip_samples →
      handleinput_seq env bat blocks =
        some { bat with latency :=
          { bat.latency with
            samples := 0
            state := LATENCY_STATE_MEASURE_FOR_1_SECOND } } := by
  induction blocks with
  | nil =>
    intro bat _ _ _ _ h1 _ _
    simp at h1
  | cons blk rest ih =>
    intro bat hs hc hskip hall _ hlt hge
    have hf : blk.2 = (bat.period_size : Int) := hall blk (List.mem_cons_self _ _)
    have hp : (0 : Int) ≤ (bat.period_size : Int) := Int.natCast_nonneg _
    simp only [List.length_cons, Nat.cast_add, Nat.cast_one, add_mul, one_mul,
      add_sub_cancel_right] at hlt hge
    cases rest with
    | nil =>
      simp only [List.length_nil, Nat.cast_zero, zero_mul, add_zero, zero_add] at hlt hge
      have hleave : bat.latency.samples + blk.2 ≥ bat.latency.measure_skip_samples := by
        rw [hf]; omega
      simp only [handleinput_seq, handleinput_skip_lead env bat blk.1 blk.2 hf hc hs hskip,
        if_pos hleave, Option.some_bind]
    | cons blk2 rest2 =>
      have hlen : ((blk2 :: rest2).length : Int) = (rest2.length : Int) + 1 := by
        simp
      have hr2 : (0 : Int) ≤ (rest2.length : Int) * (bat.period_size : Int) :=
        mul_nonneg (Int.natCast_nonneg _) hp
      have e : ((rest2.length : Int) + 1) * (bat.period_size : Int) =
          (rest2.length : Int) * (bat.period_size : Int) + (bat.period_size : Int) := by
        ring
      have hstay : ¬ bat.latency.samples + blk.2 ≥ bat.latency.measure_skip_samples := by
        rw [hf]
        rw [hlen] at hlt
        omega
      simp only [handleinput_seq, handleinput_skip_lead env bat blk.1 blk.2 hf hc hs hskip,
        if_neg hstay, Option.some_bind]
      refine (ih _ ?_ ?_ ?_ ?_ (by simp) ?_ ?_).trans rfl
      · exact hs
      · exact hc
      · exact hskip
      · exact fun b hb => hall b (List.mem_cons_of_mem _ hb)
      · simp only []
        rw [hf]
        have e2 : (((blk2 :: rest2).length : Int) - 1) * (bat.period_size : Int) =
            ((blk2 :: rest2).length : Int) * (bat.period_size : Int) -
              (bat.period_size : Int) := by ring
        omega
      · simp only []
        rw [hf]
        omega

theorem measure_blocks_calibrate (env : Env) (blocks : List (List Int × Int)) :
    ∀ (bat : Bat), bat.latency.state = LATENCY_STATE_MEASURE_FOR_1_SECOND →
      bat.channels = 1 →
      (∀ blk ∈ blocks, blk.2 = (bat.period_size : Int)) →
      1 ≤ blocks.length →
      (blocks.length = 1 ∨
        bat.latency.samples + ((blocks.length : Int) - 1) * (bat.period_size : Int) <
          bat.rate - bat.latency.measure_skip_samples) →
      bat.latency.samples + (blocks.length : Int) * (bat.period_size : Int) ≥
        bat.rate - bat.latency.measure_skip_samples →
      handleinput_seq env bat blocks =
        some (calibrated env bat (float_window_sum bat bat.latency.sum blocks)
          (bat.latency.samples + (blocks.length : Int) * (bat.period_size : Int))) := by
  induction blocks with
  | nil =>
    intro bat _ _ _ h1 _ _
    simp at h1
  | cons blk rest ih =>
    intro bat hs hc hall _ hlt hge
    have hf : blk.2 = (bat.period_size : Int) := hall blk (List.mem_cons_self _ _)
    have hp : (0 : Int) ≤ (bat.period_size : Int) := Int.natCast_nonneg _
    cases rest with
    | nil =>
      simp only [List.length_cons, List.length_nil, Nat.cast_add, Nat.cast_one,
        Nat.cast_zero, zero_add, one_mul] at hge ⊢
      have hcal : calibrates bat blk.2 := ⟨hf, hc, Or.inl ⟨hs, by rw [hf]; exact hge⟩⟩
      simp only [handleinput_seq]
      rw [handleinput_calibrated env bat blk.1 blk.2 hcal]
      simp only [Option.some_bind, calibration_input, if_pos hs, float_window_sum,
        List.foldl_cons, List.foldl_nil, hf]
    | cons blk2 rest2 =>
      have hlen : ((blk2 :: rest2).length : Int) = (rest2.length : Int) + 1 := by
        simp
      have hr2 : (0 : Int) ≤ (rest2.length : Int) * (bat.period_size : Int) :=
        mul_nonneg (Int.natCast_nonneg _) hp
      have e : ((rest2.length : Int) + 1) * (bat.period_size : Int) =
          (rest2.length : Int) * (bat.period_size : Int) + (bat.period_size : Int) := by
        ring
      have hlt2 : bat.latency.samples +
          (((blk :: blk2 :: rest2).length : Int) - 1) * (bat.period_size : Int) <
            bat.rate - bat.latency.measure_skip_samples := by
        rcases hlt with h1 | h1
        · simp at h1
        · exact h1
      simp only [List.length_cons, Nat.cast_add, Nat.cast_one, add_mul, one_mul,
        add_sub_cancel_right] at hlt2 hge
      have hstay : ¬ bat.latency.samples + blk.2 ≥
          bat.rate - bat.latency.measure_skip_samples := by
        rw [hf]
        linarith
      simp only [handleinput_seq, handleinput_measure_continue env bat blk.1 blk.2 hf hc hs
        hstay, Option.some_bind]
      refine (ih _ ?_ ?_ ?_ (by simp) ?_ ?_).trans ?_
      · exact hs
      · exact hc
      · exact fun b hb => hall b (List.mem_cons_of_mem _ hb)
      · right
        simp only []
        rw [hf, hlen]
        linarith
      · simp only []
        rw [hf, hlen]
        linarith
      · simp only [calibrated, float_window_sum, List.foldl_cons, List.length_cons,
          Nat.cast_add, Nat.cast_one, Option.some.injEq, hf]
        have ea : bat.latency.samples + (bat.period_size : Int) +
            ((rest2.length : Int) + 1) * (bat.period_size : Int) =
            bat.latency.samples +
              ((rest2.length : Int) + 1 + 1) * (bat.period_size : Int) := by ring
        rw [ea]
        rfl

theorem fallthrough_blocks_calibrate (env : Env) (blocks : List (List Int × Int))
    (bat : Bat) (hs : bat.latency.state = LATENCY_STATE_MEASURE_FOR_1_SECOND_SKIP_LEAD)
    (hc : bat.channels = 1) (hskip : ¬ bat.latency.measure_skip_samples > 0)
    (hall : ∀ blk ∈ blocks, blk.2 = (bat.period_size : Int))
    (hlen1 : 1 ≤ blocks.length)
    (hlt : blocks.length = 1 ∨
      ((blocks.length : Int) - 1) * (bat.period_size : Int) <
        bat.rate - bat.latency.measure_skip_samples)
    (hge : (blocks.length : Int) * (bat.period_size : Int) ≥
      bat.rate - bat.latency.measure_skip_samples) :
    handleinput_seq env bat blocks =
      some (calibrated env bat (float_window_sum bat bat.latency.sum blocks)
        ((blocks.length : Int) * (bat.period_size : Int))) := by
  have hp : (0 : Int) ≤ (bat.period_size : Int) := Int.natCast_nonneg _
  cases blocks with
  | nil => simp at hlen1
  | cons blk rest =>
    have hf : blk.2 = (bat.period_size : Int) := hall blk (List.mem_cons_self _ _)
    cases rest with
    | nil =>
      simp only [List.length_cons, List.length_nil, Nat.cast_add, Nat.cast_one,
        Nat.cast_zero, zero_add, one_mul] at hge ⊢
      have hcal : calibrates bat blk.2 :=
        ⟨hf, hc, Or.inr ⟨hs, hskip, by rw [hf]; omega⟩⟩
      have hnm : ¬ bat.latency.state = LATENCY_STATE_MEASURE_FOR_1_SECOND := by
        rw [hs]; simp
      simp only [handleinput_seq]
      rw [handleinput_calibrated env bat blk.1 blk.2 hcal]
      simp only [Option.some_bind, calibration_input, if_neg hnm, float_window_sum,
        List.foldl_cons, List.foldl_nil, hf, zero_add]
    | cons blk2 rest2 =>
      have hlen : ((blk2 :: rest2).length : Int) = (rest2.length : Int) + 1 := by
        simp
      have hr2 : (0 : Int) ≤ (rest2.length : Int) * (bat.period_size : Int) :=
        mul_nonneg (Int.natCast_nonneg _) hp
      have e : ((rest2.length : Int) + 1) * (bat.period_size : Int) =
          (rest2.length : Int) * (bat.period_size : Int) + (bat.period_size : Int) := by
        ring
      have hlt2 : (((blk :: blk2 :: rest2).length : Int) - 1) * (bat.period_size : Int) <
            bat.rate - bat.latency.measure_skip_samples := by
        rcases hlt with h1 | h1
        · simp at h1
        · exact h1
      simp only [List.length_cons, Nat.cast_add, Nat.cast_one, add_mul, one_mul,
        add_sub_cancel_right] at hlt2 hge
      have hstay : ¬ 0 + blk.2 ≥ bat.rate - bat.latency.measure_skip_samples := by
        rw [hf]
        linarith
      simp only [handleinput_seq,
        handleinput_skip_lead_fallthrough env bat blk.1 blk.2 hf hc hs hskip hstay,
        Option.some_bind]
      refine (measure_blocks_calibrate env (blk2 :: rest2) _ ?_ ?_ ?_ (by simp) ?_ ?_).trans ?_
      · rfl
      · exact hc
      · exact fun b hb => hall b (List.mem_cons_of_mem _ hb)
      · right
        simp only []
        rw [hf, hlen]
        linarith
      · simp only []
        rw [hf, hlen]
        linarith
      · simp only [calibrated, float_window_sum, List.foldl_cons, List.length_cons,
          Nat.cast_add, Nat.cast_one, Option.some.injEq, hf]
        have ea : 0 + (bat.period_size : Int) +
            ((rest2.length : Int) + 1) * (bat.period_size : Int) =
            ((rest2.length : Int) + 1 + 1) * (bat.period_size : Int) := by ring
        rw [ea]
        rfl

/-- C18: a `handleinput` call that moves the state into WAITING leaves
`samples == 0`.  From there, with `k` the smallest count such that
`k * period_size > 3 * rate`, fewer than `k` blocks leave the engine in WAITING
with `samples` grown by `period_size` per block and nothing else changed, and
the `k`-th block sets the state to SKIP_LEAD with `samples == 0` and
`sum == 0`.  Measurement and calibration are then repeated: the `j` blocks of
the skip window and the `m` blocks of the measurement window that follow end
in PLAY_AND_LISTEN with the threshold computed from the running sum of these
`m` blocks; and the state PLAY_AND_LISTEN is only ever entered by such a call,
which completes a measurement window and recomputes the threshold. -/
theorem waiting_phase (env : Env) (bat : Bat) (k j m : Nat)
    (hstate : bat.latency.state = LATENCY_STATE_WAITING)
    (hsamples : bat.latency.samples = 0)
    (hch : bat.channels = 1)
    (hk1 : 1 ≤ k)
    (hk : (k : Int) * (bat.period_size : Int) > 3 * bat.rate)
    (hmin : ((k : Int) - 1) * (bat.period_size : Int) ≤ 3 * bat.rate)
    (hj0 : ¬ bat.latency.measure_skip_samples > 0 → j = 0)
    (hj1 : bat.latency.measure_skip_samples > 0 →
      1 ≤ j ∧ ((j : Int) - 1) * (bat.period_size : Int) < bat.latency.measure_skip_samples ∧
        bat.latency.measure_skip_samples ≤ (j : Int) * (bat.period_size : Int))
    (hm1 : 1 ≤ m)
    (hm : m = 1 ∨ ((m : Int) - 1) * (bat.period_size : Int) <
      bat.rate - bat.latency.measure_skip_samples)
    (hm2 : bat.rate - bat.latency.measure_skip_samples ≤
      (m : Int) * (bat.period_size : Int)) :
    (∀ blocks : List (List Int × Int), blocks.length < k →
      (∀ blk ∈ blocks, blk.2 = (bat.period_size : Int)) →
      handleinput_seq env bat blocks =
        some { bat with latency :=
          { bat.latency with
            samples := (blocks.length : Int) * (bat.period_size : Int) } }) ∧
    (∀ blocks : List (List Int × Int), blocks.length = k →
      (∀ blk ∈ blocks, blk.2 = (bat.period_size : Int)) →
      handleinput_seq env bat blocks =
        some { bat with latency :=
          { bat.latency with
            samples := 0
            sum := 0
            state := LATENCY_STATE_MEASURE_FOR_1_SECOND_SKIP_LEAD } }) ∧
    (∀ (b : Bat) (buffer : List Int) (frames : Int) (r : Bat × List Int × Int),
      handleinput env b buffer frames = some r →
      b.latency.state ≠ LATENCY_STATE_WAITING →
      r.1.latency.state = LATENCY_STATE_WAITING →
      b.latency.state = LATENCY_STATE_PLAY_AND_LISTEN ∧ r.1.latency.samples = 0) ∧
    (∀ (b : Bat) (buffer : List Int) (frames : Int) (r : Bat × List Int × Int),
      handleinput env b buffer frames = some r →
      b.latency.state ≠ LATENCY_STATE_PLAY_AND_LISTEN →
      r.1.latency.state = LATENCY_STATE_PLAY_AND_LISTEN →
      calibrates b frames ∧
      r.1.latency.threshold =
        threshold_of env (calibration_input b buffer frames).1
          (calibration_input b buffer frames).2) ∧
    (∀ blocksW blocksS blocksM : List (List Int × Int),
      blocksW.length = k → blocksS.length = j → blocksM.length = m →
      (∀ blk ∈ blocksW, blk.2 = (bat.period_size : Int)) →
      (∀ blk ∈ blocksS, blk.2 = (bat.period_size : Int)) →
      (∀ blk ∈ blocksM, blk.2 = (bat.period_size : Int)) →
      handleinput_seq env bat (blocksW ++ blocksS ++ blocksM) =
        some (calibrated env bat (float_window_sum bat 0 blocksM)
          ((m : Int) * (bat.period_size : Int)))) := by
  have hp : (0 : Int) ≤ (bat.period_size : Int) := Int.natCast_nonneg _
  have hleave : ∀ blocks : List (List Int × Int), blocks.length = k →
      (∀ blk ∈ blocks, blk.2 = (bat.period_size : Int)) →
      handleinput_seq env bat blocks =
        some { bat with latency :=
          { bat.latency with
            samples := 0
            sum := 0
            state := LATENCY_STATE_MEASURE_FOR_1_SECOND_SKIP_LEAD } } := by
    intro blocks hlen hall
    apply waiting_blocks_leave env blocks bat hstate hch hall (by omega)
    · rw [hsamples, zero_add, hlen]; exact hmin
    · rw [hsamples, zero_add, hlen]; exact hk
  refine ⟨?_, hleave, ?_, ?_, ?_⟩
  · intro blocks hlen hall
    have hle : bat.latency.samples + (blocks.length : Int) * (bat.period_size : Int) ≤
        3 * bat.rate := by
      rw [hsamples, zero_add]
      have h1 : (blocks.length : Int) ≤ (k : Int) - 1 := by omega
      exact le_trans (mul_le_mul_of_nonneg_right h1 hp) hmin
    rw [waiting_blocks_stay env blocks bat hstate hch hall hle, hsamples, zero_add]
  · intro b buffer frames r hr hnw hw
    obtain ⟨hf, hc⟩ := handleinput_accepts env b buffer frames r hr
    by_cases hpl : b.latency.state = LATENCY_STATE_PLAY_AND_LISTEN
    · rw [handleinput_listening env b buffer frames ⟨hf, hc, hpl⟩] at hr
      simp only [Option.some.injEq] at hr
      rw [← hr] at hw ⊢
      exact ⟨hpl, play_and_listen_waiting_samples env b buffer frames hw⟩
    · exfalso
      by_cases hcal : calibrates b frames
      · rw [handleinput_of_calibrates env b buffer frames hcal] at hr
        simp only [Option.some.injEq] at hr
        rw [← hr] at hw
        simp at hw
      · cases hs : b.latency.state with
        | LATENCY_STATE_MEASURE_FOR_1_SECOND_SKIP_LEAD =>
          by_cases hskip : b.latency.measure_skip_samples > 0
          · rw [handleinput_skip_lead env b buffer frames hf hc hs hskip] at hr
            simp only [Option.some.injEq] at hr
            rw [← hr] at hw
            split_ifs at hw <;> simp [hs] at hw
          · have hlt : ¬ 0 + frames ≥ b.rate - b.latency.measure_skip_samples :=
              fun hge => hcal ⟨hf, hc, Or.inr ⟨hs, hskip, hge⟩⟩
            rw [handleinput_skip_lead_fallthrough env b buffer frames hf hc hs hskip hlt] at hr
            simp only [Option.some.injEq] at hr
            rw [← hr] at hw
            simp at hw
        | LATENCY_STATE_MEASURE_FOR_1_SECOND =>
          have hlt : ¬ b.latency.samples + frames ≥ b.rate - b.latency.measure_skip_samples :=
            fun hge => hcal ⟨hf, hc, Or.inl ⟨hs, hge⟩⟩
          rw [handleinput_measure_continue env b buffer frames hf hc hs hlt] at hr
          simp only [Option.some.injEq] at hr
          rw [← hr] at hw
          simp [hs] at hw
        | LATENCY_STATE_PLAY_AND_LISTEN => exact hpl hs
        | LATENCY_STATE_WAITING => exact hnw hs
        | LATENCY_STATE_COMPLETE_SUCCESS =>
          have hsame := (handleinput_not_listening env b buffer frames r hpl hr).2.2.2.2.2.2.2.2.2.1
            (Or.inl hs)
          rw [hsame, hs] at hw
          cases hw
        | LATENCY_STATE_COMPLETE_FAILURE =>
          have hsame := (handleinput_not_listening env b buffer frames r hpl hr).2.2.2.2.2.2.2.2.2.1
            (Or.inr hs)
          rw [hsame, hs] at hw
          cases hw
  · intro b buffer frames r hr hnp hp2
    have hcal : calibrates b frames := by
      by_contra hn
      exact (handleinput_threshold_of_not_calibrates env b buffer frames r hr hn).2.1 hnp hp2
    refine ⟨hcal, ?_⟩
    rw [handleinput_of_calibrates env b buffer frames hcal] at hr
    simp only [Option.some.injEq] at hr
    rw [← hr]
  · intro blocksW blocksS blocksM hW hS hM hallW hallS hallM
    rw [List.append_assoc, handleinput_seq_append, hleave blocksW hW hallW,
      Option.some_bind, handleinput_seq_append]
    by_cases hskip : bat.latency.measure_skip_samples > 0
    · obtain ⟨hj2, hj3, hj4⟩ := hj1 hskip
      have h2 := skip_blocks_leave env blocksS
        { bat with latency :=
          { bat.latency with
            samples := 0
            sum := 0
            state := LATENCY_STATE_MEASURE_FOR_1_SECOND_SKIP_LEAD } }
        rfl hch hskip hallS (by omega)
        (by simp only [zero_add, hS]; exact hj3) (by simp only [zero_add, hS]; exact hj4)
      rw [h2, Option.some_bind]
      refine (measure_blocks_calibrate env blocksM _ ?_ ?_ ?_ ?_ ?_ ?_).trans ?_
      · rfl
      · exact hch
      · exact hallM
      · omega
      · rcases hm with h1 | h1
        · left; omega
        · right; simp only [zero_add, hM]; exact h1
      · simp only [zero_add, hM]; exact hm2
      · simp only [zero_add, hM]
        rfl
    · have hj := hj0 hskip
      have hnil : blocksS = [] := List.length_eq_zero.mp (by omega)
      rw [hnil]
      simp only [handleinput_seq, Option.some_bind]
      refine (fallthrough_blocks_calibrate env blocksM _ ?_ ?_ ?_ ?_ ?_ ?_ ?_).trans ?_
      · rfl
      · exact hch
      · exact hskip
      · exact hallM
      · omega
      · rcases hm with h1 | h1
        · left; omega
        · right; simp only [hM]; exact h1
      · simp only [hM]; exact hm2
      · simp only [hM]
        rfl

theorem waiting_phase_witness :
    ∃ b, run env_libm (roundtrip_latency_init env_libm bat_ten)
        [Call.input [0, 0] 2, Call.input [0, 0] 2, Call.input [0, 0] 2, Call.input [0, 0] 2,
         Call.input [0, 0] 2, Call.input [5, 5] 2] = some b ∧
      b.latency.state = LATENCY_STATE_WAITING ∧ b.latency.samples = 0 ∧
      b.rate = 10 ∧ b.period_size = 2 ∧ b.latency.measure_skip_samples = 2 ∧
      handleinput_seq env_libm b
          (List.replicate 16 ([0, 0], 2) ++ List.replicate 1 ([0, 0], 2) ++
            List.replicate 4 ([7, -7], 2)) =
        some (calibrated env_libm b
          (float_window_sum b 0 (List.replicate 4 ([7, -7], 2)))
          (((4 : Nat) : Int) * (b.period_size : Int))) ∧
      ((run env_libm (roundtrip_latency_init env_libm bat_ten)
        [Call.input [0, 0] 2, Call.input [0, 0] 2, Call.input [0, 0] 2, Call.input [0, 0] 2,
         Call.input [0, 0] 2, Call.input [5, 5] 2]).bind
        (fun b => handleinput_seq env_libm b
          (List.replicate 16 ([0, 0], 2) ++ List.replicate 1 ([0, 0], 2) ++
            List.replicate 4 ([7, -7], 2)))).map
        (fun b => (b.latency.state, b.latency.threshold, b.latency.samples, b.latency.sum)) =
        some (LATENCY_STATE_PLAY_AND_LISTEN, 44, 0, 0) := by
  have hrun : ∃ b ∈ run env_libm (roundtrip_latency_init env_libm bat_ten)
      [Call.input [0, 0] 2, Call.input [0, 0] 2, Call.input [0, 0] 2, Call.input [0, 0] 2,
       Call.input [0, 0] 2, Call.input [5, 5] 2],
      b.latency.state = LATENCY_STATE_WAITING ∧ b.latency.samples = 0 ∧ b.channels = 1 ∧
      b.rate = 10 ∧ b.period_size = 2 ∧ b.latency.measure_skip_samples = 2 := by decide!
  obtain ⟨b, hb, hstate, hsamples, hch, hrate, hperiod, hskip⟩ := hrun
  have hall : ∀ (n : Nat) (blk0 : List Int × Int), blk0.2 = 2 →
      ∀ blk ∈ List.replicate n blk0, blk.2 = (b.period_size : Int) := by
    intro n blk0 h0 blk hblk
    rw [List.eq_of_mem_replicate hblk, hperiod, h0]
    rfl
  have h := waiting_phase env_libm b 16 1 4 hstate hsamples hch (by decide)
    (by rw [hperiod, hrate]; decide) (by rw [hperiod, hrate]; decide)
    (by rw [hskip]; intro h; exact absurd (by decide) h)
    (by rw [hskip, hperiod]; intro _; decide)
    (by decide) (by right; rw [hskip, hperiod, hrate]; decide)
    (by rw [hskip, hperiod, hrate]; decide)
  exact ⟨b, hb, hstate, hsamples, hrate, hperiod, hskip,
    h.2.2.2.2 _ _ _ (by simp) (by simp) (by simp) (hall 16 _ rfl) (hall 1 _ rfl)
      (hall 4 _ rfl),
    by decide!⟩

/-! ## The ambient accumulator -/

theorem sumaudio_frames_range (buffer : List Int) (f : Nat) :
    ∀ (pos : Nat) (sum : ℚ),
      sumaudio_frames 1 buffer f pos sum =
        float_abs_sum sum ((List.range f).map (fun (i : Nat) => sample_at buffer (pos + i))) := by
  induction f with
  | zero => intro pos sum; simp [sumaudio_frames, float_abs_sum]
  | succ f ih =>
    intro pos sum
    simp only [sumaudio_frames, sumaudio_channels]
    rw [ih (pos + 1), List.range_succ_eq_map]
    simp only [List.map_cons, List.map_map, Nat.add_zero, float_abs_sum, List.foldl_cons]
    have hfun : ((fun (i : Nat) => sample_at buffer (pos + i)) ∘ Nat.succ) =
        (fun (i : Nat) => sample_at buffer (pos + 1 + i)) := by
      funext i
      simp only [Function.comp, Nat.succ_eq_add_one]
      congr 1
      omega
    rw [hfun]

theorem sumaudio_range (bat : Bat) (buffer : List Int) (frames : Int)
    (hch : bat.channels = 1) :
    sumaudio bat buffer frames =
      float_abs_sum 0 ((List.range frames.toNat).map (fun (i : Nat) => sample_at buffer i)) := by
  unfold sumaudio
  rw [hch]
  have h := sumaudio_frames_range buffer frames.toNat 0 0
  simp only [Nat.zero_add] at h
  simp only [Int.toNat_one, Int.cast_one]
  rw [h, to_float_one, div_one]
  exact float_abs_sum_is_float _ 0 to_float_zero

theorem block_abs_sum_nonneg (buffer : List Int) (frames : Int) :
    0 ≤ block_abs_sum buffer frames := by
  unfold block_abs_sum
  apply List.sum_nonneg
  intro x hx
  obtain ⟨y, _, hy⟩ := List.mem_map.mp hx
  rw [← hy]
  exact abs_nonneg _

/-- While the exact sum of a block stays within 24 bits `sumaudio` is exact. -/
theorem sumaudio_eq_block_abs_sum (bat : Bat) (buffer : List Int) (frames : Int)
    (hch : bat.channels = 1) (hle : block_abs_sum buffer frames ≤ 16777216) :
    sumaudio bat buffer frames = ((block_abs_sum buffer frames : Int) : ℚ) := by
  rw [sumaudio_range bat buffer frames hch]
  have h := float_abs_sum_exact
    ((List.range frames.toNat).map (fun (i : Nat) => sample_at buffer i)) 0 le_rfl
  simp only [List.map_map, zero_add, Int.cast_zero] at h
  unfold block_abs_sum at hle ⊢
  exact h hle

theorem play_and_listen_state_cases (env : Env) (bat : Bat) (buffer : List Int)
    (frames : Int) :
    (play_and_listen env bat buffer frames).1.latency.state = bat.latency.state ∨
    (play_and_listen env bat buffer frames).1.latency.state = LATENCY_STATE_WAITING ∨
    is_terminal (play_and_listen env bat buffer frames).1.latency.state := by
  unfold play_and_listen
  simp only []
  split_ifs <;> simp [is_terminal]

theorem window_sum_nonneg (w : List (List Int × Int)) : 0 ≤ window_sum w := by
  unfold window_sum
  apply List.sum_nonneg
  intro x hx
  obtain ⟨y, _, hy⟩ := List.mem_map.mp hx
  rw [← hy]
  exact_mod_cast block_abs_sum_nonneg y.1 y.2

theorem window_append (b : Bat) (w : List (List Int × Int)) (buffer : List Int)
    (frames : Int) (s : ℚ) :
    float_window_sum b s (w ++ [(buffer, frames)]) =
      to_float (float_window_sum b s w + sumaudio b buffer frames) ∧
    window_frames (w ++ [(buffer, frames)]) = window_frames w + frames := by
  simp [float_window_sum, window_frames]

/-- While the exact sum of a window stays within 24 bits the running sum of
the code is exact. -/
theorem float_window_sum_exact (b : Bat) (hch : b.channels = 1)
    (w : List (List Int × Int)) :
    ∀ s : Int, 0 ≤ s → (s : ℚ) + window_sum w ≤ 16777216 →
      float_window_sum b (s : ℚ) w = (s : ℚ) + window_sum w := by
  induction w with
  | nil => intro s _ _; simp [float_window_sum, window_sum]
  | cons blk rest ih =>
    intro s hs hle
    have hB := block_abs_sum_nonneg blk.1 blk.2
    have hR := window_sum_nonneg rest
    have hws : window_sum (blk :: rest) =
        ((block_abs_sum blk.1 blk.2 : Int) : ℚ) + window_sum rest := by
      simp [window_sum]
    rw [hws] at hle ⊢
    have hBq : (0 : ℚ) ≤ ((block_abs_sum blk.1 blk.2 : Int) : ℚ) := by exact_mod_cast hB
    have hsq : (0 : ℚ) ≤ (s : ℚ) := by exact_mod_cast hs
    have hB2 : block_abs_sum blk.1 blk.2 ≤ 16777216 := by
      have : ((block_abs_sum blk.1 blk.2 : Int) : ℚ) ≤ 16777216 := by linarith
      exact_mod_cast this
    have hsB : s + block_abs_sum blk.1 blk.2 ≤ 16777216 := by
      have : (s : ℚ) + ((block_abs_sum blk.1 blk.2 : Int) : ℚ) ≤ 16777216 := by linarith
      exact_mod_cast this
    have e1 := sumaudio_eq_block_abs_sum b blk.1 blk.2 hch hB2
    have e2 : to_float (((s + block_abs_sum blk.1 blk.2 : Int)) : ℚ) =
        ((s + block_abs_sum blk.1 blk.2 : Int) : ℚ) :=
      to_float_intCast _ (by rw [abs_of_nonneg (by omega)]; exact hsB)
    have h := ih (s + block_abs_sum blk.1 blk.2) (by omega) (by push_cast; linarith)
    simp only [float_window_sum, List.foldl_cons] at h ⊢
    rw [e1]
    have e3 : (s : ℚ) + ((block_abs_sum blk.1 blk.2 : Int) : ℚ) =
        ((s + block_abs_sum blk.1 blk.2 : Int) : ℚ) := by push_cast; ring
    rw [e3, e2, h]
    push_cast
    ring

theorem step_sum_invariant (env : Env) (b b1 : Bat) (c : Call) (w : List (List Int × Int))
    (hP : sum_invariant b w) (hs : step env b c = some b1) :
    sum_invariant b1 (window_update w b c) := by
  obtain ⟨h1, h2⟩ := hP
  cases c with
  | output obuffer bytes oframes =>
    simp only [step, Option.some.injEq] at hs
    obtain ⟨_, _, _, e4, e5, e6, _⟩ := handleoutput_latency env b obuffer bytes oframes
    rw [← hs]
    have hch := (handleoutput_latency env b obuffer bytes oframes).2.2.2.2.2.2.2.2.2.2.2.1
    unfold sum_invariant
    simp only [window_update]
    rw [e4, e5, e6, float_window_sum_congr _ b hch]
    exact ⟨h1, h2⟩
  | input buffer frames =>
    obtain ⟨r, hr, hb1⟩ := step_input_some env b b1 buffer frames hs
    obtain ⟨hf, hc⟩ := handleinput_accepts env b buffer frames r hr
    rw [← hb1]
    have hacc : frames = (b.period_size : Int) ∧ b.channels = 1 := ⟨hf, hc⟩
    have hb1c : r.1.channels = b.channels := by
      have := (step_config env b b1 (Call.input buffer frames) hs).2.1
      rw [← hb1] at this
      exact this
    unfold sum_invariant
    rw [float_window_sum_congr r.1 b hb1c]
    simp only [window_update, if_pos hacc]
    by_cases hcal : calibrates b frames
    · rw [handleinput_of_calibrates env b buffer frames hcal] at hr
      simp only [Option.some.injEq] at hr
      rw [← hr]
      simp
    · cases hs : b.latency.state with
      | LATENCY_STATE_MEASURE_FOR_1_SECOND_SKIP_LEAD =>
        have h0 : b.latency.sum = 0 := h1 (by rw [hs]; simp)
        by_cases hskip : b.latency.measure_skip_samples > 0
        · rw [handleinput_skip_lead env b buffer frames hf hc hs hskip] at hr
          simp only [Option.some.injEq] at hr
          rw [← hr]
          simp only [reduceCtorEq, if_false, hskip, not_true_eq_false, and_false]
          split_ifs
          · simp [h0, float_window_sum, window_frames]
          · simp [hs, h0]
        · have hlt : ¬ 0 + frames ≥ b.rate - b.latency.measure_skip_samples :=
            fun hge => hcal ⟨hf, hc, Or.inr ⟨hs, hskip, hge⟩⟩
          rw [handleinput_skip_lead_fallthrough env b buffer frames hf hc hs hskip hlt] at hr
          simp only [Option.some.injEq] at hr
          rw [← hr]
          simp only [reduceCtorEq, if_false, hskip, not_false_eq_true, and_self, if_true]
          simp [h0, float_window_sum, window_frames]
      | LATENCY_STATE_MEASURE_FOR_1_SECOND =>
        obtain ⟨e1, e2⟩ := h2 hs
        have hlt : ¬ b.latency.samples + frames ≥ b.rate - b.latency.measure_skip_samples :=
          fun hge => hcal ⟨hf, hc, Or.inl ⟨hs, hge⟩⟩
        rw [handleinput_measure_continue env b buffer frames hf hc hs hlt] at hr
        simp only [Option.some.injEq] at hr
        rw [← hr]
        obtain ⟨a1, a2⟩ := window_append b w buffer frames 0
        simp only [if_true, hs, a1, a2, e1, e2]
        simp
      | LATENCY_STATE_PLAY_AND_LISTEN =>
        have h0 : b.latency.sum = 0 := h1 (by rw [hs]; simp)
        rw [handleinput_listening env b buffer frames ⟨hf, hc, hs⟩] at hr
        simp only [Option.some.injEq] at hr
        rw [← hr]
        have hsum := (play_and_listen_frame env b buffer frames).2.1
        have hst := play_and_listen_state_cases env b buffer frames
        have hne : (play_and_listen env b buffer frames).1.latency.state ≠
            LATENCY_STATE_MEASURE_FOR_1_SECOND := by
          rcases hst with h | h | h
          · rw [h, hs]; simp
          · rw [h]; simp
          · intro hh; rw [hh] at h; simp [is_terminal] at h
        exact ⟨fun _ => by rw [hsum, h0], fun hh => absurd hh hne⟩
      | LATENCY_STATE_WAITING =>
        have h0 : b.latency.sum = 0 := h1 (by rw [hs]; simp)
        rw [handleinput_waiting env b buffer frames hf hc hs] at hr
        simp only [Option.some.injEq] at hr
        rw [← hr]
        split_ifs <;> simp [hs, h0]
      | LATENCY_STATE_COMPLETE_SUCCESS =>
        have h0 : b.latency.sum = 0 := h1 (by rw [hs]; simp)
        have hpl : b.latency.state ≠ LATENCY_STATE_PLAY_AND_LISTEN := by rw [hs]; simp
        have hsame := (handleinput_not_listening env b buffer frames r hpl hr).2.2.2.2.2.2.2.2.2.1
          (Or.inl hs)
        rw [hsame, hs]
        simp [h0]
      | LATENCY_STATE_COMPLETE_FAILURE =>
        have h0 : b.latency.sum = 0 := h1 (by rw [hs]; simp)
        have hpl : b.latency.state ≠ LATENCY_STATE_PLAY_AND_LISTEN := by rw [hs]; simp
        have hsame := (handleinput_not_listening env b buffer frames r hpl hr).2.2.2.2.2.2.2.2.2.1
          (Or.inr hs)
        rw [hsame, hs]
        simp [h0]

/-- C19 (as the code has it): in every context reached from
`roundtrip_latency_init` the ambient accumulator `sum` is 0 whenever the state
is not MEASURE, and in MEASURE `samples` is the frame count and `sum` the
single precision running sum of the block sums of the blocks received since
MEASURE was entered (both 0 on entry), with no contribution of an earlier
trial although `sum` is not cleared in the skip-lead path; the running sum is
the exact sum of the absolute sample values as long as that does not exceed
`2^24`.  Hence the amplitude sum and the sample count read by every
calibration are the running sum and the frame count of the blocks of its
measurement window. -/
theorem reachable_sum (env : Env) (bat0 b : Bat) (calls : List Call)
    (hrun : run env (roundtrip_latency_init env bat0) calls = some b) :
    (b.latency.state ≠ LATENCY_STATE_MEASURE_FOR_1_SECOND → b.latency.sum = 0) ∧
    (b.latency.state = LATENCY_STATE_MEASURE_FOR_1_SECOND →
      b.latency.sum =
        float_window_sum b 0 (measure_window env (roundtrip_latency_init env bat0) calls) ∧
      b.latency.samples =
        window_frames (measure_window env (roundtrip_latency_init env bat0) calls) ∧
      (b.channels = 1 →
        window_sum (measure_window env (roundtrip_latency_init env bat0) calls) ≤ 16777216 →
        b.latency.sum =
          window_sum (measure_window env (roundtrip_latency_init env bat0) calls))) ∧
    (∀ (buffer : List Int) (frames : Int) (r : Bat × List Int × Int),
      handleinput env b buffer frames = some r →
      b.latency.state ≠ LATENCY_STATE_MEASURE_FOR_1_SECOND →
      r.1.latency.state = LATENCY_STATE_MEASURE_FOR_1_SECOND →
      (b.latency.measure_skip_samples > 0 →
        r.1.latency.sum = 0 ∧ r.1.latency.samples = 0) ∧
      (¬ b.latency.measure_skip_samples > 0 →
        r.1.latency.sum = float_window_sum b 0 [(buffer, frames)] ∧
        r.1.latency.samples = frames)) ∧
    (∀ (buffer : List Int) (frames : Int) (r : Bat × List Int × Int),
      calibrates b frames → handleinput env b buffer frames = some r →
      calibration_input b buffer frames =
        (float_window_sum b 0 (window_update
            (measure_window env (roundtrip_latency_init env bat0) calls) b
            (Call.input buffer frames)),
          window_frames (window_update
            (measure_window env (roundtrip_latency_init env bat0) calls) b
            (Call.input buffer frames))) ∧
      r.1.latency.threshold =
        threshold_of env
          (float_window_sum b 0 (window_update
            (measure_window env (roundtrip_latency_init env bat0) calls) b
            (Call.input buffer frames)))
          (window_frames (window_update
            (measure_window env (roundtrip_latency_init env bat0) calls) b
            (Call.input buffer frames))) ∧
      (window_sum (window_update
            (measure_window env (roundtrip_latency_init env bat0) calls) b
            (Call.input buffer frames)) ≤ 16777216 →
        (calibration_input b buffer frames).1 =
          window_sum (window_update
            (measure_window env (roundtrip_latency_init env bat0) calls) b
            (Call.input buffer frames)))) := by
  have h := run_fold_induction env window_update sum_invariant
    (fun b b1 c w hP hs => step_sum_invariant env b b1 c w hP hs) calls
    (roundtrip_latency_init env bat0) b []
    ⟨by simp [roundtrip_latency_init], by simp [roundtrip_latency_init]⟩ hrun
  obtain ⟨h1, h2⟩ := h
  have hexact : ∀ w : List (List Int × Int), b.channels = 1 → window_sum w ≤ 16777216 →
      float_window_sum b 0 w = window_sum w := by
    intro w hch hle
    have := float_window_sum_exact b hch w 0 le_rfl (by simpa using hle)
    simpa using this
  refine ⟨h1, ?_, ?_, ?_⟩
  · intro hs
    obtain ⟨e1, e2⟩ := h2 hs
    refine ⟨e1, e2, fun hch hle => ?_⟩
    rw [e1]
    exact hexact _ hch hle
  · intro buffer frames r hr hnm hm
    obtain ⟨hf, hc⟩ := handleinput_accepts env b buffer frames r hr
    have h0 := h1 hnm
    have hcal : ¬ calibrates b frames := by
      intro hcal
      rw [handleinput_of_calibrates env b buffer frames hcal] at hr
      simp only [Option.some.injEq] at hr
      rw [← hr] at hm
      simp at hm
    cases hs : b.latency.state with
    | LATENCY_STATE_MEASURE_FOR_1_SECOND_SKIP_LEAD =>
      by_cases hskip : b.latency.measure_skip_samples > 0
      · rw [handleinput_skip_lead env b buffer frames hf hc hs hskip] at hr
        simp only [Option.some.injEq] at hr
        rw [← hr] at hm ⊢
        refine ⟨fun _ => ?_, fun hh => absurd hskip hh⟩
        split_ifs at hm ⊢ with hge
        · exact ⟨h0, rfl⟩
        · simp [hs] at hm
      · have hlt : ¬ 0 + frames ≥ b.rate - b.latency.measure_skip_samples :=
          fun hge => hcal ⟨hf, hc, Or.inr ⟨hs, hskip, hge⟩⟩
        rw [handleinput_skip_lead_fallthrough env b buffer frames hf hc hs hskip hlt] at hr
        simp only [Option.some.injEq] at hr
        rw [← hr]
        refine ⟨fun hh => absurd hh hskip, fun _ => ?_⟩
        simp [h0, float_window_sum]
    | LATENCY_STATE_MEASURE_FOR_1_SECOND => exact absurd hs hnm
    | LATENCY_STATE_PLAY_AND_LISTEN =>
      exfalso
      rw [handleinput_listening env b buffer frames ⟨hf, hc, hs⟩] at hr
      simp only [Option.some.injEq] at hr
      rw [← hr] at hm
      rcases play_and_listen_state_cases env b buffer frames with h | h | h
      · rw [h, hs] at hm; cases hm
      · rw [h] at hm; cases hm
      · rw [hm] at h; simp [is_terminal] at h
    | LATENCY_STATE_WAITING =>
      exfalso
      rw [handleinput_waiting env b buffer frames hf hc hs] at hr
      simp only [Option.some.injEq] at hr
      rw [← hr] at hm
      split_ifs at hm <;> simp [hs] at hm
    | LATENCY_STATE_COMPLETE_SUCCESS =>
      exfalso
      have hpl : b.latency.state ≠ LATENCY_STATE_PLAY_AND_LISTEN := by rw [hs]; simp
      have hsame := (handleinput_not_listening env b buffer frames r hpl hr).2.2.2.2.2.2.2.2.2.1
        (Or.inl hs)
      rw [hsame, hs] at hm
      cases hm
    | LATENCY_STATE_COMPLETE_FAILURE =>
      exfalso
      have hpl : b.latency.state ≠ LATENCY_STATE_PLAY_AND_LISTEN := by rw [hs]; simp
      have hsame := (handleinput_not_listening env b buffer frames r hpl hr).2.2.2.2.2.2.2.2.2.1
        (Or.inr hs)
      rw [hsame, hs] at hm
      cases hm
  · intro buffer frames r hcal hr
    have hci : calibration_input b buffer frames =
        (float_window_sum b 0 (window_update
            (measure_window env (roundtrip_latency_init env bat0) calls) b
            (Call.input buffer frames)),
          window_frames (window_update
            (measure_window env (roundtrip_latency_init env bat0) calls) b
            (Call.input buffer frames))) := by
      obtain ⟨hf, hc, hcase⟩ := hcal
      have hacc : frames = (b.period_size : Int) ∧ b.channels = 1 := ⟨hf, hc⟩
      unfold measure_window
      simp only [window_update, if_pos hacc, calibration_input]
      rcases hcase with ⟨hs, _⟩ | ⟨hs, hskip, _⟩
      · obtain ⟨e1, e2⟩ := h2 hs
        obtain ⟨a1, a2⟩ := window_append b
          (fold_calls env window_update [] (roundtrip_latency_init env bat0) calls)
          buffer frames 0
        simp only [if_pos hs, a1, a2, e1, e2]
      · have h0 : b.latency.sum = 0 := h1 (by rw [hs]; simp)
        have hnm : ¬ b.latency.state = LATENCY_STATE_MEASURE_FOR_1_SECOND := by rw [hs]; simp
        have hsk : b.latency.state = LATENCY_STATE_MEASURE_FOR_1_SECOND_SKIP_LEAD ∧
            ¬ b.latency.measure_skip_samples > 0 := ⟨hs, hskip⟩
        simp only [if_neg hnm, if_pos hsk, h0]
        simp [float_window_sum, window_frames]
    refine ⟨hci, ?_, ?_⟩
    · rw [handleinput_of_calibrates env b buffer frames hcal] at hr
      simp only [Option.some.injEq] at hr
      rw [← hr]
      simp only []
      rw [hci]
    · intro hle
      rw [hci]
      exact hexact _ hcal.2.1 hle

/-- C19 (as stated) fails: at 8000 Hz with periods of 1024 frames two silent
blocks pass the skip window and a first block of the sample 20001 is received
in MEASURE; `sum` is then the single precision value 20480840, while the sum
of the absolute sample values of the blocks received since MEASURE was entered
is 20481024. -/
theorem ambient_sum_rounding_counterexample :
    ∃ b, run env0 (roundtrip_latency_init env0 bat_8k)
        [Call.input (List.replicate 1024 0) 1024, Call.input (List.replicate 1024 0) 1024,
         Call.input (List.replicate 1024 20001) 1024] = some b ∧
      b.latency.state = LATENCY_STATE_MEASURE_FOR_1_SECOND ∧
      b.latency.samples = 1024 ∧
      measure_window env0 (roundtrip_latency_init env0 bat_8k)
        [Call.input (List.replicate 1024 0) 1024, Call.input (List.replicate 1024 0) 1024,
         Call.input (List.replicate 1024 20001) 1024] = [(List.replicate 1024 20001, 1024)] ∧
      b.latency.sum = 20480840 ∧
      window_sum [(List.replicate 1024 20001, 1024)] = 20481024 := by
  have hs1 : step env0 (roundtrip_latency_init env0 bat_8k)
      (Call.input (List.replicate 1024 0) 1024) =
      some { roundtrip_latency_init env0 bat_8k with latency :=
        { (roundtrip_latency_init env0 bat_8k).latency with samples := 1024 } } := by
    simp only [step]
    rw [handleinput_skip_lead env0 (roundtrip_latency_init env0 bat_8k) (List.replicate 1024 0) 1024 rfl rfl rfl
      (by decide), if_neg (by decide)]
    rfl
  have hs2 : step env0 { roundtrip_latency_init env0 bat_8k with latency :=
        { (roundtrip_latency_init env0 bat_8k).latency with samples := 1024 } }
      (Call.input (List.replicate 1024 0) 1024) =
      some { roundtrip_latency_init env0 bat_8k with latency :=
        { (roundtrip_latency_init env0 bat_8k).latency with
          samples := 0, state := LATENCY_STATE_MEASURE_FOR_1_SECOND } } := by
    simp only [step]
    rw [handleinput_skip_lead env0 { roundtrip_latency_init env0 bat_8k with latency :=
        { (roundtrip_latency_init env0 bat_8k).latency with samples := 1024 } } (List.replicate 1024 0) 1024 rfl rfl rfl
      (by decide), if_pos (by decide)]
    rfl
  have hsa : sumaudio { roundtrip_latency_init env0 bat_8k with latency :=
        { (roundtrip_latency_init env0 bat_8k).latency with
          samples := 0, state := LATENCY_STATE_MEASURE_FOR_1_SECOND } }
      (List.replicate 1024 20001) 1024 = 20480840 := by
    rw [sumaudio_single _ _ 1024 rfl (by rw [List.length_replicate]; rfl),
      float_abs_sum_loud_block]
  have hs3 : step env0 { roundtrip_latency_init env0 bat_8k with latency :=
        { (roundtrip_latency_init env0 bat_8k).latency with
          samples := 0, state := LATENCY_STATE_MEASURE_FOR_1_SECOND } }
      (Call.input (List.replicate 1024 20001) 1024) =
      some { roundtrip_latency_init env0 bat_8k with latency :=
        { (roundtrip_latency_init env0 bat_8k).latency with
          sum := 20480840, samples := 1024, state := LATENCY_STATE_MEASURE_FOR_1_SECOND } } := by
    simp only [step]
    rw [handleinput_measure_continue env0 { roundtrip_latency_init env0 bat_8k with latency :=
        { (roundtrip_latency_init env0 bat_8k).latency with
          samples := 0, state := LATENCY_STATE_MEASURE_FOR_1_SECOND } } (List.replicate 1024 20001) 1024 rfl rfl rfl
      (by decide), hsa]
    have e : to_float ((0 : ℚ) + 20480840) = 20480840 := by decide!
    have e0 : (roundtrip_latency_init env0 bat_8k).latency.sum = 0 := rfl
    simp only [Option.map_some', Option.some.injEq, e0, e]
    rfl
  refine ⟨{ roundtrip_latency_init env0 bat_8k with latency :=
        { (roundtrip_latency_init env0 bat_8k).latency with
          sum := 20480840, samples := 1024, state := LATENCY_STATE_MEASURE_FOR_1_SECOND } },
    ?_, rfl, rfl, ?_, rfl, ?_⟩
  · simp only [run, hs1, hs2, hs3, Option.some_bind]
  · unfold measure_window
    rw [fold_calls_cons_some _ _ _ _ _ _ _ hs1, fold_calls_cons_some _ _ _ _ _ _ _ hs2,
      fold_calls_cons_some _ _ _ _ _ _ _ hs3]
    rfl
  · have hsum : block_abs_sum (List.replicate 1024 20001) 1024 = 20481024 := by
      unfold block_abs_sum
      have e : (List.range (1024 : Int).toNat).map
          (fun (i : Nat) => |sample_at (List.replicate 1024 (20001 : Int)) i|) =
          List.replicate 1024 20001 := by
        apply List.ext_getElem
        · rw [List.length_map, List.length_range, List.length_replicate]
          rfl
        · intro i h1 h2
          rw [List.length_replicate] at h2
          rw [List.getElem_map, List.getElem_range, List.getElem_replicate]
          unfold sample_at
          rw [List.getD_eq_getElem _ _ (by rw [List.length_replicate]; exact h2),
            List.getElem_replicate]
          rfl
      rw [e, List.sum_replicate]
      norm_num
    simp only [window_sum, List.map_cons, List.map_nil, List.sum_cons, List.sum_nil, hsum]
    norm_num

theorem reachable_sum_witness :
    ∃ b, run env_libm (roundtrip_latency_init env_libm bat_ten)
        [Call.input [0, 0] 2, Call.input [7, -7] 2, Call.input [7, 7] 2,
         Call.input [-7, 7] 2] = some b ∧
      b.latency.state = LATENCY_STATE_MEASURE_FOR_1_SECOND ∧
      measure_window env_libm (roundtrip_latency_init env_libm bat_ten)
        [Call.input [0, 0] 2, Call.input [7, -7] 2, Call.input [7, 7] 2,
         Call.input [-7, 7] 2] = [([7, -7], 2), ([7, 7], 2), ([-7, 7], 2)] ∧
      b.latency.sum = 42 ∧ b.latency.samples = 6 ∧
      b.latency.sum = window_sum (measure_window env_libm
        (roundtrip_latency_init env_libm bat_ten)
        [Call.input [0, 0] 2, Call.input [7, -7] 2, Call.input [7, 7] 2,
         Call.input [-7, 7] 2]) ∧
      calibrates b 2 ∧
      ∃ r, handleinput env_libm b [7, 7] 2 = some r ∧
        calibration_input b [7, 7] 2 = (56, 8) ∧
        r.1.latency.threshold = 44 ∧
        (calibration_input b [7, 7] 2).1 =
          window_sum (window_update (measure_window env_libm
            (roundtrip_latency_init env_libm bat_ten)
            [Call.input [0, 0] 2, Call.input [7, -7] 2, Call.input [7, 7] 2,
             Call.input [-7, 7] 2]) b (Call.input [7, 7] 2)) := by
  have hrun : ∃ b ∈ run env_libm (roundtrip_latency_init env_libm bat_ten)
      [Call.input [0, 0] 2, Call.input [7, -7] 2, Call.input [7, 7] 2,
       Call.input [-7, 7] 2],
      b.latency.state = LATENCY_STATE_MEASURE_FOR_1_SECOND ∧ b.channels = 1 ∧
      b.latency.sum = 42 ∧ b.latency.samples = 6 ∧ calibrates b 2 ∧
      window_sum (window_update (measure_window env_libm
            (roundtrip_latency_init env_libm bat_ten)
            [Call.input [0, 0] 2, Call.input [7, -7] 2, Call.input [7, 7] 2,
             Call.input [-7, 7] 2]) b (Call.input [7, 7] 2)) ≤ 16777216 ∧
      ∃ r ∈ handleinput env_libm b [7, 7] 2,
        calibration_input b [7, 7] 2 = (56, 8) ∧ r.1.latency.threshold = 44 := by decide!
  obtain ⟨b, hb, hst, hch, hsum, hsam, hcal, hle, r, hr, hci, hthr⟩ := hrun
  have h := reachable_sum env_libm bat_ten b _ hb
  exact ⟨b, hb, hst, by decide!, hsum, hsam, (h.2.1 hst).2.2 hch (by decide!), hcal,
    r, hr, hci, hthr, (h.2.2.2 [7, 7] 2 r hcal hr).2.2 hle⟩

/-! ## The wait ceiling -/

theorem play_and_listen_wait_samples (env : Env) (bat : Bat) (buffer : List Int)
    (frames : Int) :
    (play_and_listen env bat buffer frames).1.latency.wait_samples = bat.latency.wait_samples ∨
    (play_and_listen env bat buffer frames).1.latency.state = LATENCY_STATE_WAITING := by
  unfold play_and_listen
  simp only []
  split_ifs <;> simp

theorem step_wait_invariant (env : Env) (r0 : Int) (b b1 : Bat) (c : Call)
    (hP : b.rate = r0 ∧ (b.latency.state = LATENCY_STATE_PLAY_AND_LISTEN →
      b.latency.wait_samples = r0 * env.LATENCY_TEST_MAX))
    (hs : step env b c = some b1) :
    b1.rate = r0 ∧ (b1.latency.state = LATENCY_STATE_PLAY_AND_LISTEN →
      b1.latency.wait_samples = r0 * env.LATENCY_TEST_MAX) := by
  obtain ⟨hr0, hw⟩ := hP
  have hrate := (step_config env b b1 c hs).1
  refine ⟨hrate.trans hr0, ?_⟩
  cases c with
  | output obuffer bytes oframes =>
    simp only [step, Option.some.injEq] at hs
    obtain ⟨_, _, _, e1, _, _, _, e2, _⟩ := handleoutput_latency env b obuffer bytes oframes
    rw [← hs, e1, e2]
    exact hw
  | input buffer frames =>
    obtain ⟨r, hr, hb1⟩ := step_input_some env b b1 buffer frames hs
    obtain ⟨hf, hc⟩ := handleinput_accepts env b buffer frames r hr
    rw [← hb1]
    by_cases hcal : calibrates b frames
    · rw [handleinput_of_calibrates env b buffer frames hcal] at hr
      simp only [Option.some.injEq] at hr
      rw [← hr]
      intro _
      simp [hr0]
    · intro hp1
      have hp : b.latency.state = LATENCY_STATE_PLAY_AND_LISTEN := by
        by_contra hne
        exact (handleinput_threshold_of_not_calibrates env b buffer frames r hr hcal).2.1
          hne hp1
      rw [handleinput_listening env b buffer frames ⟨hf, hc, hp⟩] at hr
      simp only [Option.some.injEq] at hr
      rw [← hr] at hp1 ⊢
      rcases play_and_listen_wait_samples env b buffer frames with h | h
      · simp only []
        rw [h]
        exact hw hp
      · simp only [] at hp1
        rw [h] at hp1
        cases hp1

/-- C20: in every context reached from `roundtrip_latency_init` whose state is
PLAY_AND_LISTEN, `wait_samples` equals `rate * LATENCY_TEST_MAX` with the rate
the run started with, so a listening block is a miss exactly when it is not
above the threshold and the samples listened exceed that product; and
`play_and_listen` changes `wait_samples` only in calls that leave the state in
WAITING. -/
theorem reachable_wait_samples (env : Env) (bat0 b : Bat) (calls : List Call)
    (hrun : run env (roundtrip_latency_init env bat0) calls = some b) :
    b.rate = bat0.rate ∧
    (b.latency.state = LATENCY_STATE_PLAY_AND_LISTEN →
      b.latency.wait_samples = bat0.rate * env.LATENCY_TEST_MAX) ∧
    (∀ (buffer : List Int) (frames : Int), listens b frames →
      (is_miss b buffer frames ↔
        averageinput b buffer frames ≤ b.latency.threshold ∧
          b.latency.samples + frames > bat0.rate * env.LATENCY_TEST_MAX)) ∧
    (∀ (buffer : List Int) (frames : Int),
      (play_and_listen env b buffer frames).1.latency.wait_samples ≠ b.latency.wait_samples →
      (play_and_listen env b buffer frames).1.latency.state = LATENCY_STATE_WAITING) := by
  have h := run_induction env (fun _ _ => false)
    (fun (b : Bat) (_ : Nat) => b.rate = bat0.rate ∧
      (b.latency.state = LATENCY_STATE_PLAY_AND_LISTEN →
        b.latency.wait_samples = bat0.rate * env.LATENCY_TEST_MAX))
    (fun b b1 c _ hP hs => step_wait_invariant env bat0.rate b b1 c hP hs) calls
    (roundtrip_latency_init env bat0) b 0
    ⟨rfl, by simp [roundtrip_latency_init]⟩ hrun
  obtain ⟨h1, h2⟩ := h
  refine ⟨h1, h2, ?_, ?_⟩
  · intro buffer frames hl
    unfold is_miss
    rw [h2 hl.2.2]
  · intro buffer frames hne
    rcases play_and_listen_wait_samples env b buffer frames with h | h
    · exact absurd h hne
    · exact h

theorem reachable_wait_samples_witness :
    ∃ b, run env0 (roundtrip_latency_init env0 bat_slow) [Call.input [0, 0] 2] = some b ∧
      b.latency.state = LATENCY_STATE_PLAY_AND_LISTEN ∧
      b.latency.wait_samples = bat_slow.rate * env0.LATENCY_TEST_MAX := by
  have hrun : ∃ b, run env0 (roundtrip_latency_init env0 bat_slow) [Call.input [0, 0] 2] =
      some b ∧ b.latency.state = LATENCY_STATE_PLAY_AND_LISTEN :=
    ⟨_, rfl, rfl⟩
  obtain ⟨b, hb, hst⟩ := hrun
  exact ⟨b, hb, hst, (reachable_wait_samples env0 bat_slow b _ hb).2.1 hst⟩

/-! ## The consistency gate along a run -/

theorem play_and_listen_listening_samples (env : Env) (bat : Bat) (buffer : List Int)
    (frames : Int)
    (h : (play_and_listen env bat buffer frames).1.latency.state =
      LATENCY_STATE_PLAY_AND_LISTEN) :
    (play_and_listen env bat buffer frames).1.latency.samples ≤ bat.latency.wait_samples := by
  revert h
  unfold play_and_listen
  simp only []
  split_ifs with h1 h2 h3 h4 h5 h6 <;>
    simp [clear_samples_if_waiting_samples] <;> intro h <;> simp_all

theorem step_listen_samples (env : Env) (r0 : Int) (b b1 : Bat) (c : Call)
    (hmax : 0 ≤ r0 * env.LATENCY_TEST_MAX)
    (hw : b.latency.state = LATENCY_STATE_PLAY_AND_LISTEN →
      b.latency.wait_samples = r0 * env.LATENCY_TEST_MAX)
    (hsam : b.latency.state = LATENCY_STATE_PLAY_AND_LISTEN →
      b.latency.samples ≤ r0 * env.LATENCY_TEST_MAX)
    (hs : step env b c = some b1) :
    b1.latency.state = LATENCY_STATE_PLAY_AND_LISTEN →
      b1.latency.samples ≤ r0 * env.LATENCY_TEST_MAX := by
  cases c with
  | output obuffer bytes oframes =>
    simp only [step, Option.some.injEq] at hs
    obtain ⟨_, _, _, e1, e2, _⟩ := handleoutput_latency env b obuffer bytes oframes
    rw [← hs, e1, e2]
    exact hsam
  | input buffer frames =>
    obtain ⟨r, hr, hb1⟩ := step_input_some env b b1 buffer frames hs
    obtain ⟨hf, hc⟩ := handleinput_accepts env b buffer frames r hr
    rw [← hb1]
    by_cases hcal : calibrates b frames
    · rw [handleinput_of_calibrates env b buffer frames hcal] at hr
      simp only [Option.some.injEq] at hr
      rw [← hr]
      intro _
      exact hmax
    · intro hp1
      have hp : b.latency.state = LATENCY_STATE_PLAY_AND_LISTEN := by
        by_contra hne
        exact (handleinput_threshold_of_not_calibrates env b buffer frames r hr hcal).2.1
          hne hp1
      rw [handleinput_listening env b buffer frames ⟨hf, hc, hp⟩] at hr
      simp only [Option.some.injEq] at hr
      rw [← hr] at hp1 ⊢
      simp only [] at hp1 ⊢
      rw [← hw hp]
      exact play_and_listen_listening_samples env b buffer frames hp1

theorem detect_offset_le (bat : Bat) (buffer : List Int) (frames : Int) :
    (detect_offset bat buffer frames : Int) ≤ (frames.toNat : Int) := by
  unfold detect_offset
  have := scan_loop_le bat.latency.threshold bat.channels frames.toNat 0 buffer
  omega

theorem new_result_bounded (bat : Bat) (buffer : List Int) (frames : Int) (m : Int)
    (hrate : 0 < bat.rate) (hf : frames = (bat.period_size : Int))
    (hsam : bat.latency.samples ≤ m) :
    to_float (new_result bat buffer frames) = new_result bat buffer frames ∧
      new_result bat buffer frames ≤ latency_ms (m + (bat.period_size : Int)) bat.rate := by
  constructor
  · unfold new_result latency_ms
    exact to_float_idem _
  · unfold new_result
    apply latency_ms_mono _ _ _ _ hrate
    have := detect_offset_le bat buffer frames
    rw [hf] at this
    simp only [Int.toNat_ofNat] at this
    rw [hf]
    omega

theorem step_results_bounded (env : Env) (b b1 : Bat) (c : Call) (k : Nat) (bound : ℚ)
    (hinv : number_invariant env b k)
    (hnew : ∀ (buffer : List Int) (frames : Int), listens b frames →
      to_float (new_result b buffer frames) = new_result b buffer frames ∧
        new_result b buffer frames ≤ bound)
    (hall : earlier_results_bounded b bound) (hs : step env b c = some b1) :
    earlier_results_bounded b1 bound := by
  obtain ⟨h1, h2, h3, _, _⟩ := hinv
  cases c with
  | output obuffer bytes oframes =>
    simp only [step, Option.some.injEq] at hs
    obtain ⟨e1, _, e3, _⟩ := handleoutput_latency env b obuffer bytes oframes
    rw [← hs]
    unfold earlier_results_bounded
    rw [e1, e3]
    exact hall
  | input buffer frames =>
    obtain ⟨r, hr, hb1⟩ := step_input_some env b b1 buffer frames hs
    obtain ⟨hf, hch⟩ := handleinput_accepts env b buffer frames r hr
    rw [← hb1]
    by_cases hp : b.latency.state = LATENCY_STATE_PLAY_AND_LISTEN
    · rw [handleinput_listening env b buffer frames ⟨hf, hch, hp⟩] at hr
      simp only [Option.some.injEq] at hr
      rw [← hr]
      have hnum := play_and_listen_number env b buffer frames
      have hres := play_and_listen_result env b buffer frames
      unfold earlier_results_bounded
      by_cases hrec : records_result b buffer frames
      · rw [if_pos hrec] at hres
        have hlen : b.latency.number ≤ (b.latency.result.length : Int) := by omega
        by_cases hinc : records_result b buffer frames ∧ gate_fires b buffer frames = false ∧
            b.latency.number ≠ env.LATENCY_TEST_NUMBER
        · rw [if_pos hinc] at hnum
          rw [hnum, hres]
          have hso := results_so_far_eq env b buffer frames hrec h1 hlen
          rw [results_so_far, play_and_listen_result_of_records env b buffer frames hrec]
            at hso
          simp only [add_sub_cancel_right]
          rw [hso]
          intro x hx
          rcases List.mem_append.mp hx with h | h
          · exact hall x h
          · simp only [List.mem_singleton] at h
            rw [h]
            exact hnew buffer frames ⟨hf, hch, hp⟩
        · rw [if_neg hinc, add_zero] at hnum
          rw [hnum, hres, results_after,
            recorded_results_store_above _ _ _ _ (by omega)]
          exact hall
      · rw [if_neg hrec] at hres
        rw [if_neg (fun hh => hrec hh.1), add_zero] at hnum
        rw [hnum, hres]
        exact hall
    · obtain ⟨e1, e2, _⟩ := handleinput_not_listening env b buffer frames r hp hr
      unfold earlier_results_bounded
      rw [e1, e2]
      exact hall

/-- Along every run from `roundtrip_latency_init` at a positive sample rate
with a non-negative listening window, a context in PLAY_AND_LISTEN has
listened to at most `rate * LATENCY_TEST_MAX` samples, and the earlier results
are values of type `float` of at most the latency of that many samples plus
one block. -/
theorem reachable_results_bounded (env : Env) (bat0 b : Bat) (calls : List Call)
    (hN : 1 ≤ env.LATENCY_TEST_NUMBER)
    (hlen : (bat0.latency.result.length : Int) = env.LATENCY_TEST_NUMBER)
    (hrate : 0 < bat0.rate) (hmax : 0 ≤ env.LATENCY_TEST_MAX)
    (hrun : run env (roundtrip_latency_init env bat0) calls = some b) :
    b.rate = bat0.rate ∧ b.period_size = bat0.period_size ∧
      (b.latency.state = LATENCY_STATE_PLAY_AND_LISTEN →
        b.latency.samples ≤ bat0.rate * env.LATENCY_TEST_MAX) ∧
      earlier_results_bounded b
        (latency_ms (bat0.rate * env.LATENCY_TEST_MAX + (bat0.period_size : Int)) bat0.rate) := by
  have hm : 0 ≤ bat0.rate * env.LATENCY_TEST_MAX := mul_nonneg hrate.le hmax
  have h := run_induction env call_records
    (fun b k => number_invariant env b k ∧
      (b.rate = bat0.rate ∧ (b.latency.state = LATENCY_STATE_PLAY_AND_LISTEN →
        b.latency.wait_samples = bat0.rate * env.LATENCY_TEST_MAX)) ∧
      b.period_size = bat0.period_size ∧
      (b.latency.state = LATENCY_STATE_PLAY_AND_LISTEN →
        b.latency.samples ≤ bat0.rate * env.LATENCY_TEST_MAX) ∧
      earlier_results_bounded b
        (latency_ms (bat0.rate * env.LATENCY_TEST_MAX + (bat0.period_size : Int)) bat0.rate))
    (fun b b1 c k hP hs =>
      ⟨step_number_invariant env b b1 c k hP.1 hs,
        step_wait_invariant env bat0.rate b b1 c hP.2.1 hs,
        by rw [(step_config env b b1 c hs).2.2]; exact hP.2.2.1,
        step_listen_samples env bat0.rate b b1 c hm hP.2.1.2 hP.2.2.2.1 hs,
        step_results_bounded env b b1 c k _ hP.1
          (fun buffer frames hl => by
            have := new_result_bounded b buffer frames (bat0.rate * env.LATENCY_TEST_MAX)
              (by rw [hP.2.1.1]; exact hrate) hl.1 (hP.2.2.2.1 hl.2.2)
            rw [hP.2.1.1, hP.2.2.1] at this
            exact this)
          hP.2.2.2.2 hs⟩)
    calls (roundtrip_latency_init env bat0) b 0
    ⟨roundtrip_latency_init_number_invariant env bat0 hN hlen,
      ⟨by simp [roundtrip_latency_init], by simp [roundtrip_latency_init]⟩,
      by simp [roundtrip_latency_init],
      by simp [roundtrip_latency_init],
      by simp [earlier_results_bounded, roundtrip_latency_init, recorded_results]⟩
    hrun
  exact ⟨h.2.1.1, h.2.2.1, h.2.2.2.1, h.2.2.2.2⟩

theorem run_append_one (env : Env) (c : Call) (calls : List Call) :
    ∀ (b0 b : Bat), run env b0 calls = some b → run env b0 (calls ++ [c]) = step env b c := by
  induction calls with
  | nil =>
    intro b0 b h
    simp only [run, Option.some.injEq] at h
    rw [h]
    simp only [List.nil_append, run]
    cases step env b c <;> rfl
  | cons d ds ih =>
    intro b0 b h
    rw [List.cons_append, run_cons]
    rw [run_cons] at h
    cases hd : step env b0 d with
    | none => rw [hd] at h; cases h
    | some b2 =>
      rw [hd] at h
      simp only [Option.some_bind] at h ⊢
      exact ih b2 b h

/-- C3: in every context reached from `roundtrip_latency_init`, at a
configuration whose longest recordable latency (that of the listening window
`rate * LATENCY_TEST_MAX` plus one block) is at most 200000 ms, a listening
call that records a result (block average above the threshold, accumulated
samples above one block) ends the run in COMPLETE_FAILURE if and only if
`max / min > 2`, for the true maximum and the true minimum of the `number`
results recorded so far, the new one included.  Hence two recorded latencies
whose quotient exceeds 2 end the run in COMPLETE_FAILURE, and a first and only
result never does. -/
theorem reachable_gate (env : Env) (bat0 b : Bat) (calls : List Call) (buffer : List Int)
    (frames : Int)
    (hN : 1 ≤ env.LATENCY_TEST_NUMBER)
    (hlen : (bat0.latency.result.length : Int) = env.LATENCY_TEST_NUMBER)
    (hrate : 0 < bat0.rate) (hrate2 : bat0.rate ≤ 2147483647)
    (hmax : 0 ≤ env.LATENCY_TEST_MAX)
    (hbound : latency_ms (bat0.rate * env.LATENCY_TEST_MAX + (bat0.period_size : Int))
      bat0.rate ≤ 200000)
    (hrun : run env (roundtrip_latency_init env bat0) calls = some b)
    (hl : listens b frames)
    (hrec : records_result b buffer frames) :
    run env (roundtrip_latency_init env bat0) (calls ++ [Call.input buffer frames]) =
      some (play_and_listen env b buffer frames).1 ∧
    results_so_far env b buffer frames =
      recorded_results b.latency.result (b.latency.number - 1).toNat ++
        [new_result b buffer frames] ∧
    ((results_so_far env b buffer frames).length : Int) = b.latency.number ∧
    ((play_and_listen env b buffer frames).1.latency.state = LATENCY_STATE_COMPLETE_FAILURE ↔
      list_max (results_so_far env b buffer frames) /
        list_min (results_so_far env b buffer frames) > 2) ∧
    (∀ x ∈ results_so_far env b buffer frames,
      ∀ y ∈ results_so_far env b buffer frames, x / y > 2 →
        (play_and_listen env b buffer frames).1.latency.state =
          LATENCY_STATE_COMPLETE_FAILURE) ∧
    (b.latency.number = 1 →
      (play_and_listen env b buffer frames).1.latency.state ≠
        LATENCY_STATE_COMPLETE_FAILURE) := by
  obtain ⟨hr1, hr2, hnum1, hlen1, hpos⟩ :=
    reachable_results_positive env bat0 b calls hN hlen hrate hrate2 hrun
  obtain ⟨hb1, hb2, hsam, hbd⟩ :=
    reachable_results_bounded env bat0 b calls hN hlen hrate hmax hrun
  have hframes : 0 ≤ frames := by rw [hl.1]; exact Int.natCast_nonneg _
  have hL := results_so_far_eq env b buffer frames hrec hnum1 hlen1
  obtain ⟨hne, hall⟩ :=
    results_so_far_pos env b buffer frames hrec hr1 hr2 hframes hnum1 hlen1 hpos
  have hnewb := new_result_bounded b buffer frames (bat0.rate * env.LATENCY_TEST_MAX)
    hr1 hl.1 (hsam hl.2.2)
  rw [hb1, hb2] at hnewb
  have hfl : ∀ x ∈ results_so_far env b buffer frames, to_float x = x ∧ x ≤ 200000 := by
    intro x hx
    rw [hL] at hx
    rcases List.mem_append.mp hx with h | h
    · exact ⟨(hbd x h).1, le_trans (hbd x h).2 hbound⟩
    · simp only [List.mem_singleton] at h
      rw [h]
      exact ⟨hnewb.1, le_trans hnewb.2 hbound⟩
  have hmaxmem := list_max_mem _ hne
  have hminmem := list_min_mem _ hne
  have hminpos := hall _ hminmem
  have hmp : 0 < min (list_min (results_so_far env b buffer frames)) 100000 :=
    lt_min hminpos (by norm_num)
  have hminf : to_float (min (list_min (results_so_far env b buffer frames)) 100000) =
      min (list_min (results_so_far env b buffer frames)) 100000 := by
    rcases le_total (list_min (results_so_far env b buffer frames)) 100000 with hc | hc
    · rw [min_eq_left hc]
      exact (hfl _ hminmem).1
    · rw [min_eq_right hc]
      have := to_float_natCast 100000 (by norm_num)
      simpa using this
  have hiff : (play_and_listen env b buffer frames).1.latency.state =
      LATENCY_STATE_COMPLETE_FAILURE ↔
      list_max (results_so_far env b buffer frames) /
        list_min (results_so_far env b buffer frames) > 2 := by
    refine ((play_and_listen_failure_iff_of_records env b buffer frames hrec).trans
      (gate_fires_iff env b buffer frames hrec hne hall)).trans ?_
    rw [to_float_div_gt_two_iff hmp (hfl _ hmaxmem).1 hminf]
    have hmle := (hfl _ hmaxmem).2
    rcases le_total (list_min (results_so_far env b buffer frames)) 100000 with hc | hc
    · rw [min_eq_left hc]
    · rw [min_eq_right hc]
      constructor
      · intro h
        have := (lt_div_iff₀ (by norm_num : (0 : ℚ) < 100000)).mp h
        linarith
      · intro h
        have := (lt_div_iff₀ hminpos).mp h
        linarith
  refine ⟨?_, hL, ?_, hiff, ?_, ?_⟩
  · rw [run_append_one env _ calls _ b hrun]
    simp only [step]
    rw [handleinput_listening env b buffer frames hl]
    rfl
  · simp only [results_so_far, recorded_results, List.length_map, List.length_range]
    omega
  · intro x hx y hy hxy
    rw [hiff]
    have hy0 := hall y hy
    have h1 : 2 * y < x := by
      have := (lt_div_iff₀ hy0).mp hxy
      linarith
    have h2 := list_min_le _ _ hy
    have h3 := list_max_ge _ _ hx
    rw [gt_iff_lt, lt_div_iff₀ hminpos]
    linarith
  · intro h1
    rw [Ne, hiff]
    have hL1 := hL
    rw [h1] at hL1
    simp only [sub_self, Int.toNat_zero, recorded_results, List.range_zero, List.map_nil,
      List.nil_append] at hL1
    rw [hL1]
    have hnew := new_result_pos b buffer frames hrec hr1 hr2 hframes
    simp only [list_max, list_min, List.headD_cons, List.foldl_cons, List.foldl_nil,
      max_self, min_self]
    rw [div_self (ne_of_gt hnew)]
    norm_num

theorem reachable_gate_witness :
    (1 : Int) ≤ env_libm.LATENCY_TEST_NUMBER ∧
    (bat_ten.latency.result.length : Int) = env_libm.LATENCY_TEST_NUMBER ∧
    latency_ms (bat_ten.rate * env_libm.LATENCY_TEST_MAX + (bat_ten.period_size : Int))
      bat_ten.rate ≤ 200000 ∧
    ∃ b, run env_libm (roundtrip_latency_init env_libm bat_ten) calls_two_trials = some b ∧
      listens b 2 ∧ records_result b [0, 5] 2 ∧ b.latency.number = 2 ∧
      results_so_far env_libm b [0, 5] 2 = [300, 700] ∧
      list_max (results_so_far env_libm b [0, 5] 2) /
        list_min (results_so_far env_libm b [0, 5] 2) > 2 ∧
      (play_and_listen env_libm b [0, 5] 2).1.latency.state =
        LATENCY_STATE_COMPLETE_FAILURE := by
  have hrun : ∃ b ∈ run env_libm (roundtrip_latency_init env_libm bat_ten) calls_two_trials,
      listens b 2 ∧ records_result b [0, 5] 2 ∧ b.latency.number = 2 ∧
      results_so_far env_libm b [0, 5] 2 = [300, 700] ∧
      list_max (results_so_far env_libm b [0, 5] 2) /
        list_min (results_so_far env_libm b [0, 5] 2) > 2 := by decide!
  obtain ⟨b, hb, hl, hrec, hnum, hres, hgt⟩ := hrun
  have hbound : latency_ms (bat_ten.rate * env_libm.LATENCY_TEST_MAX +
      (bat_ten.period_size : Int)) bat_ten.rate ≤ 200000 := by decide!
  exact ⟨by decide, by decide, hbound, b, hb, hl, hrec, hnum, hres, hgt,
    (reachable_gate env_libm bat_ten b calls_two_trials [0, 5] 2 (by decide) (by decide)
      (by decide) (by decide) (by decide) hbound hb hl hrec).2.2.2.1.mpr hgt⟩

/-- C4 (as stated) fails: at 7 Hz with periods of seven frames the five trials
detect the signal after 8, 9, 10, 10 and 12 samples; the gate is silent, the
state becomes COMPLETE_SUCCESS and `final_result` is 1399, while the arithmetic
mean of the five entries of `result[]` is exactly 1400. -/
theorem final_result_rounding_counterexample :
    ∃ b, run env_libm (roundtrip_latency_init env_libm bat_seven) calls_five_trials = some b ∧
      listens b 7 ∧ records_result b (late_block 5) 7 ∧
      b.latency.number = env_libm.LATENCY_TEST_NUMBER ∧
      gate_fires b (late_block 5) 7 = false ∧
      results_so_far env_libm b (late_block 5) 7 =
        [latency_ms 8 7, latency_ms 9 7, latency_ms 10 7, latency_ms 10 7, latency_ms 12 7] ∧
      (play_and_listen env_libm b (late_block 5) 7).1.latency.state =
        LATENCY_STATE_COMPLETE_SUCCESS ∧
      (play_and_listen env_libm b (late_block 5) 7).1.latency.final_result = 1399 ∧
      (results_so_far env_libm b (late_block 5) 7).sum / 5 = 1400 ∧
      float_to_int ((results_so_far env_libm b (late_block 5) 7).sum / 5) = 1400 := by
  have hrun : ∃ b ∈ run env_libm (roundtrip_latency_init env_libm bat_seven)
      calls_five_trials,
      listens b 7 ∧ records_result b (late_block 5) 7 ∧
      b.latency.number = env_libm.LATENCY_TEST_NUMBER ∧
      gate_fires b (late_block 5) 7 = false ∧
      results_so_far env_libm b (late_block 5) 7 =
        [latency_ms 8 7, latency_ms 9 7, latency_ms 10 7, latency_ms 10 7, latency_ms 12 7] ∧
      (play_and_listen env_libm b (late_block 5) 7).1.latency.state =
        LATENCY_STATE_COMPLETE_SUCCESS ∧
      (play_and_listen env_libm b (late_block 5) 7).1.latency.final_result = 1399 ∧
      (results_so_far env_libm b (late_block 5) 7).sum / 5 = 1400 ∧
      float_to_int ((results_so_far env_libm b (late_block 5) 7).sum / 5) = 1400 := by
    decide!
  obtain ⟨b, hb, h⟩ := hrun
  exact ⟨b, hb, h⟩

theorem play_and_listen_final_trial_witness :
    ∃ b, run env_libm (roundtrip_latency_init env_libm bat_seven) calls_five_trials = some b ∧
      listens b 7 ∧ records_result b (late_block 4) 7 ∧
      b.latency.number = env_libm.LATENCY_TEST_NUMBER ∧
      gate_fires b (late_block 4) 7 = false ∧
      results_so_far env_libm b (late_block 4) 7 =
        [latency_ms 8 7, latency_ms 9 7, latency_ms 10 7, latency_ms 10 7, latency_ms 11 7] ∧
      float_sum (results_so_far env_libm b (late_block 4) 7) = 3510857 / 512 ∧
      (play_and_listen env_libm b (late_block 4) 7).1.latency.state =
        LATENCY_STATE_COMPLETE_SUCCESS ∧
      (play_and_listen env_libm b (late_block 4) 7).1.latency.final_result = 1371 ∧
      (play_and_listen env_libm b (late_block 4) 7).1.latency.final_result =
        float_to_int (to_float (float_sum (results_so_far env_libm b (late_block 4) 7) /
          to_float (env_libm.LATENCY_TEST_NUMBER : ℚ))) := by
  have hrun : ∃ b ∈ run env_libm (roundtrip_latency_init env_libm bat_seven)
      calls_five_trials,
      listens b 7 ∧ records_result b (late_block 4) 7 ∧
      b.latency.number = env_libm.LATENCY_TEST_NUMBER ∧
      gate_fires b (late_block 4) 7 = false ∧
      results_so_far env_libm b (late_block 4) 7 =
        [latency_ms 8 7, latency_ms 9 7, latency_ms 10 7, latency_ms 10 7, latency_ms 11 7] ∧
      float_sum (results_so_far env_libm b (late_block 4) 7) = 3510857 / 512 ∧
      (play_and_listen env_libm b (late_block 4) 7).1.latency.final_result = 1371 ∧
      (0 < b.rate ∧ b.rate ≤ 2147483647 ∧ 1 ≤ b.latency.number ∧
        b.latency.number ≤ (b.latency.result.length : Int)) ∧
      ∀ x ∈ recorded_results b.latency.result (b.latency.number - 1).toNat, 0 < x := by
    decide!
  obtain ⟨b, hb, hl, hrec, hfinal, hgate, hres, hsum, hfin, ⟨hr1, hr2, hn1, hn2⟩, hpos⟩ := hrun
  have h := play_and_listen_final_trial env_libm b (late_block 4) 7 hrec hfinal hgate hr1 hr2
    (by decide) hn1 hn2 hpos
  exact ⟨b, hb, hl, hrec, hfinal, hgate, hres, hsum, h.1, hfin, h.2.2.2.2.1⟩

theorem reachable_number_bounds_witness :
    (1 : Int) ≤ env_libm.LATENCY_TEST_NUMBER ∧
    (bat_seven.latency.result.length : Int) = env_libm.LATENCY_TEST_NUMBER ∧
    ∃ b, run env_libm (roundtrip_latency_init env_libm bat_seven) calls_five_trials = some b ∧
      b.latency.state = LATENCY_STATE_PLAY_AND_LISTEN ∧
      b.latency.number = 5 ∧
      recordings env_libm (roundtrip_latency_init env_libm bat_seven) calls_five_trials = 4 ∧
      (0 ≤ b.latency.number - 1 ∧ (b.latency.number - 1).toNat < b.latency.result.length) ∧
      b.latency.number =
        (recordings env_libm (roundtrip_latency_init env_libm bat_seven)
          calls_five_trials : Int) + 1 := by
  have hrun : ∃ b ∈ run env_libm (roundtrip_latency_init env_libm bat_seven)
      calls_five_trials,
      b.latency.state = LATENCY_STATE_PLAY_AND_LISTEN ∧ b.latency.number = 5 := by decide!
  obtain ⟨b, hb, hst, hnum⟩ := hrun
  have h := reachable_number_bounds env_libm bat_seven b calls_five_trials (by decide)
    (by decide) hb
  exact ⟨by decide, by decide, b, hb, hst, hnum, by decide!, h.2.2.1,
    h.2.2.2.2 (Or.inl hst)⟩

theorem handleinput_threshold_witness :
    ∃ b, run env_libm (roundtrip_latency_init env_libm bat_seven)
        [Call.input silent_block 7] = some b ∧
      b.latency.state = LATENCY_STATE_MEASURE_FOR_1_SECOND ∧ b.latency.threshold = 0 ∧
      calibrates b 7 ∧
      ∃ r, handleinput env_libm b ambient_block 7 = some r ∧
        r.1.latency.state = LATENCY_STATE_PLAY_AND_LISTEN ∧
        r.1.latency.threshold =
          threshold_of env_libm (calibration_input b ambient_block 7).1
            (calibration_input b ambient_block 7).2 ∧
        r.1.latency.threshold = 44 ∧
        calibrations env_libm r.1
          ([Call.input silent_block 7, Call.input (late_block 1) 7] ++ wait_calls) = 0 ∧
        ∃ b1, run env_libm r.1
            ([Call.input silent_block 7, Call.input (late_block 1) 7] ++ wait_calls) = some b1 ∧
          b1.latency.state = LATENCY_STATE_MEASURE_FOR_1_SECOND_SKIP_LEAD ∧
          b1.latency.number = 2 ∧
          b1.latency.threshold = r.1.latency.threshold := by
  have hrun : ∃ b ∈ run env_libm (roundtrip_latency_init env_libm bat_seven)
      [Call.input silent_block 7],
      b.latency.state = LATENCY_STATE_MEASURE_FOR_1_SECOND ∧ b.latency.threshold = 0 ∧
      calibrates b 7 ∧
      ∃ r ∈ handleinput env_libm b ambient_block 7,
        r.1.latency.threshold = 44 ∧
        calibrations env_libm r.1
          ([Call.input silent_block 7, Call.input (late_block 1) 7] ++ wait_calls) = 0 ∧
        ∃ b1 ∈ run env_libm r.1
            ([Call.input silent_block 7, Call.input (late_block 1) 7] ++ wait_calls),
          b1.latency.state = LATENCY_STATE_MEASURE_FOR_1_SECOND_SKIP_LEAD ∧
          b1.latency.number = 2 := by decide!
  obtain ⟨b, hb, hst, hthr, hcal, r, hr, hr44, hc0, b1, hb1, hst1, hnum1⟩ := hrun
  have h := (handleinput_threshold env_libm).1 b ambient_block 7 r hr
  exact ⟨b, hb, hst, hthr, hcal, r, hr, (h.2.2.mpr hcal).2, h.2.1 hcal, hr44, hc0, b1, hb1,
    hst1, hnum1, (handleinput_threshold env_libm).2.2 r.1 b1 _ hb1 hc0⟩

/-- C12 (as stated) fails: at 2 Hz with periods of two frames, the first block
calibrates the threshold to 0 over silence; three quiet blocks time out, four
blocks are spent waiting, and the ninth block, of amplitude 7, calibrates the
threshold again, to 44: `calculate_threshold` has run twice and a later
`handleinput` call has changed the threshold. -/
theorem threshold_recalibrated_counterexample :
    (run env_libm (roundtrip_latency_init env_libm bat_slow) [Call.input [0, 0] 2]).map
        (fun b => (b.latency.state, b.latency.threshold)) =
      some (LATENCY_STATE_PLAY_AND_LISTEN, 0) ∧
    (run env_libm (roundtrip_latency_init env_libm bat_slow)
      [Call.input [0, 0] 2, Call.input [0, 0] 2, Call.input [0, 0] 2, Call.input [0, 0] 2,
       Call.input [0, 0] 2, Call.input [0, 0] 2, Call.input [0, 0] 2, Call.input [0, 0] 2,
       Call.input [7, 7] 2]).map
        (fun b => (b.latency.state, b.latency.threshold)) =
      some (LATENCY_STATE_PLAY_AND_LISTEN, 44) ∧
    calibrations env_libm (roundtrip_latency_init env_libm bat_slow)
      [Call.input [0, 0] 2, Call.input [0, 0] 2, Call.input [0, 0] 2, Call.input [0, 0] 2,
       Call.input [0, 0] 2, Call.input [0, 0] 2, Call.input [0, 0] 2, Call.input [0, 0] 2,
       Call.input [7, 7] 2] = 2 := by
  exact ⟨by decide!, by decide!, by decide!⟩

/-! ## The value of the threshold -/

theorem threshold_of_average_eq (env : Env) (average : ℚ) :
    threshold_of_average env average = float_to_int (threshold_amplitude env average) := rfl

theorem calculate_threshold_threshold (env : Env) (bat : Bat) :
    (calculate_threshold env bat).latency.threshold =
      threshold_of env bat.latency.sum bat.latency.samples := rfl

/-- The truncation of a non-negative amplitude, between fifth powers. -/
theorem float_to_int_pow_bounds (x lo hi : ℚ) (hlo0 : 0 ≤ lo) (hlo : lo ≤ x) (hhi : x ≤ hi) :
    0 ≤ float_to_int x ∧ ((float_to_int x : Int) : ℚ) ^ 5 ≤ hi ^ 5 ∧
      lo ^ 5 < (((float_to_int x : Int) : ℚ) + 1) ^ 5 := by
  have hx : 0 ≤ x := le_trans hlo0 hlo
  obtain ⟨h1, h2⟩ := float_to_int_of_nonneg x hx
  have h0 : 0 ≤ float_to_int x := by
    unfold float_to_int
    rw [if_pos hx]
    exact Int.floor_nonneg.mpr hx
  have h0q : (0 : ℚ) ≤ ((float_to_int x : Int) : ℚ) := by exact_mod_cast h0
  refine ⟨h0, pow_le_pow_left h0q (le_trans h1 hhi) 5, ?_⟩
  exact lt_of_le_of_lt (pow_le_pow_left hlo0 hlo 5)
    (pow_lt_pow_left h2 hx (by norm_num))

theorem env_libm_log10f_mono (x y : ℚ) (h : x ≤ y) :
    env_libm.log10f x ≤ env_libm.log10f y := by
  simp only [env_libm]
  split_ifs <;> first | (norm_num; done) | (exfalso; linarith)

theorem env_libm_powf_mono (x y : ℚ) (h : x ≤ y) :
    env_libm.powf 10 x ≤ env_libm.powf 10 y := by
  simp only [env_libm]
  split_ifs <;> first | (norm_num; done) | (exfalso; linarith)

theorem env_libm_powf_nonneg (y : ℚ) : 0 ≤ env_libm.powf 10 y := by
  simp only [env_libm]
  split_ifs <;> norm_num

theorem calibration_average_mono (s1 s2 : ℚ) (n : Int) (hn : 0 < n) (h : s1 ≤ s2) :
    calibration_average s1 n ≤ calibration_average s2 n := by
  unfold calibration_average
  have hp := to_float_rate_pos n hn
  apply to_float_mono
  apply div_le_div_of_nonneg_right _ (by norm_num : (0 : ℚ) ≤ 32767)
  apply to_float_mono
  exact div_le_div_of_nonneg_right h hp.le

theorem calibration_average_nonneg (s : ℚ) (n : Int) (hn : 0 < n) (h : 0 ≤ s) :
    0 ≤ calibration_average s n := by
  unfold calibration_average
  have hp := to_float_rate_pos n hn
  apply to_float_nonneg
  apply div_nonneg _ (by norm_num : (0 : ℚ) ≤ 32767)
  apply to_float_nonneg
  exact div_nonneg h hp.le

theorem threshold_of_average_mono (env : Env)
    (hlog : ∀ x y : ℚ, 0 ≤ x → x ≤ y → env.log10f x ≤ env.log10f y)
    (hpow : ∀ x y : ℚ, x ≤ y → env.powf 10 x ≤ env.powf 10 y)
    (a1 a2 : ℚ) (h0 : 0 ≤ a1) (h : a1 ≤ a2) :
    threshold_of_average env a1 ≤ threshold_of_average env a2 := by
  unfold threshold_of_average average_db
  apply float_to_int_mono
  apply to_float_mono
  apply mul_le_mul_of_nonneg_right _ (by norm_num : (0 : ℚ) ≤ 32767)
  apply hpow
  apply to_float_mono
  apply div_le_div_of_nonneg_right _ (by norm_num : (0 : ℚ) ≤ 20)
  apply to_float_mono
  have := to_float_mono (mul_le_mul_of_nonneg_left (hlog a1 a2 h0 h)
    (by norm_num : (0 : ℚ) ≤ 20))
  linarith

theorem float_to_int_two_mul_bounds (x1 x2 d : ℚ) (h1 : 0 ≤ x1) (h2 : 0 ≤ x2)
    (h : |x2 - 2 * x1| ≤ d) :
    2 * ((float_to_int x1 : Int) : ℚ) - 1 - d < ((float_to_int x2 : Int) : ℚ) ∧
      ((float_to_int x2 : Int) : ℚ) < 2 * ((float_to_int x1 : Int) : ℚ) + 2 + d := by
  obtain ⟨a1, a2⟩ := float_to_int_of_nonneg x1 h1
  obtain ⟨b1, b2⟩ := float_to_int_of_nonneg x2 h2
  obtain ⟨c1, c2⟩ := abs_le.mp h
  constructor <;> linarith

end Latencytest
